import Mathlib

/-!
Wren primitives (`src/primitives.c`).

A shallow embedding of the native method bodies of `primitives.c` and of the
bootstrap routine `loadCore`, followed by theorems about them.

Conventions of the embedding.

* A C `int` is a 32-bit two's-complement integer, modelled as an `Int` kept in
  range by `wrapInt`.
* A C `double` is modelled by its exact value (`Double`): sign, magnitude and
  binary exponent, or an infinity, or NaN.  Every IEEE-754 double is such a
  value.  Rounding arithmetic is supplied by the host (`Host`); `ieeeAdd`,
  `ieeeSub` and `ieeeMul` are the operations of IEEE 754 binary64.
* A `char*` is the list of bytes stored from the pointer onwards; the text of
  the C string is what precedes the first zero byte (`cstr`).
* A conversion of a `size_t` to `int` reduces the value modulo 2^32, as the
  usual implementations do.
* Heap objects live in `VM.heap` and are referred to by their index.
* A primitive returns `none` where the C code applies an unchecked `AS_*`
  cast to a value of another kind: the source gives no behaviour there.
* `loadCore` takes the pointer of a global without a check.  Where it writes a
  method entry through a pointer that is not that of a class the embedding
  gives no result: what the C code does there depends on the layout of the
  memory behind the pointer, which the source does not fix.
-/

namespace Wren

/-! ## Machine integers -/

/-- Largest value of a C `int`. -/
def INT_MAX : Int := 2147483647

/-- Smallest value of a C `int`. -/
def INT_MIN : Int := -2147483648

/-- Two's-complement reduction of an integer to the range of a C `int`. -/
def wrapInt (z : Int) : Int := (z + 2147483648) % 4294967296 - 2147483648

/-! ## Doubles -/

/-- The values of a C `double`: `finite neg m e` stands for `(-1)^neg * m * 2^e`. -/
inductive Double where
  | finite (neg : Bool) (m : Nat) (e : Int)
  | inf (neg : Bool)
  | nan
  deriving DecidableEq, Repr

/-- The integer of magnitude `n` and sign bit `neg`. -/
def signed (neg : Bool) (n : Nat) : Int := if neg then -(n : Int) else (n : Int)

/-- The magnitude `m * 2^e` truncated to a natural number. -/
def truncMag (m : Nat) (e : Int) : Nat :=
  if 0 ≤ e then m * 2 ^ e.toNat else m / 2 ^ (-e).toNat

/-- The value `a - b` of two finite doubles, scaled by a common power of two,
so that its sign is the order of `a` and `b`. -/
def finiteDiff (na : Bool) (ma : Nat) (ea : Int) (nb : Bool) (mb : Nat) (eb : Int) : Int :=
  signed na (ma * 2 ^ (ea - min ea eb).toNat) - signed nb (mb * 2 ^ (eb - min ea eb).toNat)

namespace Double

/-- The integer a double is equal to, when it is finite and has no fractional part. -/
def intValue? : Double → Option Int
  | finite neg m e =>
    if 0 ≤ e then some (signed neg (m * 2 ^ e.toNat))
    else if m % 2 ^ (-e).toNat = 0 then some (signed neg (m / 2 ^ (-e).toNat))
    else none
  | inf _ => none
  | nan => none

/-- C `a == b` on doubles. -/
def eq : Double → Double → Bool
  | finite na ma ea, finite nb mb eb => decide (finiteDiff na ma ea nb mb eb = 0)
  | inf a, inf b => a == b
  | _, _ => false

/-- C `a != b` on doubles. -/
def ne (a b : Double) : Bool := !(eq a b)

/-- C `a < b` on doubles. -/
def lt : Double → Double → Bool
  | finite na ma ea, finite nb mb eb => decide (finiteDiff na ma ea nb mb eb < 0)
  | finite _ _ _, inf b => !b
  | inf a, finite _ _ _ => a
  | inf a, inf b => a && !b
  | _, _ => false

/-- C `a > b` on doubles. -/
def gt (a b : Double) : Bool := lt b a

/-- C `a <= b` on doubles. -/
def le (a b : Double) : Bool := lt a b || eq a b

/-- C `a >= b` on doubles. -/
def ge (a b : Double) : Bool := le b a

/-- C `-a` on doubles. -/
def neg : Double → Double
  | finite n m e => finite (!n) m e
  | inf n => inf (!n)
  | nan => nan

/-- C `fabs(a)`. -/
def abs : Double → Double
  | finite _ m e => finite false m e
  | inf _ => inf false
  | nan => nan

end Double

/-- C conversion `(double)i` of an `int` (exact: every `int` is a double). -/
def intToDouble (i : Int) : Double := Double.finite (decide (i < 0)) i.natAbs 0

/-! ## Values, objects and the VM

`value.h` and `vm.h` are not part of `primitives.c`; the types below follow the
data model of the specification (section 3) and the fields `primitives.c` uses. -/

/-- Address of a heap object: its index in `VM.heap`. -/
abbrev Ref := Nat

/-- Modelled from the spec: the type `Value` of `value.h`, a tagged union of
booleans, null, numbers and object references. -/
inductive Value where
  | bool (b : Bool)
  | null
  | num (d : Double)
  | obj (ref : Ref)
  deriving DecidableEq, Repr

/-- The native functions that `DEF_PRIMITIVE` defines; a value of this type
stands for the function pointer `primitive_<name>`. -/
inductive Prim where
  | bool_not | bool_eqeq | bool_bangeq | bool_toString
  | fn_eqeq | fn_bangeq
  | list_count | list_subscript
  | num_abs | num_toString | num_negate
  | num_minus | num_plus | num_multiply | num_divide | num_mod
  | num_lt | num_gt | num_lte | num_gte | num_eqeq | num_bangeq
  | string_contains | string_count | string_toString | string_plus
  | string_eqeq | string_bangeq | string_subscript
  | io_write | os_clock
  deriving DecidableEq, Repr

/-- The native functions that `DEF_FIBER_PRIMITIVE` defines. -/
inductive FiberPrim where
  | fn_call0 | fn_call1 | fn_call2 | fn_call3 | fn_call4
  | fn_call5 | fn_call6 | fn_call7 | fn_call8
  deriving DecidableEq, Repr

/-- Modelled from the spec: a method table entry, its kind (`METHOD_NONE`,
`METHOD_PRIMITIVE`, `METHOD_FIBER`, `METHOD_BLOCK`) together with the
function it points to. -/
inductive Method where
  | none
  | primitive (p : Prim)
  | fiber (p : FiberPrim)
  | block (fn : Ref)
  deriving DecidableEq, Repr

/-- Modelled from the spec: `ObjClass`, with its method table indexed by
symbol id. -/
structure ObjClass where
  metaclass : Option Ref
  superclass : Option Ref
  numFields : Nat
  methods : Nat → Method

/-- Modelled from the spec: the heap object kinds of `value.h`.  A string is
its `char*` buffer, a list its elements (`count` is their number), a function
is a reference to compiled code. -/
inductive Obj where
  | string (value : List Nat)
  | list (elements : List Value)
  | fn (code : Nat)
  | cls (c : ObjClass)
  | inst (classObj : Ref) (fields : List Value)

/-- Modelled from the spec: the fields of `VM` that `primitives.c` uses
(`methods` is the symbol table of method names), the heap, the global
variables that `findGlobal` reads, and the bytes written to standard output. -/
structure VM where
  methods : List String
  heap : List Obj
  globals : List (String × Value)
  objectClass : Ref
  boolClass : Ref
  classClass : Ref
  fnClass : Ref
  listClass : Ref
  nullClass : Ref
  numClass : Ref
  stringClass : Ref
  unsupported : Value
  stdout : List Nat

/-- Modelled from the spec: a call frame of a fiber. -/
structure CallFrame where
  fn : Ref
  ip : Nat
  stackStart : Int
  deriving DecidableEq, Repr

/-- Modelled from the spec: a fiber, its value stack (`stackSize` is its
length) and its frame stack (`numFrames` is its length, the last frame is the
innermost). -/
structure Fiber where
  stack : List Value
  frames : List CallFrame
  deriving DecidableEq, Repr

/-- What lies outside `primitives.c` and is taken as given: the rounding
floating-point arithmetic of the host, the result of a conversion the C
standard leaves undefined, the contents of memory that was allocated and not
yet written, `sprintf` with `%.14g`, the process clock in seconds, and the
display form that `printValue` of `value.c` prints. -/
structure Host where
  fadd : Double → Double → Double
  fsub : Double → Double → Double
  fmul : Double → Double → Double
  fdiv : Double → Double → Double
  fmod : Double → Double → Double
  castUndef : Double → Int
  fresh : Nat → Nat
  formatNum : Double → List Nat
  clock : Double
  printValue : VM → Value → List Nat

/-- C conversion `(int)d`: truncation toward zero when the truncated value is an
`int`; otherwise the host's result, which is some `int`. -/
def doubleToInt (hw : Host) (d : Double) : Int :=
  match d with
  | Double.finite neg m e =>
    if INT_MIN ≤ signed neg (truncMag m e) ∧ signed neg (truncMag m e) ≤ INT_MAX
    then signed neg (truncMag m e)
    else wrapInt (hw.castUndef d)
  | _ => wrapInt (hw.castUndef d)

/-! ## Value tests and casts (`IS_*`, `AS_*`, `*_VAL`) -/

/-- The object a value refers to. -/
def objOf (vm : VM) (v : Value) : Option Obj :=
  match v with
  | Value.obj r => vm.heap[r]?
  | _ => none

/-- `IS_BOOL(v)`. -/
def IS_BOOL (v : Value) : Bool :=
  match v with
  | Value.bool _ => true
  | _ => false

/-- `IS_NUM(v)`. -/
def IS_NUM (v : Value) : Bool :=
  match v with
  | Value.num _ => true
  | _ => false

/-- `IS_NULL(v)`. -/
def IS_NULL (v : Value) : Bool :=
  match v with
  | Value.null => true
  | _ => false

/-- `IS_FN(v)`. -/
def IS_FN (vm : VM) (v : Value) : Bool :=
  match objOf vm v with
  | some (Obj.fn _) => true
  | _ => false

/-- `IS_STRING(v)`. -/
def IS_STRING (vm : VM) (v : Value) : Bool :=
  match objOf vm v with
  | some (Obj.string _) => true
  | _ => false

/-- `IS_LIST(v)`. -/
def IS_LIST (vm : VM) (v : Value) : Bool :=
  match objOf vm v with
  | some (Obj.list _) => true
  | _ => false

/-- `AS_BOOL(v)`. -/
def AS_BOOL (v : Value) : Option Bool :=
  match v with
  | Value.bool b => some b
  | _ => none

/-- `AS_NUM(v)`. -/
def AS_NUM (v : Value) : Option Double :=
  match v with
  | Value.num d => some d
  | _ => none

/-- `AS_FN(v)`: the pointer to the function object. -/
def AS_FN (vm : VM) (v : Value) : Option Ref :=
  match v, objOf vm v with
  | Value.obj r, some (Obj.fn _) => some r
  | _, _ => none

/-- `AS_STRING(v)`: the pointer to the string object. -/
def AS_STRING (vm : VM) (v : Value) : Option Ref :=
  match v, objOf vm v with
  | Value.obj r, some (Obj.string _) => some r
  | _, _ => none

/-- `AS_CSTRING(v)`: the `char*` of a string object. -/
def AS_CSTRING (vm : VM) (v : Value) : Option (List Nat) :=
  match objOf vm v with
  | some (Obj.string value) => some value
  | _ => none

/-- `AS_LIST(v)`: the elements of a list object. -/
def AS_LIST (vm : VM) (v : Value) : Option (List Value) :=
  match objOf vm v with
  | some (Obj.list elements) => some elements
  | _ => none

/-- `AS_CLASS(v)`: the pointer to the class object. -/
def AS_CLASS (vm : VM) (v : Value) : Option Ref :=
  match v, objOf vm v with
  | Value.obj r, some (Obj.cls _) => some r
  | _, _ => none

/-- `BOOL_VAL(b)`. -/
def BOOL_VAL (b : Bool) : Value := Value.bool b

/-- `NUM_VAL(d)`. -/
def NUM_VAL (d : Double) : Value := Value.num d

/-- `TRUE_VAL`. -/
def TRUE_VAL : Value := Value.bool true

/-- `FALSE_VAL`. -/
def FALSE_VAL : Value := Value.bool false

/-- `NULL_VAL`. -/
def NULL_VAL : Value := Value.null

/-! ## The C string library -/

/-- The text of the C string stored in a buffer: the bytes before the first
zero byte. -/
def cstr (buf : List Nat) : List Nat := buf.takeWhile (fun c => c != 0)

/-- `strlen(s)`. -/
def strlen (buf : List Nat) : Nat := (cstr buf).length

/-- `strcmp(a, b)`: the difference of the first pair of bytes that differ, zero
when both strings end together. -/
def strcmp : List Nat → List Nat → Int
  | [], [] => 0
  | [], y :: _ => 0 - (y : Int)
  | x :: _, [] => (x : Int)
  | x :: xs, y :: ys =>
    if x ≠ y then (x : Int) - (y : Int)
    else if x = 0 then 0
    else strcmp xs ys

/-- Offset of the first occurrence of `needle` in `hay` at or after `off`,
where `hay` is what remains of the haystack text from `off` on. -/
def strstrFrom (needle : List Nat) : List Nat → Nat → Option Nat
  | [], off => if needle = [] then some off else none
  | h :: t, off =>
    if needle.isPrefixOf (h :: t) then some off else strstrFrom needle t (off + 1)

/-- `strstr(hay, needle)`: the offset of the first occurrence of the text of
`needle` in the text of `hay`, or `none` for `NULL`. -/
def strstr (hay needle : List Nat) : Option Nat :=
  strstrFrom (cstr needle) (cstr hay) 0

/-- Overwrite the bytes of `buf` from offset `off` on with `data`. -/
def writeAt (buf : List Nat) (off : Nat) (data : List Nat) : List Nat :=
  buf.take off ++ data ++ buf.drop (off + data.length)

/-- `strcpy(dst + off, src)`: copies the text of `src` and its terminator. -/
def strcpy (dst : List Nat) (off : Nat) (src : List Nat) : List Nat :=
  writeAt dst off (cstr src ++ [0])

/-- `strncpy(dst, src, n)` into the start of `dst`: the first `n` bytes of the
text of `src`, padded with zero bytes. -/
def strncpy (dst : List Nat) (src : List Nat) (n : Nat) : List Nat :=
  writeAt dst 0 ((List.range n).map (fun i => (cstr src).getD i 0))

/-! ## Object construction (`vm.c`, not part of `primitives.c`) -/

/-- Replace the heap object at address `r`. -/
def VM.store (vm : VM) (r : Ref) (o : Obj) : VM :=
  { vm with heap := vm.heap.set r o }

/-- Allocation: the new object is placed at the next free address. -/
def VM.alloc (vm : VM) (o : Obj) : VM :=
  { vm with heap := vm.heap ++ [o] }

/-- Modelled from the spec: `newString(vm, text, length)` allocates a string
object with a buffer of `length + 1` bytes, which holds the first `length`
bytes of `text` and a terminator when a text is given, and is left unwritten
when `text` is `NULL`. -/
def newString (hw : Host) (vm : VM) (text : Option (List Nat)) (length : Nat) : Value × VM :=
  let raw := (List.range (length + 1)).map hw.fresh
  let buf :=
    match text with
    | some t => writeAt (strncpy raw t length) length [0]
    | none => raw
  (Value.obj vm.heap.length, vm.alloc (Obj.string buf))

/-- The assignment `string->value[i] = c` on the string object at `r`. -/
def storeByte (vm : VM) (r : Ref) (i : Nat) (c : Nat) : Option VM :=
  match vm.heap[r]? with
  | some (Obj.string buf) => if i < buf.length then some (vm.store r (Obj.string (buf.set i c))) else none
  | _ => none

/-- The call `strcpy(string->value + off, src)` on the string object at `r`. -/
def strcpyTo (vm : VM) (r : Ref) (off : Nat) (src : List Nat) : Option VM :=
  match vm.heap[r]? with
  | some (Obj.string buf) =>
    if off + strlen src + 1 ≤ buf.length then some (vm.store r (Obj.string (strcpy buf off src))) else none
  | _ => none

/-- Modelled from the spec: `callFunction(fiber, fn, numArgs)` of `vm.c` (the
`invokeBlock` of the specification) pushes one frame for `fn` whose slots start
at `stackSize - numArgs`. -/
def callFunction (fiber : Fiber) (fn : Ref) (numArgs : Int) : Fiber :=
  { fiber with
    frames := fiber.frames ++ [{ fn := fn, ip := 0, stackStart := (fiber.stack.length : Int) - numArgs }] }

/-! ## The primitives -/

/-- The result of a primitive: the value returned and the VM it leaves. -/
abbrev Result := Option (Value × VM)

/-- `DEF_PRIMITIVE(bool_not)`. -/
def primitive_bool_not (_hw : Host) (vm : VM) (args : List Value) : Result :=
  match args[0]? with
  | some a0 =>
    match AS_BOOL a0 with
    | some b => some (BOOL_VAL (!b), vm)
    | none => none
  | none => none

/-- `DEF_PRIMITIVE(bool_eqeq)`. -/
def primitive_bool_eqeq (_hw : Host) (vm : VM) (args : List Value) : Result :=
  match args[1]? with
  | some a1 =>
    if !(IS_BOOL a1) then some (FALSE_VAL, vm)
    else
      match args[0]? with
      | some a0 =>
        match AS_BOOL a0, AS_BOOL a1 with
        | some x, some y => some (BOOL_VAL (x == y), vm)
        | _, _ => none
      | none => none
  | none => none

/-- `DEF_PRIMITIVE(bool_bangeq)`. -/
def primitive_bool_bangeq (_hw : Host) (vm : VM) (args : List Value) : Result :=
  match args[1]? with
  | some a1 =>
    if !(IS_BOOL a1) then some (TRUE_VAL, vm)
    else
      match args[0]? with
      | some a0 =>
        match AS_BOOL a0, AS_BOOL a1 with
        | some x, some y => some (BOOL_VAL (x != y), vm)
        | _, _ => none
      | none => none
  | none => none

/-- `DEF_PRIMITIVE(bool_toString)`; the texts are "true" and "false". -/
def primitive_bool_toString (hw : Host) (vm : VM) (args : List Value) : Result :=
  match args[0]? with
  | some a0 =>
    match AS_BOOL a0 with
    | some true => some (newString hw vm (some [116, 114, 117, 101, 0]) 4)
    | some false => some (newString hw vm (some [102, 97, 108, 115, 101, 0]) 5)
    | none => none
  | none => none

/-- The body shared by `fn_call0` .. `fn_call8`:
`callFunction(fiber, AS_FN(args[0]), numArgs)`. -/
def fn_call (numArgs : Int) (vm : VM) (fiber : Fiber) (args : List Value) : Option Fiber :=
  match args[0]? with
  | some a0 =>
    match AS_FN vm a0 with
    | some fn => some (callFunction fiber fn numArgs)
    | none => none
  | none => none

/-- `DEF_FIBER_PRIMITIVE(fn_call0)`. -/
def primitive_fn_call0 (vm : VM) (fiber : Fiber) (args : List Value) : Option Fiber :=
  fn_call 1 vm fiber args

/-- `DEF_FIBER_PRIMITIVE(fn_call1)`. -/
def primitive_fn_call1 (vm : VM) (fiber : Fiber) (args : List Value) : Option Fiber :=
  fn_call 2 vm fiber args

/-- `DEF_FIBER_PRIMITIVE(fn_call2)`. -/
def primitive_fn_call2 (vm : VM) (fiber : Fiber) (args : List Value) : Option Fiber :=
  fn_call 3 vm fiber args

/-- `DEF_FIBER_PRIMITIVE(fn_call3)`. -/
def primitive_fn_call3 (vm : VM) (fiber : Fiber) (args : List Value) : Option Fiber :=
  fn_call 4 vm fiber args

/-- `DEF_FIBER_PRIMITIVE(fn_call4)`. -/
def primitive_fn_call4 (vm : VM) (fiber : Fiber) (args : List Value) : Option Fiber :=
  fn_call 5 vm fiber args

/-- `DEF_FIBER_PRIMITIVE(fn_call5)`. -/
def primitive_fn_call5 (vm : VM) (fiber : Fiber) (args : List Value) : Option Fiber :=
  fn_call 6 vm fiber args

/-- `DEF_FIBER_PRIMITIVE(fn_call6)`. -/
def primitive_fn_call6 (vm : VM) (fiber : Fiber) (args : List Value) : Option Fiber :=
  fn_call 7 vm fiber args

/-- `DEF_FIBER_PRIMITIVE(fn_call7)`. -/
def primitive_fn_call7 (vm : VM) (fiber : Fiber) (args : List Value) : Option Fiber :=
  fn_call 8 vm fiber args

/-- `DEF_FIBER_PRIMITIVE(fn_call8)`. -/
def primitive_fn_call8 (vm : VM) (fiber : Fiber) (args : List Value) : Option Fiber :=
  fn_call 9 vm fiber args

/-- `DEF_PRIMITIVE(fn_eqeq)`: the comparison is of the two pointers. -/
def primitive_fn_eqeq (_hw : Host) (vm : VM) (args : List Value) : Result :=
  match args[1]? with
  | some a1 =>
    if !(IS_FN vm a1) then some (FALSE_VAL, vm)
    else
      match args[0]? with
      | some a0 =>
        match AS_FN vm a0, AS_FN vm a1 with
        | some x, some y => some (BOOL_VAL (x == y), vm)
        | _, _ => none
      | none => none
  | none => none

/-- `DEF_PRIMITIVE(fn_bangeq)`. -/
def primitive_fn_bangeq (_hw : Host) (vm : VM) (args : List Value) : Result :=
  match args[1]? with
  | some a1 =>
    if !(IS_FN vm a1) then some (TRUE_VAL, vm)
    else
      match args[0]? with
      | some a0 =>
        match AS_FN vm a0, AS_FN vm a1 with
        | some x, some y => some (BOOL_VAL (x != y), vm)
        | _, _ => none
      | none => none
  | none => none

/-- `DEF_PRIMITIVE(list_count)`. -/
def primitive_list_count (_hw : Host) (vm : VM) (args : List Value) : Result :=
  match args[0]? with
  | some a0 =>
    match AS_LIST vm a0 with
    | some list => some (NUM_VAL (intToDouble (list.length : Int)), vm)
    | none => none
  | none => none

/-- `DEF_PRIMITIVE(list_subscript)`.  `list->count` is the number of elements,
an `int`; the sum `list->count + index` is taken in `int`. -/
def primitive_list_subscript (hw : Host) (vm : VM) (args : List Value) : Result :=
  match args[1]? with
  | some a1 =>
    if !(IS_NUM a1) then some (NULL_VAL, vm)
    else
      match AS_NUM a1 with
      | some indexNum =>
        let index := doubleToInt hw indexNum
        if Double.ne indexNum (intToDouble index) then some (NULL_VAL, vm)
        else
          match args[0]? with
          | some a0 =>
            match AS_LIST vm a0 with
            | some list =>
              let index := if index < 0 then wrapInt ((list.length : Int) + index) else index
              if index < 0 ∨ index ≥ (list.length : Int) then some (NULL_VAL, vm)
              else
                match list[index.toNat]? with
                | some v => some (v, vm)
                | none => none
            | none => none
          | none => none
      | none => none
  | none => none

/-- `DEF_PRIMITIVE(num_abs)`. -/
def primitive_num_abs (_hw : Host) (vm : VM) (args : List Value) : Result :=
  match args[0]? with
  | some a0 =>
    match AS_NUM a0 with
    | some x => some (NUM_VAL (Double.abs x), vm)
    | none => none
  | none => none

/-- `DEF_PRIMITIVE(num_toString)`: `temp` holds the formatted number and its
terminator. -/
def primitive_num_toString (hw : Host) (vm : VM) (args : List Value) : Result :=
  match args[0]? with
  | some a0 =>
    match AS_NUM a0 with
    | some x =>
      let temp := hw.formatNum x ++ [0]
      some (newString hw vm (some temp) (strlen temp))
    | none => none
  | none => none

/-- `DEF_PRIMITIVE(num_negate)`. -/
def primitive_num_negate (_hw : Host) (vm : VM) (args : List Value) : Result :=
  match args[0]? with
  | some a0 =>
    match AS_NUM a0 with
    | some x => some (NUM_VAL (Double.neg x), vm)
    | none => none
  | none => none

/-- `DEF_PRIMITIVE(num_minus)`. -/
def primitive_num_minus (hw : Host) (vm : VM) (args : List Value) : Result :=
  match args[1]? with
  | some a1 =>
    if !(IS_NUM a1) then some (vm.unsupported, vm)
    else
      match args[0]? with
      | some a0 =>
        match AS_NUM a0, AS_NUM a1 with
        | some x, some y => some (NUM_VAL (hw.fsub x y), vm)
        | _, _ => none
      | none => none
  | none => none

/-- `DEF_PRIMITIVE(num_plus)`. -/
def primitive_num_plus (hw : Host) (vm : VM) (args : List Value) : Result :=
  match args[1]? with
  | some a1 =>
    if !(IS_NUM a1) then some (vm.unsupported, vm)
    else
      match args[0]? with
      | some a0 =>
        match AS_NUM a0, AS_NUM a1 with
        | some x, some y => some (NUM_VAL (hw.fadd x y), vm)
        | _, _ => none
      | none => none
  | none => none

/-- `DEF_PRIMITIVE(num_multiply)`. -/
def primitive_num_multiply (hw : Host) (vm : VM) (args : List Value) : Result :=
  match args[1]? with
  | some a1 =>
    if !(IS_NUM a1) then some (vm.unsupported, vm)
    else
      match args[0]? with
      | some a0 =>
        match AS_NUM a0, AS_NUM a1 with
        | some x, some y => some (NUM_VAL (hw.fmul x y), vm)
        | _, _ => none
      | none => none
  | none => none

/-- `DEF_PRIMITIVE(num_divide)`. -/
def primitive_num_divide (hw : Host) (vm : VM) (args : List Value) : Result :=
  match args[1]? with
  | some a1 =>
    if !(IS_NUM a1) then some (vm.unsupported, vm)
    else
      match args[0]? with
      | some a0 =>
        match AS_NUM a0, AS_NUM a1 with
        | some x, some y => some (NUM_VAL (hw.fdiv x y), vm)
        | _, _ => none
      | none => none
  | none => none

/-- `DEF_PRIMITIVE(num_mod)`. -/
def primitive_num_mod (hw : Host) (vm : VM) (args : List Value) : Result :=
  match args[1]? with
  | some a1 =>
    if !(IS_NUM a1) then some (vm.unsupported, vm)
    else
      match args[0]? with
      | some a0 =>
        match AS_NUM a0, AS_NUM a1 with
        | some x, some y => some (NUM_VAL (hw.fmod x y), vm)
        | _, _ => none
      | none => none
  | none => none

/-- `DEF_PRIMITIVE(num_lt)`. -/
def primitive_num_lt (_hw : Host) (vm : VM) (args : List Value) : Result :=
  match args[1]? with
  | some a1 =>
    if !(IS_NUM a1) then some (vm.unsupported, vm)
    else
      match args[0]? with
      | some a0 =>
        match AS_NUM a0, AS_NUM a1 with
        | some x, some y => some (BOOL_VAL (Double.lt x y), vm)
        | _, _ => none
      | none => none
  | none => none

/-- `DEF_PRIMITIVE(num_gt)`. -/
def primitive_num_gt (_hw : Host) (vm : VM) (args : List Value) : Result :=
  match args[1]? with
  | some a1 =>
    if !(IS_NUM a1) then some (vm.unsupported, vm)
    else
      match args[0]? with
      | some a0 =>
        match AS_NUM a0, AS_NUM a1 with
        | some x, some y => some (BOOL_VAL (Double.gt x y), vm)
        | _, _ => none
      | none => none
  | none => none

/-- `DEF_PRIMITIVE(num_lte)`. -/
def primitive_num_lte (_hw : Host) (vm : VM) (args : List Value) : Result :=
  match args[1]? with
  | some a1 =>
    if !(IS_NUM a1) then some (vm.unsupported, vm)
    else
      match args[0]? with
      | some a0 =>
        match AS_NUM a0, AS_NUM a1 with
        | some x, some y => some (BOOL_VAL (Double.le x y), vm)
        | _, _ => none
      | none => none
  | none => none

/-- `DEF_PRIMITIVE(num_gte)`. -/
def primitive_num_gte (_hw : Host) (vm : VM) (args : List Value) : Result :=
  match args[1]? with
  | some a1 =>
    if !(IS_NUM a1) then some (vm.unsupported, vm)
    else
      match args[0]? with
      | some a0 =>
        match AS_NUM a0, AS_NUM a1 with
        | some x, some y => some (BOOL_VAL (Double.ge x y), vm)
        | _, _ => none
      | none => none
  | none => none

/-- `DEF_PRIMITIVE(num_eqeq)`. -/
def primitive_num_eqeq (_hw : Host) (vm : VM) (args : List Value) : Result :=
  match args[1]? with
  | some a1 =>
    if !(IS_NUM a1) then some (FALSE_VAL, vm)
    else
      match args[0]? with
      | some a0 =>
        match AS_NUM a0, AS_NUM a1 with
        | some x, some y => some (BOOL_VAL (Double.eq x y), vm)
        | _, _ => none
      | none => none
  | none => none

/-- `DEF_PRIMITIVE(num_bangeq)`. -/
def primitive_num_bangeq (_hw : Host) (vm : VM) (args : List Value) : Result :=
  match args[1]? with
  | some a1 =>
    if !(IS_NUM a1) then some (TRUE_VAL, vm)
    else
      match args[0]? with
      | some a0 =>
        match AS_NUM a0, AS_NUM a1 with
        | some x, some y => some (BOOL_VAL (Double.ne x y), vm)
        | _, _ => none
      | none => none
  | none => none

/-- `DEF_PRIMITIVE(string_contains)`. -/
def primitive_string_contains (_hw : Host) (vm : VM) (args : List Value) : Result :=
  match args[0]?, args[1]? with
  | some a0, some a1 =>
    match AS_CSTRING vm a0, AS_CSTRING vm a1 with
    | some string, some search =>
      if strlen string = 0 ∧ strlen search = 0 then some (TRUE_VAL, vm)
      else some (BOOL_VAL (strstr string search).isSome, vm)
    | _, _ => none
  | _, _ => none

/-- `DEF_PRIMITIVE(string_count)`. -/
def primitive_string_count (_hw : Host) (vm : VM) (args : List Value) : Result :=
  match args[0]? with
  | some a0 =>
    match AS_CSTRING vm a0 with
    | some s => some (NUM_VAL (intToDouble (strlen s : Int)), vm)
    | none => none
  | none => none

/-- `DEF_PRIMITIVE(string_toString)`. -/
def primitive_string_toString (_hw : Host) (vm : VM) (args : List Value) : Result :=
  match args[0]? with
  | some a0 => some (a0, vm)
  | none => none

/-- `DEF_PRIMITIVE(string_plus)`. -/
def primitive_string_plus (hw : Host) (vm : VM) (args : List Value) : Result :=
  match args[1]? with
  | some a1 =>
    if !(IS_STRING vm a1) then some (vm.unsupported, vm)
    else
      match args[0]? with
      | some a0 =>
        match AS_CSTRING vm a0, AS_CSTRING vm a1 with
        | some left, some right =>
          let leftLength := strlen left
          let rightLength := strlen right
          let (value, vm1) := newString hw vm none (leftLength + rightLength)
          match AS_STRING vm1 value with
          | some string =>
            match strcpyTo vm1 string 0 left with
            | some vm2 =>
              match strcpyTo vm2 string leftLength right with
              | some vm3 =>
                match storeByte vm3 string (leftLength + rightLength) 0 with
                | some vm4 => some (value, vm4)
                | none => none
              | none => none
            | none => none
          | none => none
        | _, _ => none
      | none => none
  | none => none

/-- `DEF_PRIMITIVE(string_eqeq)`. -/
def primitive_string_eqeq (_hw : Host) (vm : VM) (args : List Value) : Result :=
  match args[1]? with
  | some a1 =>
    if !(IS_STRING vm a1) then some (FALSE_VAL, vm)
    else
      match args[0]? with
      | some a0 =>
        match AS_CSTRING vm a0, AS_CSTRING vm a1 with
        | some a, some b => some (BOOL_VAL (decide (strcmp a b = 0)), vm)
        | _, _ => none
      | none => none
  | none => none

/-- `DEF_PRIMITIVE(string_bangeq)`. -/
def primitive_string_bangeq (_hw : Host) (vm : VM) (args : List Value) : Result :=
  match args[1]? with
  | some a1 =>
    if !(IS_STRING vm a1) then some (TRUE_VAL, vm)
    else
      match args[0]? with
      | some a0 =>
        match AS_CSTRING vm a0, AS_CSTRING vm a1 with
        | some a, some b => some (BOOL_VAL (decide (strcmp a b ≠ 0)), vm)
        | _, _ => none
      | none => none
  | none => none

/-- `DEF_PRIMITIVE(string_subscript)`.  `length` is `(int)strlen(string->value)`,
the length reduced to an `int`; the sum `length + index` is taken in `int`. -/
def primitive_string_subscript (hw : Host) (vm : VM) (args : List Value) : Result :=
  match args[1]? with
  | some a1 =>
    if !(IS_NUM a1) then some (NULL_VAL, vm)
    else
      match AS_NUM a1 with
      | some indexNum =>
        let index := doubleToInt hw indexNum
        if Double.ne indexNum (intToDouble index) then some (NULL_VAL, vm)
        else
          match args[0]? with
          | some a0 =>
            match AS_CSTRING vm a0 with
            | some string =>
              let length := wrapInt (strlen string : Int)
              let index := if index < 0 then wrapInt (length + index) else index
              if index < 0 ∨ index ≥ length then some (NULL_VAL, vm)
              else
                let (value, vm1) := newString hw vm none 2
                match AS_STRING vm1 value, AS_CSTRING vm1 a0 with
                | some result, some source =>
                  match source[index.toNat]? with
                  | some c =>
                    match storeByte vm1 result 0 c with
                    | some vm2 =>
                      match storeByte vm2 result 1 0 with
                      | some vm3 => some (value, vm3)
                      | none => none
                    | none => none
                  | none => none
                | _, _ => none
            | none => none
          | none => none
      | none => none
  | none => none

/-- `DEF_PRIMITIVE(io_write)`: the display form of `args[1]`, then a newline. -/
def primitive_io_write (hw : Host) (vm : VM) (args : List Value) : Result :=
  match args[1]? with
  | some a1 => some (a1, { vm with stdout := vm.stdout ++ hw.printValue vm a1 ++ [10] })
  | none => none

/-- `DEF_PRIMITIVE(os_clock)`. -/
def primitive_os_clock (hw : Host) (vm : VM) (_args : List Value) : Result :=
  some (NUM_VAL hw.clock, vm)

/-- Call through the function pointer of a `METHOD_PRIMITIVE` entry. -/
def callPrimitive (p : Prim) : Host → VM → List Value → Result :=
  match p with
  | Prim.bool_not => primitive_bool_not
  | Prim.bool_eqeq => primitive_bool_eqeq
  | Prim.bool_bangeq => primitive_bool_bangeq
  | Prim.bool_toString => primitive_bool_toString
  | Prim.fn_eqeq => primitive_fn_eqeq
  | Prim.fn_bangeq => primitive_fn_bangeq
  | Prim.list_count => primitive_list_count
  | Prim.list_subscript => primitive_list_subscript
  | Prim.num_abs => primitive_num_abs
  | Prim.num_toString => primitive_num_toString
  | Prim.num_negate => primitive_num_negate
  | Prim.num_minus => primitive_num_minus
  | Prim.num_plus => primitive_num_plus
  | Prim.num_multiply => primitive_num_multiply
  | Prim.num_divide => primitive_num_divide
  | Prim.num_mod => primitive_num_mod
  | Prim.num_lt => primitive_num_lt
  | Prim.num_gt => primitive_num_gt
  | Prim.num_lte => primitive_num_lte
  | Prim.num_gte => primitive_num_gte
  | Prim.num_eqeq => primitive_num_eqeq
  | Prim.num_bangeq => primitive_num_bangeq
  | Prim.string_contains => primitive_string_contains
  | Prim.string_count => primitive_string_count
  | Prim.string_toString => primitive_string_toString
  | Prim.string_plus => primitive_string_plus
  | Prim.string_eqeq => primitive_string_eqeq
  | Prim.string_bangeq => primitive_string_bangeq
  | Prim.string_subscript => primitive_string_subscript
  | Prim.io_write => primitive_io_write
  | Prim.os_clock => primitive_os_clock

/-- Call through the function pointer of a `METHOD_FIBER` entry. -/
def callFiberPrimitive (p : FiberPrim) : VM → Fiber → List Value → Option Fiber :=
  match p with
  | FiberPrim.fn_call0 => primitive_fn_call0
  | FiberPrim.fn_call1 => primitive_fn_call1
  | FiberPrim.fn_call2 => primitive_fn_call2
  | FiberPrim.fn_call3 => primitive_fn_call3
  | FiberPrim.fn_call4 => primitive_fn_call4
  | FiberPrim.fn_call5 => primitive_fn_call5
  | FiberPrim.fn_call6 => primitive_fn_call6
  | FiberPrim.fn_call7 => primitive_fn_call7
  | FiberPrim.fn_call8 => primitive_fn_call8

/-! ## Symbols, method tables and `loadCore` -/

/-- Modelled from the spec: `ensureSymbol(&vm->methods, name, length)` of
`vm.c` returns the id of `name` in the symbol table, adding the name at the
end (the next id) when it is new. -/
def ensureSymbol (symbols : List String) (name : String) : Nat × List String :=
  if name ∈ symbols then (symbols.indexOf name, symbols)
  else (symbols.length, symbols ++ [name])

/-- Modelled from the spec: `findGlobal(vm, name)` of `vm.c` reads the global
variable `name`. -/
def findGlobal (vm : VM) (name : String) : Option Value :=
  vm.globals.lookup name

/-- The assignment `cls->methods[symbol] = m` (its `type` and its function
pointer) on the class object at `cls`. -/
def setMethodEntry (heap : List Obj) (cls : Ref) (symbol : Nat) (m : Method) : Option (List Obj) :=
  match heap[cls]? with
  | some (Obj.cls c) =>
    some (heap.set cls (Obj.cls { c with methods := Function.update c.methods symbol m }))
  | _ => none

/-- The body of `PRIMITIVE(cls, name, prim)`. -/
def PRIMITIVE (vm : VM) (cls : Ref) (name : String) (prim : Prim) : Option VM :=
  match setMethodEntry vm.heap cls (ensureSymbol vm.methods name).1 (Method.primitive prim) with
  | some heap => some { vm with methods := (ensureSymbol vm.methods name).2, heap := heap }
  | none => none

/-- The body of `FIBER_PRIMITIVE(cls, name, prim)`. -/
def FIBER_PRIMITIVE (vm : VM) (cls : Ref) (name : String) (prim : FiberPrim) : Option VM :=
  match setMethodEntry vm.heap cls (ensureSymbol vm.methods name).1 (Method.fiber prim) with
  | some heap => some { vm with methods := (ensureSymbol vm.methods name).2, heap := heap }
  | none => none

/-- The field `metaclass` of the class object at `cls` in a heap. -/
def metaclassAt (heap : List Obj) (cls : Ref) : Option Ref :=
  match heap[cls]? with
  | some (Obj.cls c) => c.metaclass
  | _ => none

/-- The field `cls->metaclass` of the class object at `cls`. -/
def metaclassOf (vm : VM) (cls : Ref) : Option Ref :=
  metaclassAt vm.heap cls

/-- A class object with no metaclass, no superclass, no fields and no methods. -/
def emptyClass : ObjClass :=
  { metaclass := none, superclass := none, numFields := 0, methods := fun _ => Method.none }

/-- Modelled from the spec: `newClass(vm, superclass, numFields)` of `vm.c`
allocates a metaclass and a class, whose method table is a copy of the table of
the superclass. -/
def newClass (vm : VM) (superclass : Ref) (numFields : Nat) : Option (Ref × VM) :=
  match vm.heap[superclass]? with
  | some (Obj.cls sup) =>
    some (vm.heap.length + 1,
      (vm.alloc (Obj.cls emptyClass)).alloc
        (Obj.cls { metaclass := some vm.heap.length, superclass := some superclass,
                   numFields := numFields, methods := sup.methods }))
  | _ => none

/-- Modelled from the spec: `newInstance(vm, cls)` of `vm.c` allocates an
instance of the class at `cls` with its fields set to null. -/
def newInstance (vm : VM) (cls : Ref) : Option (Value × VM) :=
  match vm.heap[cls]? with
  | some (Obj.cls c) =>
    some (Value.obj vm.heap.length, vm.alloc (Obj.inst cls (List.replicate c.numFields Value.null)))
  | _ => none

/-- The class that the global `name` resolves to: the global, when it is bound
to a class object. -/
def globalClass (vm : VM) (name : String) : Option Ref :=
  match findGlobal vm name with
  | some v => AS_CLASS vm v
  | none => none

/-- The pointer `AS_CLASS(findGlobal(vm, name))` as `loadCore` takes it: the
cast has no check, so it is the pointer to the object that the global is bound
to, a class or not.  What lies behind the pointer matters only where
`loadCore` writes through it.  For a global that holds no object reference the
cast reads the pointer of a value that has none; `value.h` is not part of the
source, and no pointer is given here. -/
def globalPointer (vm : VM) (name : String) : Option Ref :=
  match findGlobal vm name with
  | some (Value.obj r) => some r
  | _ => none

/-- Run the statements of a block one after the other; the block stops where
a statement has no defined result. -/
def runBlock (steps : List (VM → Option VM)) (vm : VM) : Option VM :=
  match steps with
  | [] => some vm
  | step :: rest =>
    match step vm with
    | some vm1 => runBlock rest vm1
    | none => none

/-- The lines of `loadCore` for Bool. -/
def loadBool : VM → Option VM :=
  runBlock [
    fun vm => (globalPointer vm "Bool").map fun c => { vm with boolClass := c },
    fun vm => PRIMITIVE vm vm.boolClass "toString" Prim.bool_toString,
    fun vm => PRIMITIVE vm vm.boolClass "!" Prim.bool_not,
    fun vm => PRIMITIVE vm vm.boolClass "== " Prim.bool_eqeq,
    fun vm => PRIMITIVE vm vm.boolClass "!= " Prim.bool_bangeq ]

/-- The line of `loadCore` for Class. -/
def loadClass : VM → Option VM :=
  runBlock [
    fun vm => (globalPointer vm "Class").map fun c => { vm with classClass := c } ]

/-- The lines of `loadCore` for Function. -/
def loadFn : VM → Option VM :=
  runBlock [
    fun vm => (globalPointer vm "Function").map fun c => { vm with fnClass := c },
    fun vm => FIBER_PRIMITIVE vm vm.fnClass "call" FiberPrim.fn_call0,
    fun vm => FIBER_PRIMITIVE vm vm.fnClass "call " FiberPrim.fn_call1,
    fun vm => FIBER_PRIMITIVE vm vm.fnClass "call  " FiberPrim.fn_call2,
    fun vm => FIBER_PRIMITIVE vm vm.fnClass "call   " FiberPrim.fn_call3,
    fun vm => FIBER_PRIMITIVE vm vm.fnClass "call    " FiberPrim.fn_call4,
    fun vm => FIBER_PRIMITIVE vm vm.fnClass "call     " FiberPrim.fn_call5,
    fun vm => FIBER_PRIMITIVE vm vm.fnClass "call      " FiberPrim.fn_call6,
    fun vm => FIBER_PRIMITIVE vm vm.fnClass "call       " FiberPrim.fn_call7,
    fun vm => FIBER_PRIMITIVE vm vm.fnClass "call        " FiberPrim.fn_call8,
    fun vm => PRIMITIVE vm vm.fnClass "== " Prim.fn_eqeq,
    fun vm => PRIMITIVE vm vm.fnClass "!= " Prim.fn_bangeq ]

/-- The lines of `loadCore` for List. -/
def loadList : VM → Option VM :=
  runBlock [
    fun vm => (globalPointer vm "List").map fun c => { vm with listClass := c },
    fun vm => PRIMITIVE vm vm.listClass "count" Prim.list_count,
    fun vm => PRIMITIVE vm vm.listClass "[ ]" Prim.list_subscript ]

/-- The line of `loadCore` for Null. -/
def loadNull : VM → Option VM :=
  runBlock [
    fun vm => (globalPointer vm "Null").map fun c => { vm with nullClass := c } ]

/-- The lines of `loadCore` for Num. -/
def loadNum : VM → Option VM :=
  runBlock [
    fun vm => (globalPointer vm "Num").map fun c => { vm with numClass := c },
    fun vm => PRIMITIVE vm vm.numClass "abs" Prim.num_abs,
    fun vm => PRIMITIVE vm vm.numClass "toString" Prim.num_toString,
    fun vm => PRIMITIVE vm vm.numClass "-" Prim.num_negate,
    fun vm => PRIMITIVE vm vm.numClass "- " Prim.num_minus,
    fun vm => PRIMITIVE vm vm.numClass "+ " Prim.num_plus,
    fun vm => PRIMITIVE vm vm.numClass "* " Prim.num_multiply,
    fun vm => PRIMITIVE vm vm.numClass "/ " Prim.num_divide,
    fun vm => PRIMITIVE vm vm.numClass "% " Prim.num_mod,
    fun vm => PRIMITIVE vm vm.numClass "< " Prim.num_lt,
    fun vm => PRIMITIVE vm vm.numClass "> " Prim.num_gt,
    fun vm => PRIMITIVE vm vm.numClass "<= " Prim.num_lte,
    fun vm => PRIMITIVE vm vm.numClass ">= " Prim.num_gte,
    fun vm => PRIMITIVE vm vm.numClass "== " Prim.num_eqeq,
    fun vm => PRIMITIVE vm vm.numClass "!= " Prim.num_bangeq ]

/-- The lines of `loadCore` for String. -/
def loadString : VM → Option VM :=
  runBlock [
    fun vm => (globalPointer vm "String").map fun c => { vm with stringClass := c },
    fun vm => PRIMITIVE vm vm.stringClass "contains " Prim.string_contains,
    fun vm => PRIMITIVE vm vm.stringClass "count" Prim.string_count,
    fun vm => PRIMITIVE vm vm.stringClass "toString" Prim.string_toString,
    fun vm => PRIMITIVE vm vm.stringClass "+ " Prim.string_plus,
    fun vm => PRIMITIVE vm vm.stringClass "== " Prim.string_eqeq,
    fun vm => PRIMITIVE vm vm.stringClass "!= " Prim.string_bangeq,
    fun vm => PRIMITIVE vm vm.stringClass "[ ]" Prim.string_subscript ]

/-- The lines of `loadCore` for IO; `ioClass` is a local variable. -/
def loadIo (vm : VM) : Option VM :=
  match globalPointer vm "IO" with
  | some ioClass => PRIMITIVE vm ioClass "write " Prim.io_write
  | none => none

/-- The lines of `loadCore` for OS; `osClass` is a local variable. -/
def loadOs (vm : VM) : Option VM :=
  match globalPointer vm "OS" with
  | some osClass =>
    match metaclassOf vm osClass with
    | some osMeta => PRIMITIVE vm osMeta "clock" Prim.os_clock
    | none => none
  | none => none

/-- The last lines of `loadCore`, which create the unsupported sentinel. -/
def loadUnsupported (vm : VM) : Option VM :=
  match newClass vm vm.objectClass 0 with
  | some (unsupportedClass, vm1) =>
    match newInstance vm1 unsupportedClass with
    | some (unsupported, vm2) => some { vm2 with unsupported := unsupported }
    | none => none
  | none => none

/-- The routine `loadCore(vm)`, from the point where the prelude `CORE_LIB` has
been compiled and interpreted: `vm` is the state that `interpret` leaves.  The
compiler and the interpreter are not part of `primitives.c`. -/
def loadCore : VM → Option VM :=
  runBlock [loadBool, loadClass, loadFn, loadList, loadNull, loadNum, loadString,
    loadIo, loadOs, loadUnsupported]

/-- The entry `cls->methods[symbol]` of the class object at `cls`. -/
def methodAt (vm : VM) (cls : Ref) (symbol : Nat) : Method :=
  match vm.heap[cls]? with
  | some (Obj.cls c) => c.methods symbol
  | _ => Method.none

/-- The method a class has for a selector text: the entry at the symbol id of
the text, and none when the text has no symbol id. -/
def findMethod (vm : VM) (cls : Ref) (name : String) : Method :=
  if name ∈ vm.methods then methodAt vm cls (vm.methods.indexOf name) else Method.none

/-! ## The registrations of `loadCore` as a list -/

/-- A method registration: the class, the selector text and the entry stored. -/
structure Reg where
  cls : Ref
  name : String
  method : Method

/-- Whether the object at `c` is a class. -/
def isClassAt (heap : List Obj) (c : Ref) : Bool :=
  match heap[c]? with
  | some (Obj.cls _) => true
  | _ => false

/-- The symbol table and the heap after one registration. -/
def applyReg (st : List String × List Obj) (r : Reg) : List String × List Obj :=
  ((ensureSymbol st.1 r.name).2,
    (setMethodEntry st.2 r.cls (ensureSymbol st.1 r.name).1 r.method).getD st.2)

/-- The symbol table and the heap after a list of registrations. -/
def applyRegs (st : List String × List Obj) (regs : List Reg) : List String × List Obj :=
  regs.foldl applyReg st

/-- The registrations of `loadBool` on the class `b`. -/
def boolRegs (b : Ref) : List Reg :=
  [ ⟨b, "toString", Method.primitive Prim.bool_toString⟩,
    ⟨b, "!", Method.primitive Prim.bool_not⟩,
    ⟨b, "== ", Method.primitive Prim.bool_eqeq⟩,
    ⟨b, "!= ", Method.primitive Prim.bool_bangeq⟩ ]

/-- The registrations of `loadFn` on the class `f`. -/
def fnRegs (f : Ref) : List Reg :=
  [ ⟨f, "call", Method.fiber FiberPrim.fn_call0⟩,
    ⟨f, "call ", Method.fiber FiberPrim.fn_call1⟩,
    ⟨f, "call  ", Method.fiber FiberPrim.fn_call2⟩,
    ⟨f, "call   ", Method.fiber FiberPrim.fn_call3⟩,
    ⟨f, "call    ", Method.fiber FiberPrim.fn_call4⟩,
    ⟨f, "call     ", Method.fiber FiberPrim.fn_call5⟩,
    ⟨f, "call      ", Method.fiber FiberPrim.fn_call6⟩,
    ⟨f, "call       ", Method.fiber FiberPrim.fn_call7⟩,
    ⟨f, "call        ", Method.fiber FiberPrim.fn_call8⟩,
    ⟨f, "== ", Method.primitive Prim.fn_eqeq⟩,
    ⟨f, "!= ", Method.primitive Prim.fn_bangeq⟩ ]

/-- The registrations of `loadList` on the class `l`. -/
def listRegs (l : Ref) : List Reg :=
  [ ⟨l, "count", Method.primitive Prim.list_count⟩,
    ⟨l, "[ ]", Method.primitive Prim.list_subscript⟩ ]

/-- The registrations of `loadNum` on the class `n`. -/
def numRegs (n : Ref) : List Reg :=
  [ ⟨n, "abs", Method.primitive Prim.num_abs⟩,
    ⟨n, "toString", Method.primitive Prim.num_toString⟩,
    ⟨n, "-", Method.primitive Prim.num_negate⟩,
    ⟨n, "- ", Method.primitive Prim.num_minus⟩,
    ⟨n, "+ ", Method.primitive Prim.num_plus⟩,
    ⟨n, "* ", Method.primitive Prim.num_multiply⟩,
    ⟨n, "/ ", Method.primitive Prim.num_divide⟩,
    ⟨n, "% ", Method.primitive Prim.num_mod⟩,
    ⟨n, "< ", Method.primitive Prim.num_lt⟩,
    ⟨n, "> ", Method.primitive Prim.num_gt⟩,
    ⟨n, "<= ", Method.primitive Prim.num_lte⟩,
    ⟨n, ">= ", Method.primitive Prim.num_gte⟩,
    ⟨n, "== ", Method.primitive Prim.num_eqeq⟩,
    ⟨n, "!= ", Method.primitive Prim.num_bangeq⟩ ]

/-- The registrations of `loadString` on the class `s`. -/
def stringRegs (s : Ref) : List Reg :=
  [ ⟨s, "contains ", Method.primitive Prim.string_contains⟩,
    ⟨s, "count", Method.primitive Prim.string_count⟩,
    ⟨s, "toString", Method.primitive Prim.string_toString⟩,
    ⟨s, "+ ", Method.primitive Prim.string_plus⟩,
    ⟨s, "== ", Method.primitive Prim.string_eqeq⟩,
    ⟨s, "!= ", Method.primitive Prim.string_bangeq⟩,
    ⟨s, "[ ]", Method.primitive Prim.string_subscript⟩ ]

/-- All registrations of `loadCore` in program order, on the classes Bool,
Function, List, Num, String, IO and the metaclass of OS. -/
def coreRegs (b f l n s io osMeta : Ref) : List Reg :=
  boolRegs b ++ fnRegs f ++ listRegs l ++ numRegs n ++ stringRegs s
    ++ [⟨io, "write ", Method.primitive Prim.io_write⟩]
    ++ [⟨osMeta, "clock", Method.primitive Prim.os_clock⟩]

/-- The VM after a list of registrations. -/
def VM.afterRegs (vm : VM) (regs : List Reg) : VM :=
  { vm with
    methods := (applyRegs (vm.methods, vm.heap) regs).1,
    heap := (applyRegs (vm.methods, vm.heap) regs).2 }

/-- The classes that `loadCore` looks up by their global names, and the
metaclass of OS. -/
structure CoreClasses where
  boolC : Ref
  classC : Ref
  fnC : Ref
  listC : Ref
  nullC : Ref
  numC : Ref
  stringC : Ref
  ioC : Ref
  osC : Ref
  osMeta : Ref

/-- What `loadCore` relies on in the state the prelude leaves: each of the nine
global names is bound to a class object, the class OS has a metaclass, and the
field `objectClass` of the VM points to a class. -/
def PreludeOk (vm : VM) (k : CoreClasses) : Prop :=
  globalClass vm "Bool" = some k.boolC ∧
  globalClass vm "Class" = some k.classC ∧
  globalClass vm "Function" = some k.fnC ∧
  globalClass vm "List" = some k.listC ∧
  globalClass vm "Null" = some k.nullC ∧
  globalClass vm "Num" = some k.numC ∧
  globalClass vm "String" = some k.stringC ∧
  globalClass vm "IO" = some k.ioC ∧
  globalClass vm "OS" = some k.osC ∧
  metaclassOf vm k.osC = some k.osMeta ∧
  isClassAt vm.heap k.osMeta = true ∧
  isClassAt vm.heap vm.objectClass = true

/-- The same with Class and Null bound to objects of any kind: `loadCore`
stores these two pointers and writes through neither. -/
def PreludeWeak (vm : VM) (k : CoreClasses) : Prop :=
  globalClass vm "Bool" = some k.boolC ∧
  globalPointer vm "Class" = some k.classC ∧
  globalClass vm "Function" = some k.fnC ∧
  globalClass vm "List" = some k.listC ∧
  globalPointer vm "Null" = some k.nullC ∧
  globalClass vm "Num" = some k.numC ∧
  globalClass vm "String" = some k.stringC ∧
  globalClass vm "IO" = some k.ioC ∧
  globalClass vm "OS" = some k.osC ∧
  metaclassOf vm k.osC = some k.osMeta ∧
  isClassAt vm.heap k.osMeta = true ∧
  isClassAt vm.heap vm.objectClass = true

/-- All registrations of `loadCore` on the classes `k`. -/
def coreRegsOf (k : CoreClasses) : List Reg :=
  coreRegs k.boolC k.fnC k.listC k.numC k.stringC k.ioC k.osMeta

/-- The state `S` is the state `vm` after the registrations `regs`, as far as
the symbol table, the heap, the globals and the field `objectClass` go. -/
def Loaded (vm S : VM) (regs : List Reg) : Prop :=
  (S.methods, S.heap) = applyRegs (vm.methods, vm.heap) regs ∧
  S.globals = vm.globals ∧
  S.objectClass = vm.objectClass

/-- The assignment `vm->boolClass = c`. -/
def VM.setBool (vm : VM) (c : Ref) : VM := { vm with boolClass := c }

/-- The assignment `vm->classClass = c`. -/
def VM.setClass (vm : VM) (c : Ref) : VM := { vm with classClass := c }

/-- The assignment `vm->fnClass = c`. -/
def VM.setFn (vm : VM) (c : Ref) : VM := { vm with fnClass := c }

/-- The assignment `vm->listClass = c`. -/
def VM.setList (vm : VM) (c : Ref) : VM := { vm with listClass := c }

/-- The assignment `vm->nullClass = c`. -/
def VM.setNull (vm : VM) (c : Ref) : VM := { vm with nullClass := c }

/-- The assignment `vm->numClass = c`. -/
def VM.setNum (vm : VM) (c : Ref) : VM := { vm with numClass := c }

/-- The assignment `vm->stringClass = c`. -/
def VM.setString (vm : VM) (c : Ref) : VM := { vm with stringClass := c }

/-- The assignment `vm->unsupported = v`. -/
def VM.setUnsupported (vm : VM) (v : Value) : VM := { vm with unsupported := v }

/-- The entry that the last registration for class `c` and selector `name`
stores, if there is such a registration. -/
def lastReg : List Reg → Ref → String → Option Method
  | [], _, _ => none
  | r :: rs, c, name =>
    match lastReg rs c name with
    | some m => some m
    | none => if r.cls = c ∧ r.name = name then some r.method else none

/-- The entry at `symbol` of the class at `c` in a heap. -/
def entryAt (heap : List Obj) (c : Ref) (symbol : Nat) : Method :=
  match heap[c]? with
  | some (Obj.cls k) => k.methods symbol
  | _ => Method.none

/-! ## The index policy in the words of the specification -/

/-- The position an index selects in a sequence of `n` elements, as the
specification words it: `i` itself when `0 ≤ i < n`, `n + i` (counting from
the end) when `-n ≤ i < 0`, and no position otherwise. -/
def normalisedIndex (n : Int) (i : Int) : Option Nat :=
  if 0 ≤ i ∧ i < n then some i.toNat
  else if -n ≤ i ∧ i < 0 then some (n + i).toNat
  else none

/-! ## Concrete states for instances -/

/-- The double of an integer given by sign and magnitude. -/
def dbl (neg : Bool) (m : Nat) : Double := Double.finite neg m 0

/-- A host for concrete instances: a conversion to `int` that is out of range
yields `INT_MIN`, as on x86-64; unwritten memory holds the byte 170.  Its
arithmetic is a placeholder that no instance relies on. -/
def sampleHost : Host where
  fadd := fun _ _ => Double.nan
  fsub := fun _ _ => Double.nan
  fmul := fun _ _ => Double.nan
  fdiv := fun _ _ => Double.nan
  fmod := fun _ _ => Double.nan
  castUndef := fun _ => INT_MIN
  fresh := fun _ => 170
  formatNum := fun _ => []
  clock := Double.finite false 0 0
  printValue := fun _ _ => []

/-- A heap for concrete instances: the list `[10, 20, 30]` at 0, the strings
"abc" at 1 and "de" at 2, two functions at 3 and 4, a class at 5 and an
instance of it at 6, the empty list at 7, the list `[null]` at 8 and the string
"a" at 9. -/
def sampleHeap : List Obj :=
  [ Obj.list [Value.num (dbl false 10), Value.num (dbl false 20), Value.num (dbl false 30)],
    Obj.string [97, 98, 99, 0],
    Obj.string [100, 101, 0],
    Obj.fn 0,
    Obj.fn 1,
    Obj.cls { metaclass := none, superclass := none, numFields := 0, methods := fun _ => Method.none },
    Obj.inst 5 [],
    Obj.list [],
    Obj.list [Value.null],
    Obj.string [97, 0] ]

/-- A VM for concrete instances, with `sampleHeap` and the instance at 6 as
its unsupported sentinel. -/
def sampleVM : VM where
  methods := []
  heap := sampleHeap
  globals := []
  objectClass := 5
  boolClass := 5
  classClass := 5
  fnClass := 5
  listClass := 5
  nullClass := 5
  numClass := 5
  stringClass := 5
  unsupported := Value.obj 6
  stdout := []

/-- A buffer that holds a string of 2^31 bytes, one more than `INT_MAX`. -/
def bigString : List Nat := List.replicate 2147483648 97 ++ [0]

/-- A VM whose heap holds `bigString` at address 0. -/
def bigVM : VM := { sampleVM with heap := [Obj.string bigString] }

/-- The value a primitive returns. -/
def returned (res : Result) : Option Value := res.map Prod.fst

/-- A class object with the given metaclass and superclass, no fields and an
empty method table. -/
def plainClass (metaclass superclass : Option Ref) : Obj :=
  Obj.cls { metaclass := metaclass, superclass := superclass, numFields := 0,
            methods := fun _ => Method.none }

/-- A state of the kind the prelude leaves: for each class of `CORE_LIB` a
metaclass and the class, with empty method tables as the class bodies are
empty, the instance `io` of IO, and the global names bound to them. -/
def preludeVM : VM where
  methods := ["new"]
  heap :=
    [ plainClass none none, plainClass (some 0) none,
      plainClass none none, plainClass (some 2) (some 1),
      plainClass none none, plainClass (some 4) (some 1),
      plainClass none none, plainClass (some 6) (some 1),
      plainClass none none, plainClass (some 8) (some 1),
      plainClass none none, plainClass (some 10) (some 1),
      plainClass none none, plainClass (some 12) (some 1),
      plainClass none none, plainClass (some 14) (some 1),
      plainClass none none, plainClass (some 16) (some 1),
      Obj.inst 17 [],
      plainClass none none, plainClass (some 19) (some 1) ]
  globals :=
    [ ("Object", Value.obj 1), ("Bool", Value.obj 3), ("Class", Value.obj 5),
      ("Function", Value.obj 7), ("List", Value.obj 9), ("Num", Value.obj 11),
      ("Null", Value.obj 13), ("String", Value.obj 15), ("IO", Value.obj 17),
      ("io", Value.obj 18), ("OS", Value.obj 20) ]
  objectClass := 1
  boolClass := 0
  classClass := 0
  fnClass := 0
  listClass := 0
  nullClass := 0
  numClass := 0
  stringClass := 0
  unsupported := Value.null
  stdout := []

/-- The classes of `preludeVM`. -/
def preludeClasses : CoreClasses where
  boolC := 3
  classC := 5
  fnC := 7
  listC := 9
  nullC := 13
  numC := 11
  stringC := 15
  ioC := 17
  osC := 20
  osMeta := 19

/-- The selector text of `call` with `k` arguments: "call" followed by `k`
spaces. -/
def callSelector (k : Nat) : String := "call" ++ String.mk (List.replicate k (Char.ofNat 32))

/-- A VM for instances about equality: the text "abc" in two different string
objects (addresses 0 and 1, the second in a longer buffer), the strings "de"
(2) and "abcde" (3), and two function objects with the same code (4 and 5). -/
def contentVM : VM :=
  { sampleVM with
    heap := [ Obj.string [97, 98, 99, 0], Obj.string [97, 98, 99, 0, 120],
              Obj.string [100, 101, 0], Obj.string [97, 98, 99, 100, 101, 0],
              Obj.fn 0, Obj.fn 0 ] }

/-- A host for instances about output: as `sampleHost`, with a `printValue`
that prints a string as its text and prints nothing for other values. -/
def textHost : Host :=
  { sampleHost with
    printValue := fun vm v =>
      match AS_CSTRING vm v with
      | some buf => cstr buf
      | none => [] }

/-- The value of `index` with which `list_subscript` reads
`list->elements[index]`, and `none` when it returns without reading an
element: the body of the primitive up to the read. -/
def list_subscript_read (hw : Host) (vm : VM) (args : List Value) : Option Int :=
  match args[1]? with
  | some a1 =>
    if !(IS_NUM a1) then none
    else
      match AS_NUM a1 with
      | some indexNum =>
        let index := doubleToInt hw indexNum
        if Double.ne indexNum (intToDouble index) then none
        else
          match args[0]? with
          | some a0 =>
            match AS_LIST vm a0 with
            | some list =>
              let index := if index < 0 then wrapInt ((list.length : Int) + index) else index
              if index < 0 ∨ index ≥ (list.length : Int) then none
              else some index
            | none => none
          | none => none
      | none => none
  | none => none

/-- The value of `index` with which `string_subscript` reads
`AS_CSTRING(args[0])[index]`, and `none` when it returns without reading a
byte: the body of the primitive up to the read. -/
def string_subscript_read (hw : Host) (vm : VM) (args : List Value) : Option Int :=
  match args[1]? with
  | some a1 =>
    if !(IS_NUM a1) then none
    else
      match AS_NUM a1 with
      | some indexNum =>
        let index := doubleToInt hw indexNum
        if Double.ne indexNum (intToDouble index) then none
        else
          match args[0]? with
          | some a0 =>
            match AS_CSTRING vm a0 with
            | some string =>
              let length := wrapInt (strlen string : Int)
              let index := if index < 0 then wrapInt (length + index) else index
              if index < 0 ∨ index ≥ length then none
              else some index
            | none => none
          | none => none
      | none => none
  | none => none

/-! ## Double-precision arithmetic

The C operators `+`, `-` and `*` on `double` give the exact result rounded to
the nearest double, ties to the even significand (IEEE 754 binary64: 53
significant bits, least exponent -1074, overflow to infinity at 2^1024). -/

/-- Number of binary digits of `m`, counted in at most `fuel` halvings. -/
def bitLengthAux : Nat → Nat → Nat
  | 0, _ => 0
  | fuel + 1, m => if m = 0 then 0 else bitLengthAux fuel (m / 2) + 1

/-- Number of binary digits of `m`. -/
def bitLength (m : Nat) : Nat := bitLengthAux m m

/-- Number of low-order bits of the magnitude `m * 2^e` that a double cannot
hold: what exceeds 53 significant bits, or lies below the exponent -1074. -/
def excessBits (m : Nat) (e : Int) : Int := max ((bitLength m : Int) - 53) (-1074 - e)

/-- The magnitude `m * 2^e` without its excess bits, rounded to nearest, ties
to even. -/
def roundMag (m : Nat) (e : Int) : Nat × Int :=
  if excessBits m e ≤ 0 then (m, e)
  else
    let k := (excessBits m e).toNat
    let q := m / 2 ^ k
    let r := m % 2 ^ k
    (if 2 ^ (k - 1) < r ∨ (r = 2 ^ (k - 1) ∧ q % 2 = 1) then q + 1 else q, e + k)

/-- Rounding of an exact value to a double: nearest, ties to even, and an
infinity from 2^1024 on. -/
def roundBinary64 : Double → Double
  | Double.finite neg m e =>
    if m = 0 then Double.finite neg 0 0
    else if 1024 < (bitLength (roundMag m e).1 : Int) + (roundMag m e).2 then Double.inf neg
    else Double.finite neg (roundMag m e).1 (roundMag m e).2
  | d => d

/-- The value `a + b` of two finite doubles, scaled by a common power of two. -/
def finiteSum (na : Bool) (ma : Nat) (ea : Int) (nb : Bool) (mb : Nat) (eb : Int) : Int :=
  signed na (ma * 2 ^ (ea - min ea eb).toNat) + signed nb (mb * 2 ^ (eb - min ea eb).toNat)

/-- The arithmetic sum of two doubles, not rounded.  The sum of opposite
infinities is no number; a zero sum is negative when both operands are. -/
def exactAdd : Double → Double → Double
  | Double.finite na ma ea, Double.finite nb mb eb =>
    Double.finite
      (if finiteSum na ma ea nb mb eb = 0 then na && nb
        else decide (finiteSum na ma ea nb mb eb < 0))
      (finiteSum na ma ea nb mb eb).natAbs (min ea eb)
  | Double.finite _ _ _, Double.inf b => Double.inf b
  | Double.inf a, Double.finite _ _ _ => Double.inf a
  | Double.inf a, Double.inf b => if a = b then Double.inf a else Double.nan
  | _, _ => Double.nan

/-- The arithmetic difference of two doubles, not rounded. -/
def exactSub (a b : Double) : Double := exactAdd a (Double.neg b)

/-- The arithmetic product of two doubles, not rounded.  The product of zero
and an infinity is no number. -/
def exactMul : Double → Double → Double
  | Double.finite na ma ea, Double.finite nb mb eb =>
    Double.finite (xor na nb) (ma * mb) (ea + eb)
  | Double.finite na ma _, Double.inf b =>
    if ma = 0 then Double.nan else Double.inf (xor na b)
  | Double.inf a, Double.finite nb mb _ =>
    if mb = 0 then Double.nan else Double.inf (xor a nb)
  | Double.inf a, Double.inf b => Double.inf (xor a b)
  | _, _ => Double.nan

/-- C `a + b` on doubles. -/
def ieeeAdd (a b : Double) : Double := roundBinary64 (exactAdd a b)

/-- C `a - b` on doubles. -/
def ieeeSub (a b : Double) : Double := roundBinary64 (exactSub a b)

/-- C `a * b` on doubles. -/
def ieeeMul (a b : Double) : Double := roundBinary64 (exactMul a b)

/-- The exact values that are doubles: an infinity, NaN, or a magnitude
`s * 2^x` with `s < 2^53` and `-1074 ≤ x ≤ 971`. -/
def Double.isBinary64 : Double → Prop
  | Double.finite _ m e => ∃ (s : Nat) (x : Int), s < 2 ^ 53 ∧ -1074 ≤ x ∧ x ≤ 971 ∧
      m * 2 ^ (e - min e x).toNat = s * 2 ^ (x - min e x).toNat
  | _ => True

/-- Two exact values are the same number: identical, or equal as C `==`
compares them (which takes the two zeros for equal). -/
def Double.sameValue (a b : Double) : Prop := a = b ∨ Double.eq a b = true

/-- The host of `sampleHost` with the double-precision `+`, `-` and `*`. -/
def ieeeHost : Host :=
  { sampleHost with fadd := ieeeAdd, fsub := ieeeSub, fmul := ieeeMul }

/-- Whether a method table entry is a native function: `METHOD_PRIMITIVE` or
`METHOD_FIBER`. -/
def Method.isNative : Method → Bool
  | Method.primitive _ => true
  | Method.fiber _ => true
  | _ => false

/-- The functions that `loadCore` registers under the nine call selectors, in
the order of their arity. -/
def callPrims : List FiberPrim :=
  [ FiberPrim.fn_call0, FiberPrim.fn_call1, FiberPrim.fn_call2, FiberPrim.fn_call3,
    FiberPrim.fn_call4, FiberPrim.fn_call5, FiberPrim.fn_call6, FiberPrim.fn_call7,
    FiberPrim.fn_call8 ]

/-- The state `preludeVM` with one method in the class Num: a block under the
symbol 0. -/
def methodVM : VM :=
  { preludeVM with
    heap := preludeVM.heap.set 11
      (Obj.cls { metaclass := some 10, superclass := some 1, numFields := 0,
                 methods := fun symbol => if symbol = 0 then Method.block 0 else Method.none }) }

/-! ## Facts about machine integers and doubles -/

theorem wrapInt_of_range (z : Int) (h1 : INT_MIN ≤ z) (h2 : z ≤ INT_MAX) : wrapInt z = z := by
  unfold INT_MIN at h1
  unfold INT_MAX at h2
  unfold wrapInt
  omega

theorem wrapInt_range (z : Int) : INT_MIN ≤ wrapInt z ∧ wrapInt z ≤ INT_MAX := by
  unfold INT_MIN INT_MAX wrapInt
  omega

theorem signed_natAbs (j : Int) : signed (decide (j < 0)) j.natAbs = j := by
  unfold signed
  have h := Int.natAbs_eq j
  by_cases hj : j < 0
  · rw [if_pos (decide_eq_true hj)]; omega
  · rw [if_neg (by simpa using hj)]; omega

theorem natAbs_signed (neg : Bool) (n : Nat) : (signed neg n).natAbs = n := by
  unfold signed
  cases neg <;> simp

theorem signed_mul (neg : Bool) (a b : Nat) : signed neg (a * b) = signed neg a * (b : Int) := by
  unfold signed
  cases neg <;> simp

theorem two_pow_pos_int (k : Nat) : (0 : Int) < ((2 ^ k : Nat) : Int) := by
  have : 0 < 2 ^ k := Nat.pos_pow_of_pos k (by decide)
  exact_mod_cast this

/-- The difference of an integer-valued double and a converted `int` is the
difference of the integers, up to a positive scale. -/
theorem finiteDiff_of_intValue (neg : Bool) (m : Nat) (e : Int) (i j : Int)
    (h : (Double.finite neg m e).intValue? = some i) :
    ∃ k : Nat, finiteDiff neg m e (decide (j < 0)) j.natAbs 0 = (i - j) * ((2 ^ k : Nat) : Int) := by
  unfold Double.intValue? at h
  by_cases he : 0 ≤ e
  · simp only [he, if_true, Option.some.injEq] at h
    refine ⟨0, ?_⟩
    unfold finiteDiff
    have hmin : min e 0 = 0 := min_eq_right he
    rw [hmin]
    simp only [sub_zero, Int.toNat_zero, pow_zero, mul_one, Nat.cast_one]
    rw [signed_natAbs, h]
  · simp only [he, if_false] at h
    by_cases hdiv : m % 2 ^ (-e).toNat = 0
    · simp only [hdiv, if_true, Option.some.injEq] at h
      refine ⟨(-e).toNat, ?_⟩
      unfold finiteDiff
      have hmin : min e 0 = e := min_eq_left (by omega)
      rw [hmin]
      simp only [sub_self, Int.toNat_zero, pow_zero, mul_one, zero_sub]
      rw [signed_mul, signed_natAbs, ← h]
      have hm : m = m / 2 ^ (-e).toNat * 2 ^ (-e).toNat := by
        have := Nat.div_add_mod m (2 ^ (-e).toNat)
        rw [hdiv] at this
        rw [Nat.mul_comm]
        omega
      conv_lhs => rw [hm]
      rw [signed_mul]
      ring
    · simp [hdiv] at h

theorem Double.eq_finite (na : Bool) (ma : Nat) (ea : Int) (nb : Bool) (mb : Nat) (eb : Int) :
    Double.eq (Double.finite na ma ea) (Double.finite nb mb eb)
      = decide (finiteDiff na ma ea nb mb eb = 0) := rfl

theorem trunc_of_intValue (neg : Bool) (m : Nat) (e : Int) (i : Int)
    (h : (Double.finite neg m e).intValue? = some i) : signed neg (truncMag m e) = i := by
  unfold Double.intValue? at h
  unfold truncMag
  by_cases he : 0 ≤ e
  · simp only [he, if_true, Option.some.injEq] at h
    simpa [he] using h
  · by_cases hdiv : m % 2 ^ (-e).toNat = 0
    · simp only [he, hdiv, if_true, if_false, Option.some.injEq] at h
      simpa [he] using h
    · simp [he, hdiv] at h

/-- The conversion `(int)d` of an integer-valued double that fits an `int` is
that integer. -/
theorem doubleToInt_of_intValue (hw : Host) (d : Double) (i : Int)
    (h : d.intValue? = some i) (h1 : INT_MIN ≤ i) (h2 : i ≤ INT_MAX) : doubleToInt hw d = i := by
  cases d with
  | finite neg m e =>
    have ht := trunc_of_intValue neg m e i h
    unfold doubleToInt
    simp only [ht, h1, h2, and_self, if_true]
  | inf n => simp [Double.intValue?] at h
  | nan => simp [Double.intValue?] at h

/-- Every result of `(int)d` is an `int`. -/
theorem doubleToInt_range (hw : Host) (d : Double) :
    INT_MIN ≤ doubleToInt hw d ∧ doubleToInt hw d ≤ INT_MAX := by
  unfold doubleToInt
  cases d with
  | finite neg m e =>
    simp only
    split
    · assumption
    · exact wrapInt_range _
  | inf n => exact wrapInt_range _
  | nan => exact wrapInt_range _

/-- Comparing an integer-valued double with a converted `int` compares the
integers. -/
theorem ne_intToDouble_of_intValue (d : Double) (i j : Int) (h : d.intValue? = some i) :
    Double.ne d (intToDouble j) = decide (i ≠ j) := by
  cases d with
  | finite neg m e =>
    obtain ⟨k, hk⟩ := finiteDiff_of_intValue neg m e i j h
    have hpos := two_pow_pos_int k
    unfold Double.ne intToDouble
    rw [Double.eq_finite, hk]
    by_cases hij : i = j
    · subst hij; simp
    · have hne : (i - j) * ((2 ^ k : Nat) : Int) ≠ 0 :=
        mul_ne_zero (sub_ne_zero.mpr hij) (ne_of_gt hpos)
      rw [decide_eq_false hne, decide_eq_true (show i ≠ j from hij)]
      rfl
  | inf n => simp [Double.intValue?] at h
  | nan => simp [Double.intValue?] at h

/-- A double that is not an integer differs from every converted `int`. -/
theorem ne_intToDouble_of_not_int (d : Double) (j : Int) (h : d.intValue? = none) :
    Double.ne d (intToDouble j) = true := by
  cases d with
  | finite neg m e =>
    unfold Double.intValue? at h
    by_cases he : 0 ≤ e
    · simp [he] at h
    · by_cases hdiv : m % 2 ^ (-e).toNat = 0
      · simp [he, hdiv] at h
      · unfold Double.ne intToDouble
        rw [Double.eq_finite]
        unfold finiteDiff
        have hmin : min e 0 = e := min_eq_left (by omega)
        rw [hmin]
        simp only [sub_self, Int.toNat_zero, pow_zero, mul_one, zero_sub, Bool.not_eq_true',
          decide_eq_false_iff_not]
        intro hz
        apply hdiv
        have h1 : signed neg m = signed (decide (j < 0)) (j.natAbs * 2 ^ (-e).toNat) := by
          linarith
        have h2 : m = j.natAbs * 2 ^ (-e).toNat := by
          have := congrArg Int.natAbs h1
          rwa [natAbs_signed, natAbs_signed] at this
        rw [h2]
        exact Nat.mul_mod_left _ _
  | inf n => simp [Double.ne, Double.eq, intToDouble]
  | nan => simp [Double.ne, Double.eq, intToDouble]

/-! ## List subscript -/

theorem objOf_obj (vm : VM) (r : Ref) : objOf vm (Value.obj r) = vm.heap[r]? := rfl

/-- On a non-Num index `list_subscript` returns null before it looks at the
receiver. -/
theorem list_subscript_not_num (hw : Host) (vm : VM) (recv v : Value) (hv : IS_NUM v = false) :
    primitive_list_subscript hw vm [recv, v] = some (NULL_VAL, vm) := by
  simp [primitive_list_subscript, hv]

/-- On a Num index that is not an integer `list_subscript` returns null before
it looks at the receiver. -/
theorem list_subscript_not_int (hw : Host) (vm : VM) (recv : Value) (d : Double)
    (hd : d.intValue? = none) :
    primitive_list_subscript hw vm [recv, Value.num d] = some (NULL_VAL, vm) := by
  simp [primitive_list_subscript, IS_NUM, AS_NUM, ne_intToDouble_of_not_int d _ hd]

/-- On an integer index outside the range of `int`, `list_subscript` returns
null: whatever `int` the conversion yields, it differs from the index. -/
theorem list_subscript_huge (hw : Host) (vm : VM) (recv : Value) (d : Double) (i : Int)
    (hd : d.intValue? = some i) (hi : i < INT_MIN ∨ INT_MAX < i) :
    primitive_list_subscript hw vm [recv, Value.num d] = some (NULL_VAL, vm) := by
  have hr := doubleToInt_range hw d
  have hne : Double.ne d (intToDouble (doubleToInt hw d)) = true := by
    rw [ne_intToDouble_of_intValue d i _ hd]
    apply decide_eq_true
    intro h
    rw [← h] at hr
    omega
  simp [primitive_list_subscript, IS_NUM, AS_NUM, hne]

/-- On an integer index `i` that fits an `int`, `list_subscript` on a list of
`n` elements checks `i` (or `n + i` when `i` is negative) against the bounds. -/
theorem list_subscript_int (hw : Host) (vm : VM) (r : Ref) (elements : List Value)
    (d : Double) (i : Int)
    (hobj : vm.heap[r]? = some (Obj.list elements))
    (hn : (elements.length : Int) ≤ INT_MAX)
    (hd : d.intValue? = some i) (h1 : INT_MIN ≤ i) (h2 : i ≤ INT_MAX) :
    primitive_list_subscript hw vm [Value.obj r, Value.num d] =
      if (if i < 0 then (elements.length : Int) + i else i) < 0
          ∨ (if i < 0 then (elements.length : Int) + i else i) ≥ (elements.length : Int)
      then some (NULL_VAL, vm)
      else (elements[(if i < 0 then (elements.length : Int) + i else i).toNat]?).map (fun v => (v, vm)) := by
  have hc := doubleToInt_of_intValue hw d i hd h1 h2
  have hne : Double.ne d (intToDouble i) = false := by
    rw [ne_intToDouble_of_intValue d i i hd]; simp
  have hw1 : i < 0 → wrapInt ((elements.length : Int) + i) = (elements.length : Int) + i := by
    intro hneg
    apply wrapInt_of_range
    · unfold INT_MIN at *; omega
    · unfold INT_MAX at *; omega
  unfold primitive_list_subscript
  simp only [List.getElem?_cons_succ, List.getElem?_cons_zero, IS_NUM, AS_NUM, Bool.not_true,
    Bool.false_eq_true, if_false, hc, hne, AS_LIST, objOf_obj, hobj]
  by_cases hneg : i < 0
  · simp only [hneg, if_true, hw1 hneg]
    split
    · rfl
    · cases elements[((elements.length : Int) + i).toNat]? <;> rfl
  · simp only [hneg, if_false]
    split
    · rfl
    · cases elements[i.toNat]? <;> rfl

/-- C1: on a list of `n` elements and an integer-valued Num index `i`,
`list_subscript` returns the element at position `i` when `0 ≤ i < n`, and the
element at position `n + i` when `-n ≤ i < 0`. -/
theorem list_subscript_in_range (hw : Host) (vm : VM) (r : Ref) (elements : List Value)
    (d : Double) (i : Int)
    (hobj : vm.heap[r]? = some (Obj.list elements))
    (hn : (elements.length : Int) ≤ INT_MAX)
    (hd : d.intValue? = some i) :
    (0 ≤ i ∧ i < (elements.length : Int) →
      ∃ v, elements[i.toNat]? = some v ∧
        primitive_list_subscript hw vm [Value.obj r, Value.num d] = some (v, vm)) ∧
    (-(elements.length : Int) ≤ i ∧ i < 0 →
      ∃ v, elements[((elements.length : Int) + i).toNat]? = some v ∧
        primitive_list_subscript hw vm [Value.obj r, Value.num d] = some (v, vm)) := by
  constructor
  · rintro ⟨h0, h1⟩
    have hlt : i.toNat < elements.length := by omega
    refine ⟨elements[i.toNat], List.getElem?_eq_getElem hlt, ?_⟩
    rw [list_subscript_int hw vm r elements d i hobj hn hd (by unfold INT_MIN; omega) (by omega)]
    have hneg : ¬ i < 0 := by omega
    simp only [if_neg hneg]
    rw [if_neg (show ¬ (i < 0 ∨ i ≥ (elements.length : Int)) by omega),
      List.getElem?_eq_getElem hlt]
    rfl
  · rintro ⟨h0, h1⟩
    have hlt : ((elements.length : Int) + i).toNat < elements.length := by omega
    refine ⟨elements[((elements.length : Int) + i).toNat], List.getElem?_eq_getElem hlt, ?_⟩
    rw [list_subscript_int hw vm r elements d i hobj hn hd
      (by unfold INT_MIN INT_MAX at *; omega) (by unfold INT_MAX at *; omega)]
    simp only [if_pos h1]
    rw [if_neg (show ¬ ((elements.length : Int) + i < 0
        ∨ (elements.length : Int) + i ≥ (elements.length : Int)) by omega),
      List.getElem?_eq_getElem hlt]
    rfl

/-- Instance of C1: on `[10, 20, 30]` the indices `-1` and `2` both return 30. -/
theorem list_subscript_in_range_witness :
    primitive_list_subscript sampleHost sampleVM [Value.obj 0, Value.num (dbl true 1)]
        = some (Value.num (dbl false 30), sampleVM) ∧
    primitive_list_subscript sampleHost sampleVM [Value.obj 0, Value.num (dbl false 2)]
        = some (Value.num (dbl false 30), sampleVM) := by
  constructor
  · obtain ⟨v, hv, hres⟩ := (list_subscript_in_range sampleHost sampleVM 0
      [Value.num (dbl false 10), Value.num (dbl false 20), Value.num (dbl false 30)]
      (dbl true 1) (-1) rfl (by decide) rfl).2 (by decide)
    have hv2 : v = Value.num (dbl false 30) := by
      have : (some (Value.num (dbl false 30)) : Option Value) = some v := hv
      exact (Option.some.inj this).symm
    rw [hres, hv2]
  · obtain ⟨v, hv, hres⟩ := (list_subscript_in_range sampleHost sampleVM 0
      [Value.num (dbl false 10), Value.num (dbl false 20), Value.num (dbl false 30)]
      (dbl false 2) 2 rfl (by decide) rfl).1 (by decide)
    have hv2 : v = Value.num (dbl false 30) := by
      have : (some (Value.num (dbl false 30)) : Option Value) = some v := hv
      exact (Option.some.inj this).symm
    rw [hres, hv2]

/-- C2: on a list of `n` elements and an integer-valued Num index `i` with
`i ≥ n` or `i < -n`, `list_subscript` returns null, which is not the
unsupported sentinel (an object); on the empty list every index argument
returns null. -/
theorem list_subscript_out_of_range (hw : Host) (vm : VM) (r : Ref) (elements : List Value)
    (hobj : vm.heap[r]? = some (Obj.list elements))
    (hn : (elements.length : Int) ≤ INT_MAX) :
    (∀ (d : Double) (i : Int), d.intValue? = some i →
      (i ≥ (elements.length : Int) ∨ i < -(elements.length : Int)) →
      primitive_list_subscript hw vm [Value.obj r, Value.num d] = some (NULL_VAL, vm)) ∧
    (∀ u, vm.unsupported = Value.obj u → NULL_VAL ≠ vm.unsupported) ∧
    (elements = [] → ∀ v, primitive_list_subscript hw vm [Value.obj r, v] = some (NULL_VAL, vm)) := by
  have main : ∀ (d : Double) (i : Int), d.intValue? = some i →
      (i ≥ (elements.length : Int) ∨ i < -(elements.length : Int)) →
      primitive_list_subscript hw vm [Value.obj r, Value.num d] = some (NULL_VAL, vm) := by
    intro d i hd hout
    by_cases hi : i < INT_MIN ∨ INT_MAX < i
    · exact list_subscript_huge hw vm _ d i hd hi
    · have h1 : INT_MIN ≤ i := by omega
      have h2 : i ≤ INT_MAX := by omega
      rw [list_subscript_int hw vm r elements d i hobj hn hd h1 h2]
      by_cases hneg : i < 0
      · simp only [if_pos hneg]
        rw [if_pos (show (elements.length : Int) + i < 0
          ∨ (elements.length : Int) + i ≥ (elements.length : Int) by omega)]
      · simp only [if_neg hneg]
        rw [if_pos (show i < 0 ∨ i ≥ (elements.length : Int) by omega)]
  refine ⟨main, ?_, ?_⟩
  · intro u hu h
    rw [hu] at h
    exact Value.noConfusion h
  · intro hnil v
    cases v with
    | num d =>
      cases hd : d.intValue? with
      | none => exact list_subscript_not_int hw vm _ d hd
      | some i =>
        apply main d i hd
        subst hnil
        simp only [List.length_nil, Nat.cast_zero, neg_zero]
        omega
    | bool b => exact list_subscript_not_num hw vm _ _ rfl
    | null => exact list_subscript_not_num hw vm _ _ rfl
    | obj u => exact list_subscript_not_num hw vm _ _ rfl

/-- Instance of C2: on `[10, 20, 30]` the indices `5` and `-5` return null. -/
theorem list_subscript_out_of_range_witness :
    primitive_list_subscript sampleHost sampleVM [Value.obj 0, Value.num (dbl false 5)]
        = some (NULL_VAL, sampleVM) ∧
    primitive_list_subscript sampleHost sampleVM [Value.obj 0, Value.num (dbl true 5)]
        = some (NULL_VAL, sampleVM) ∧
    primitive_list_subscript sampleHost sampleVM [Value.obj 7, Value.num (dbl false 0)]
        = some (NULL_VAL, sampleVM) :=
  ⟨(list_subscript_out_of_range sampleHost sampleVM 0
      [Value.num (dbl false 10), Value.num (dbl false 20), Value.num (dbl false 30)]
      rfl (by decide)).1 (dbl false 5) 5 rfl (by decide),
   (list_subscript_out_of_range sampleHost sampleVM 0
      [Value.num (dbl false 10), Value.num (dbl false 20), Value.num (dbl false 30)]
      rfl (by decide)).1 (dbl true 5) (-5) rfl (by decide),
   (list_subscript_out_of_range sampleHost sampleVM 7 [] rfl (by decide)).2.2 rfl _⟩

/-! ## Heap and C string facts -/

theorem alloc_heap (vm : VM) (o : Obj) : (vm.alloc o).heap = vm.heap ++ [o] := rfl

theorem alloc_old (vm : VM) (o x : Obj) (r : Ref) (h : vm.heap[r]? = some x) :
    (vm.alloc o).heap[r]? = some x := by
  have hlt : r < vm.heap.length := by
    by_contra hge
    have hge2 : vm.heap.length ≤ r := not_lt.mp hge
    rw [List.getElem?_eq_none hge2] at h
    exact Option.noConfusion h
  rw [alloc_heap, List.getElem?_append_left hlt, h]

theorem alloc_new (vm : VM) (o : Obj) : (vm.alloc o).heap[vm.heap.length]? = some o := by
  rw [alloc_heap]
  simp

theorem store_alloc (vm : VM) (o x : Obj) :
    (vm.alloc o).store vm.heap.length x = vm.alloc x := by
  unfold VM.store VM.alloc
  simp

theorem storeByte_alloc (vm : VM) (buf : List Nat) (i c : Nat) (hi : i < buf.length) :
    storeByte (vm.alloc (Obj.string buf)) vm.heap.length i c
      = some (vm.alloc (Obj.string (buf.set i c))) := by
  unfold storeByte
  rw [alloc_new]
  simp only [hi, if_true, store_alloc]

theorem strcpyTo_alloc (vm : VM) (buf : List Nat) (off : Nat) (src : List Nat)
    (hfit : off + strlen src + 1 ≤ buf.length) :
    strcpyTo (vm.alloc (Obj.string buf)) vm.heap.length off src
      = some (vm.alloc (Obj.string (strcpy buf off src))) := by
  unfold strcpyTo
  rw [alloc_new]
  simp only [hfit, if_true, store_alloc]

theorem AS_STRING_alloc (vm : VM) (buf : List Nat) :
    AS_STRING (vm.alloc (Obj.string buf)) (Value.obj vm.heap.length) = some vm.heap.length := by
  unfold AS_STRING
  rw [objOf_obj, alloc_new]

theorem AS_CSTRING_alloc_old (vm : VM) (o : Obj) (r : Ref) (buf : List Nat)
    (h : vm.heap[r]? = some (Obj.string buf)) :
    AS_CSTRING (vm.alloc o) (Value.obj r) = some buf := by
  unfold AS_CSTRING
  rw [objOf_obj, alloc_old vm o _ r h]

theorem AS_CSTRING_alloc_new (vm : VM) (buf : List Nat) :
    AS_CSTRING (vm.alloc (Obj.string buf)) (Value.obj vm.heap.length) = some buf := by
  unfold AS_CSTRING
  rw [objOf_obj, alloc_new]

theorem strlen_le_length (buf : List Nat) : strlen buf ≤ buf.length := by
  unfold strlen cstr
  exact (List.takeWhile_sublist _).length_le

theorem cstr_ne_zero (buf : List Nat) (c : Nat) (h : c ∈ cstr buf) : c ≠ 0 := by
  unfold cstr at h
  have := List.mem_takeWhile_imp h
  simpa using this

theorem cstr_nil : cstr [] = [] := rfl

theorem cstr_cons_zero (t : List Nat) : cstr (0 :: t) = [] := rfl

theorem cstr_cons_ne (a : Nat) (t : List Nat) (ha : a ≠ 0) : cstr (a :: t) = a :: cstr t := by
  unfold cstr
  exact List.takeWhile_cons_of_pos (by simpa using ha)

theorem cstr_append_zero (t rest : List Nat) (h : ∀ c ∈ t, c ≠ 0) : cstr (t ++ 0 :: rest) = t := by
  induction t with
  | nil => exact cstr_cons_zero rest
  | cons a t ih =>
    have ha : a ≠ 0 := h a (List.mem_cons_self a t)
    have ht : ∀ c ∈ t, c ≠ 0 := fun c hc => h c (List.mem_cons_of_mem a hc)
    rw [List.cons_append, cstr_cons_ne a _ ha, ih ht]

/-- What `strlen` counts is a prefix of the buffer, so a byte of the text is
read at the same offset in the buffer. -/
theorem cstr_getElem? (buf : List Nat) (k : Nat) (hk : k < strlen buf) :
    buf[k]? = (cstr buf)[k]? := by
  unfold strlen at hk
  induction buf generalizing k with
  | nil => simp [cstr_nil] at hk
  | cons a t ih =>
    by_cases ha : a = 0
    · subst ha
      simp [cstr_cons_zero] at hk
    · rw [cstr_cons_ne a t ha] at hk ⊢
      cases k with
      | zero => simp
      | succ k =>
        have hk2 : k < (cstr t).length := by simpa using hk
        simpa using ih k hk2

/-! ## String subscript -/

theorem newString_none (hw : Host) (vm : VM) (n : Nat) :
    newString hw vm none n
      = (Value.obj vm.heap.length, vm.alloc (Obj.string ((List.range (n + 1)).map hw.fresh))) := rfl

/-- On a non-Num index `string_subscript` returns null before it looks at the
receiver. -/
theorem string_subscript_not_num (hw : Host) (vm : VM) (recv v : Value) (hv : IS_NUM v = false) :
    primitive_string_subscript hw vm [recv, v] = some (NULL_VAL, vm) := by
  simp [primitive_string_subscript, hv]

/-- On a Num index that is not an integer `string_subscript` returns null
before it looks at the receiver. -/
theorem string_subscript_not_int (hw : Host) (vm : VM) (recv : Value) (d : Double)
    (hd : d.intValue? = none) :
    primitive_string_subscript hw vm [recv, Value.num d] = some (NULL_VAL, vm) := by
  simp [primitive_string_subscript, IS_NUM, AS_NUM, ne_intToDouble_of_not_int d _ hd]

/-- On an integer index outside the range of `int`, `string_subscript` returns
null. -/
theorem string_subscript_huge (hw : Host) (vm : VM) (recv : Value) (d : Double) (i : Int)
    (hd : d.intValue? = some i) (hi : i < INT_MIN ∨ INT_MAX < i) :
    primitive_string_subscript hw vm [recv, Value.num d] = some (NULL_VAL, vm) := by
  have hr := doubleToInt_range hw d
  have hne : Double.ne d (intToDouble (doubleToInt hw d)) = true := by
    rw [ne_intToDouble_of_intValue d i _ hd]
    apply decide_eq_true
    intro h
    rw [← h] at hr
    omega
  simp [primitive_string_subscript, IS_NUM, AS_NUM, hne]

/-- On an integer index `i` that fits an `int`, `string_subscript` checks `i`
(or `length + i` when `i` is negative) against `length = (int)strlen`, and
within the bounds allocates a string that holds the selected byte, a
terminator and one byte that is left unwritten. -/
theorem string_subscript_raw (hw : Host) (vm : VM) (r : Ref) (buf : List Nat)
    (d : Double) (i : Int)
    (hobj : vm.heap[r]? = some (Obj.string buf))
    (hd : d.intValue? = some i) (h1 : INT_MIN ≤ i) (h2 : i ≤ INT_MAX) :
    primitive_string_subscript hw vm [Value.obj r, Value.num d] =
      if (if i < 0 then wrapInt (wrapInt (strlen buf : Int) + i) else i) < 0
          ∨ (if i < 0 then wrapInt (wrapInt (strlen buf : Int) + i) else i)
              ≥ wrapInt (strlen buf : Int)
      then some (NULL_VAL, vm)
      else (buf[(if i < 0 then wrapInt (wrapInt (strlen buf : Int) + i) else i).toNat]?).map
        (fun c => (Value.obj vm.heap.length, vm.alloc (Obj.string [c, 0, hw.fresh 2]))) := by
  have hc := doubleToInt_of_intValue hw d i hd h1 h2
  have hne : Double.ne d (intToDouble i) = false := by
    rw [ne_intToDouble_of_intValue d i i hd]; simp
  have hraw : (List.range (2 + 1)).map hw.fresh = [hw.fresh 0, hw.fresh 1, hw.fresh 2] := rfl
  have hstore : ∀ c : Nat,
      (match storeByte (vm.alloc (Obj.string [hw.fresh 0, hw.fresh 1, hw.fresh 2])) vm.heap.length 0 c with
        | some vm2 =>
          match storeByte vm2 vm.heap.length 1 0 with
          | some vm3 => some (Value.obj vm.heap.length, vm3)
          | none => none
        | none => none)
      = some (Value.obj vm.heap.length, vm.alloc (Obj.string [c, 0, hw.fresh 2])) := by
    intro c
    rw [storeByte_alloc vm _ 0 c (by simp)]
    simp only [List.set_cons_zero]
    rw [storeByte_alloc vm _ 1 0 (by simp)]
    rfl
  have hcs : AS_CSTRING vm (Value.obj r) = some buf := by
    unfold AS_CSTRING; rw [objOf_obj, hobj]
  unfold primitive_string_subscript
  simp only [List.getElem?_cons_succ, List.getElem?_cons_zero, IS_NUM, AS_NUM, Bool.not_true,
    Bool.false_eq_true, if_false, hc, hne, newString_none, hraw, AS_STRING_alloc,
    AS_CSTRING_alloc_old vm _ r buf hobj, hcs]
  by_cases hb : (if i < 0 then wrapInt (wrapInt (strlen buf : Int) + i) else i) < 0
      ∨ (if i < 0 then wrapInt (wrapInt (strlen buf : Int) + i) else i)
          ≥ wrapInt (strlen buf : Int)
  · rw [if_pos hb, if_pos hb]
  · rw [if_neg hb, if_neg hb]
    cases buf[(if i < 0 then wrapInt (wrapInt (strlen buf : Int) + i) else i).toNat]? with
    | none => rfl
    | some c => exact hstore c

/-- The same for a string of at most `INT_MAX` bytes, where `(int)strlen` is
the length and the sum does not wrap. -/
theorem string_subscript_int (hw : Host) (vm : VM) (r : Ref) (buf : List Nat)
    (d : Double) (i : Int)
    (hobj : vm.heap[r]? = some (Obj.string buf))
    (hlen : (strlen buf : Int) ≤ INT_MAX)
    (hd : d.intValue? = some i) (h1 : INT_MIN ≤ i) (h2 : i ≤ INT_MAX) :
    primitive_string_subscript hw vm [Value.obj r, Value.num d] =
      if (if i < 0 then (strlen buf : Int) + i else i) < 0
          ∨ (if i < 0 then (strlen buf : Int) + i else i) ≥ (strlen buf : Int)
      then some (NULL_VAL, vm)
      else (buf[(if i < 0 then (strlen buf : Int) + i else i).toNat]?).map
        (fun c => (Value.obj vm.heap.length, vm.alloc (Obj.string [c, 0, hw.fresh 2]))) := by
  have hw0 : wrapInt (strlen buf : Int) = (strlen buf : Int) :=
    wrapInt_of_range _ (by unfold INT_MIN; omega) hlen
  have hw1 : i < 0 → wrapInt ((strlen buf : Int) + i) = (strlen buf : Int) + i := by
    intro hneg
    apply wrapInt_of_range
    · unfold INT_MIN at *; omega
    · unfold INT_MAX at *; omega
  rw [string_subscript_raw hw vm r buf d i hobj hd h1 h2, hw0]
  by_cases hneg : i < 0
  · simp only [if_pos hneg, hw1 hneg]
  · simp only [if_neg hneg]

/-! ## The subscripts against the index policy of the specification -/

theorem normalisedIndex_none_of_huge (n i : Int) (hn0 : 0 ≤ n) (hn : n ≤ INT_MAX)
    (hi : i < INT_MIN ∨ INT_MAX < i) : normalisedIndex n i = none := by
  unfold normalisedIndex
  unfold INT_MIN INT_MAX at *
  rw [if_neg (by omega), if_neg (by omega)]

theorem normalisedIndex_lt (n i : Int) (k : Nat) (h : normalisedIndex n i = some k) :
    (k : Int) < n := by
  unfold normalisedIndex at h
  by_cases h1 : 0 ≤ i ∧ i < n
  · rw [if_pos h1] at h
    have := Option.some.inj h
    omega
  · rw [if_neg h1] at h
    by_cases h2 : -n ≤ i ∧ i < 0
    · rw [if_pos h2] at h
      have := Option.some.inj h
      omega
    · rw [if_neg h2] at h
      exact Option.noConfusion h

/-- `list_subscript` on an integer-valued Num index follows the index policy:
null when no position is selected, otherwise the element at that position. -/
theorem list_subscript_norm (hw : Host) (vm : VM) (r : Ref) (elements : List Value)
    (d : Double) (i : Int)
    (hobj : vm.heap[r]? = some (Obj.list elements))
    (hn : (elements.length : Int) ≤ INT_MAX)
    (hd : d.intValue? = some i) :
    primitive_list_subscript hw vm [Value.obj r, Value.num d] =
      match normalisedIndex (elements.length : Int) i with
      | none => some (NULL_VAL, vm)
      | some k => (elements[k]?).map (fun v => (v, vm)) := by
  by_cases hi : i < INT_MIN ∨ INT_MAX < i
  · rw [list_subscript_huge hw vm _ d i hd hi,
      normalisedIndex_none_of_huge _ i (by omega) hn hi]
  · have h1 : INT_MIN ≤ i := by omega
    have h2 : i ≤ INT_MAX := by omega
    rw [list_subscript_int hw vm r elements d i hobj hn hd h1 h2]
    unfold normalisedIndex
    by_cases hneg : i < 0
    · simp only [if_pos hneg]
      rw [if_neg (show ¬ (0 ≤ i ∧ i < (elements.length : Int)) by omega)]
      by_cases hb : -(elements.length : Int) ≤ i ∧ i < 0
      · rw [if_pos hb, if_neg (show ¬ ((elements.length : Int) + i < 0
          ∨ (elements.length : Int) + i ≥ (elements.length : Int)) by omega)]
      · rw [if_neg hb, if_pos (show ((elements.length : Int) + i < 0
          ∨ (elements.length : Int) + i ≥ (elements.length : Int)) by omega)]
    · simp only [if_neg hneg]
      by_cases hb : 0 ≤ i ∧ i < (elements.length : Int)
      · rw [if_pos hb, if_neg (show ¬ (i < 0 ∨ i ≥ (elements.length : Int)) by omega)]
      · rw [if_neg hb, if_neg (show ¬ (-(elements.length : Int) ≤ i ∧ i < 0) by omega),
          if_pos (show (i < 0 ∨ i ≥ (elements.length : Int)) by omega)]

/-- `string_subscript` on an integer-valued Num index follows the index
policy: null when no position is selected, otherwise a new string that holds
the byte at that position. -/
theorem string_subscript_norm (hw : Host) (vm : VM) (r : Ref) (buf : List Nat)
    (d : Double) (i : Int)
    (hobj : vm.heap[r]? = some (Obj.string buf))
    (hlen : (strlen buf : Int) ≤ INT_MAX)
    (hd : d.intValue? = some i) :
    primitive_string_subscript hw vm [Value.obj r, Value.num d] =
      match normalisedIndex (strlen buf : Int) i with
      | none => some (NULL_VAL, vm)
      | some k => (buf[k]?).map
          (fun c => (Value.obj vm.heap.length, vm.alloc (Obj.string [c, 0, hw.fresh 2]))) := by
  by_cases hi : i < INT_MIN ∨ INT_MAX < i
  · rw [string_subscript_huge hw vm _ d i hd hi,
      normalisedIndex_none_of_huge _ i (by omega) hlen hi]
  · have h1 : INT_MIN ≤ i := by omega
    have h2 : i ≤ INT_MAX := by omega
    rw [string_subscript_int hw vm r buf d i hobj hlen hd h1 h2]
    unfold normalisedIndex
    by_cases hneg : i < 0
    · simp only [if_pos hneg]
      rw [if_neg (show ¬ (0 ≤ i ∧ i < (strlen buf : Int)) by omega)]
      by_cases hb : -(strlen buf : Int) ≤ i ∧ i < 0
      · rw [if_pos hb, if_neg (show ¬ ((strlen buf : Int) + i < 0
          ∨ (strlen buf : Int) + i ≥ (strlen buf : Int)) by omega)]
      · rw [if_neg hb, if_pos (show ((strlen buf : Int) + i < 0
          ∨ (strlen buf : Int) + i ≥ (strlen buf : Int)) by omega)]
    · simp only [if_neg hneg]
      by_cases hb : 0 ≤ i ∧ i < (strlen buf : Int)
      · rw [if_pos hb, if_neg (show ¬ (i < 0 ∨ i ≥ (strlen buf : Int)) by omega)]
      · rw [if_neg hb, if_neg (show ¬ (-(strlen buf : Int) ≤ i ∧ i < 0) by omega),
          if_pos (show (i < 0 ∨ i ≥ (strlen buf : Int)) by omega)]

/-- C3: on an index argument that is not a Num, or is a Num that is no integer
(a non-zero fractional part, an infinity or NaN), `list_subscript` and
`string_subscript` return null whatever the receiver is. -/
theorem subscript_non_integer_index (hw : Host) (vm : VM) (recv v : Value)
    (hv : IS_NUM v = false ∨ ∃ d, v = Value.num d ∧ d.intValue? = none) :
    primitive_list_subscript hw vm [recv, v] = some (NULL_VAL, vm) ∧
    primitive_string_subscript hw vm [recv, v] = some (NULL_VAL, vm) := by
  rcases hv with hv | ⟨d, rfl, hd⟩
  · exact ⟨list_subscript_not_num hw vm recv v hv, string_subscript_not_num hw vm recv v hv⟩
  · exact ⟨list_subscript_not_int hw vm recv d hd, string_subscript_not_int hw vm recv d hd⟩

/-- Instance of C3: the index 1.5 (3 * 2^-1) on a list and on a string, and the
index `true` on a list. -/
theorem subscript_non_integer_index_witness :
    primitive_list_subscript sampleHost sampleVM [Value.obj 0, Value.num (Double.finite false 3 (-1))]
        = some (NULL_VAL, sampleVM) ∧
    primitive_string_subscript sampleHost sampleVM [Value.obj 1, Value.num (Double.finite false 3 (-1))]
        = some (NULL_VAL, sampleVM) ∧
    primitive_list_subscript sampleHost sampleVM [Value.obj 0, Value.bool true]
        = some (NULL_VAL, sampleVM) :=
  ⟨(subscript_non_integer_index sampleHost sampleVM (Value.obj 0)
      (Value.num (Double.finite false 3 (-1))) (Or.inr ⟨_, rfl, by decide⟩)).1,
   (subscript_non_integer_index sampleHost sampleVM (Value.obj 1)
      (Value.num (Double.finite false 3 (-1))) (Or.inr ⟨_, rfl, by decide⟩)).2,
   (subscript_non_integer_index sampleHost sampleVM (Value.obj 0)
      (Value.bool true) (Or.inl rfl)).1⟩

/-! ## Num operators -/

/-- C4: with the unsupported sentinel an object, as `loadCore` creates it, each
of the nine Num binary operators applied to a Num receiver and an argument `v`
returns the sentinel exactly when `v` is not a Num; when `v` is a Num the five
arithmetic operators return a Num and the four comparisons a Bool. -/
theorem num_binary_unsupported (hw : Host) (vm : VM) (x : Double) (v : Value) (u : Ref)
    (hu : vm.unsupported = Value.obj u) :
    (∀ p ∈ [Prim.num_minus, Prim.num_plus, Prim.num_multiply, Prim.num_divide, Prim.num_mod],
      ∃ res, callPrimitive p hw vm [Value.num x, v] = some (res, vm) ∧
        (res = vm.unsupported ↔ IS_NUM v = false) ∧
        (IS_NUM v = true → ∃ z, res = Value.num z)) ∧
    (∀ p ∈ [Prim.num_lt, Prim.num_gt, Prim.num_lte, Prim.num_gte],
      ∃ res, callPrimitive p hw vm [Value.num x, v] = some (res, vm) ∧
        (res = vm.unsupported ↔ IS_NUM v = false) ∧
        (IS_NUM v = true → ∃ b, res = Value.bool b)) := by
  constructor
  · intro p hp
    simp only [List.mem_cons, List.mem_singleton, List.not_mem_nil, or_false] at hp
    rcases hp with rfl | rfl | rfl | rfl | rfl <;> cases v <;>
      simp [callPrimitive, primitive_num_minus, primitive_num_plus, primitive_num_multiply,
        primitive_num_divide, primitive_num_mod, IS_NUM, AS_NUM, NUM_VAL, hu]
  · intro p hp
    simp only [List.mem_cons, List.mem_singleton, List.not_mem_nil, or_false] at hp
    rcases hp with rfl | rfl | rfl | rfl <;> cases v <;>
      simp [callPrimitive, primitive_num_lt, primitive_num_gt, primitive_num_lte,
        primitive_num_gte, IS_NUM, AS_NUM, BOOL_VAL, hu]

/-- Instance of C4: `2 + "abc"` yields the sentinel, and `2 < 3` yields a Bool. -/
theorem num_binary_unsupported_witness :
    sampleVM.unsupported = Value.obj 6 ∧
    primitive_num_plus sampleHost sampleVM [Value.num (dbl false 2), Value.obj 1]
      = some (Value.obj 6, sampleVM) ∧
    ∃ b, primitive_num_lt sampleHost sampleVM [Value.num (dbl false 2), Value.num (dbl false 3)]
      = some (Value.bool b, sampleVM) := by
  refine ⟨rfl, ?_, ?_⟩
  · obtain ⟨res, hres, hiff, _⟩ :=
      (num_binary_unsupported sampleHost sampleVM (dbl false 2) (Value.obj 1) 6 rfl).1
        Prim.num_plus (by simp)
    have hr : res = Value.obj 6 := hiff.mpr rfl
    rw [← hr]
    exact hres
  · obtain ⟨res, hres, _, hb⟩ :=
      (num_binary_unsupported sampleHost sampleVM (dbl false 2) (Value.num (dbl false 3)) 6 rfl).2
        Prim.num_lt (by simp)
    obtain ⟨b, hb⟩ := hb rfl
    exact ⟨b, by rw [← hb]; exact hres⟩

/-- C6: on a Num receiver and any argument, `num_eqeq` and `num_bangeq` return
a Bool, `false` and `true` respectively when the argument is not a Num; a Bool
is never the unsupported sentinel, which is an object. -/
theorem num_equality_returns_bool (hw : Host) (vm : VM) (x : Double) (v : Value) :
    (∃ b, primitive_num_eqeq hw vm [Value.num x, v] = some (Value.bool b, vm) ∧
      (IS_NUM v = false → b = false) ∧
      (∀ u, vm.unsupported = Value.obj u → Value.bool b ≠ vm.unsupported)) ∧
    (∃ b, primitive_num_bangeq hw vm [Value.num x, v] = some (Value.bool b, vm) ∧
      (IS_NUM v = false → b = true) ∧
      (∀ u, vm.unsupported = Value.obj u → Value.bool b ≠ vm.unsupported)) := by
  have hsent : ∀ b u, vm.unsupported = Value.obj u → Value.bool b ≠ vm.unsupported := by
    intro b u hu h
    rw [hu] at h
    exact Value.noConfusion h
  constructor
  · cases v with
    | num y =>
      exact ⟨Double.eq x y, by simp [primitive_num_eqeq, IS_NUM, AS_NUM, BOOL_VAL],
        by simp [IS_NUM], hsent _⟩
    | bool c => exact ⟨false, by simp [primitive_num_eqeq, IS_NUM, FALSE_VAL], fun _ => rfl, hsent _⟩
    | null => exact ⟨false, by simp [primitive_num_eqeq, IS_NUM, FALSE_VAL], fun _ => rfl, hsent _⟩
    | obj q => exact ⟨false, by simp [primitive_num_eqeq, IS_NUM, FALSE_VAL], fun _ => rfl, hsent _⟩
  · cases v with
    | num y =>
      exact ⟨Double.ne x y, by simp [primitive_num_bangeq, IS_NUM, AS_NUM, BOOL_VAL],
        by simp [IS_NUM], hsent _⟩
    | bool c => exact ⟨true, by simp [primitive_num_bangeq, IS_NUM, TRUE_VAL], fun _ => rfl, hsent _⟩
    | null => exact ⟨true, by simp [primitive_num_bangeq, IS_NUM, TRUE_VAL], fun _ => rfl, hsent _⟩
    | obj q => exact ⟨true, by simp [primitive_num_bangeq, IS_NUM, TRUE_VAL], fun _ => rfl, hsent _⟩

/-- Instance of C6: `2 == "abc"` is `false` and `2 != "abc"` is `true`. -/
theorem num_equality_returns_bool_witness :
    primitive_num_eqeq sampleHost sampleVM [Value.num (dbl false 2), Value.obj 1]
      = some (Value.bool false, sampleVM) ∧
    primitive_num_bangeq sampleHost sampleVM [Value.num (dbl false 2), Value.obj 1]
      = some (Value.bool true, sampleVM) := by
  obtain ⟨⟨b1, h1, hb1, _⟩, ⟨b2, h2, hb2, _⟩⟩ :=
    num_equality_returns_bool sampleHost sampleVM (dbl false 2) (Value.obj 1)
  rw [← hb1 rfl, ← hb2 rfl]
  exact ⟨h1, h2⟩

/-! ## String concatenation -/

theorem writeAt_zero_of_le (buf data : List Nat) (h : data.length = buf.length) :
    writeAt buf 0 data = data := by
  unfold writeAt
  simp [h]

theorem cstr_all_ne_zero (buf : List Nat) : ∀ c ∈ cstr buf, c ≠ 0 :=
  fun c hc => cstr_ne_zero buf c hc

theorem cstr_idem_append (a b rest : List Nat) :
    cstr (cstr a ++ cstr b ++ 0 :: rest) = cstr a ++ cstr b := by
  apply cstr_append_zero
  intro c hc
  rcases List.mem_append.mp hc with h | h
  · exact cstr_ne_zero a c h
  · exact cstr_ne_zero b c h

/-- The three writes of `string_plus` into a fresh buffer of
`strlen a + strlen b + 1` bytes leave the text of `a`, the text of `b` and a
terminator. -/
theorem plus_buffer (raw a b : List Nat) (hraw : raw.length = strlen a + strlen b + 1) :
    (strcpy (strcpy raw 0 a) (strlen a) b).set (strlen a + strlen b) 0
      = cstr a ++ cstr b ++ [0] := by
  have hla : (cstr a).length = strlen a := rfl
  have hlb : (cstr b).length = strlen b := rfl
  have h1 : strcpy raw 0 a = cstr a ++ 0 :: raw.drop (strlen a + 1) := by
    unfold strcpy writeAt
    simp [hla]
  have h2 : strcpy (cstr a ++ 0 :: raw.drop (strlen a + 1)) (strlen a) b
      = cstr a ++ cstr b ++ [0] := by
    unfold strcpy writeAt
    have ht : List.take (strlen a) (cstr a ++ 0 :: raw.drop (strlen a + 1)) = cstr a := by
      rw [List.take_append_of_le_length (by rw [hla])]
      exact List.take_of_length_le (by rw [hla])
    have hd : List.drop (strlen a + (cstr b ++ [0]).length)
        (cstr a ++ 0 :: raw.drop (strlen a + 1)) = [] := by
      apply List.drop_of_length_le
      simp [hla, hlb, hraw]
    rw [ht, hd]
    simp
  rw [h1, h2]
  have hlen : (cstr a ++ cstr b).length = strlen a + strlen b := by
    simp [hla, hlb]
  rw [← hlen, List.set_append_right _ _ (le_refl _)]
  simp

theorem strcpy_length (buf : List Nat) (off : Nat) (src : List Nat)
    (hfit : off + strlen src + 1 ≤ buf.length) : (strcpy buf off src).length = buf.length := by
  have hl : (cstr src).length = strlen src := rfl
  unfold strcpy writeAt
  simp only [List.length_append, List.length_take, List.length_drop, List.length_cons,
    List.length_nil, hl]
  omega

/-- `string_plus` on two strings allocates one string, whose buffer holds the
text of the receiver, the text of the argument and a terminator. -/
theorem string_plus_strings (hw : Host) (vm : VM) (r q : Ref) (a b : List Nat)
    (ha : vm.heap[r]? = some (Obj.string a)) (hb : vm.heap[q]? = some (Obj.string b)) :
    primitive_string_plus hw vm [Value.obj r, Value.obj q]
      = some (Value.obj vm.heap.length, vm.alloc (Obj.string (cstr a ++ cstr b ++ [0]))) := by
  have hrawlen : ((List.range (strlen a + strlen b + 1)).map hw.fresh).length
      = strlen a + strlen b + 1 := by simp
  have hfit1 : 0 + strlen a + 1 ≤ ((List.range (strlen a + strlen b + 1)).map hw.fresh).length := by
    rw [hrawlen]; omega
  have hlen1 := strcpy_length _ 0 a hfit1
  have hfit2 : strlen a + strlen b + 1
      ≤ (strcpy ((List.range (strlen a + strlen b + 1)).map hw.fresh) 0 a).length := by
    rw [hlen1, hrawlen]
  have hlen2 := strcpy_length _ (strlen a) b hfit2
  have hfit3 : strlen a + strlen b
      < (strcpy (strcpy ((List.range (strlen a + strlen b + 1)).map hw.fresh) 0 a) (strlen a) b).length := by
    rw [hlen2, hlen1, hrawlen]; omega
  unfold primitive_string_plus
  simp only [List.getElem?_cons_succ, List.getElem?_cons_zero, IS_STRING, AS_CSTRING, objOf_obj,
    ha, hb, Bool.not_true, Bool.false_eq_true, if_false, newString_none, AS_STRING_alloc]
  rw [strcpyTo_alloc vm _ 0 a hfit1]
  simp only []
  rw [strcpyTo_alloc vm _ (strlen a) b hfit2]
  simp only []
  rw [storeByte_alloc vm _ _ 0 hfit3]
  simp only []
  rw [plus_buffer _ a b hrawlen]

/-- `string_plus` on an argument that is not a string returns the sentinel. -/
theorem string_plus_not_string (hw : Host) (vm : VM) (recv v : Value)
    (hv : IS_STRING vm v = false) :
    primitive_string_plus hw vm [recv, v] = some (vm.unsupported, vm) := by
  simp [primitive_string_plus, hv]

/-- `string_count` of a string object is the length of its text. -/
theorem string_count_eq (hw : Host) (vm : VM) (r : Ref) (buf : List Nat)
    (h : vm.heap[r]? = some (Obj.string buf)) :
    primitive_string_count hw vm [Value.obj r]
      = some (NUM_VAL (intToDouble (strlen buf : Int)), vm) := by
  simp [primitive_string_count, AS_CSTRING, objOf_obj, h]

theorem AS_CSTRING_some (vm : VM) (v : Value) (b : List Nat) (h : AS_CSTRING vm v = some b) :
    ∃ q, v = Value.obj q ∧ vm.heap[q]? = some (Obj.string b) := by
  cases v with
  | obj q =>
    refine ⟨q, rfl, ?_⟩
    unfold AS_CSTRING at h
    rw [objOf_obj] at h
    cases hq : vm.heap[q]? with
    | none => rw [hq] at h; exact Option.noConfusion h
    | some o =>
      rw [hq] at h
      cases o with
      | string buf => simp only [Option.some.injEq] at h; rw [h]
      | list e => exact Option.noConfusion h
      | fn c => exact Option.noConfusion h
      | cls c => exact Option.noConfusion h
      | inst c fs => exact Option.noConfusion h
  | bool c => exact Option.noConfusion h
  | null => exact Option.noConfusion h
  | num d => exact Option.noConfusion h

/-- C7: on a String receiver with buffer `a`, `string_plus` returns the
unsupported sentinel when the argument is not a String; when the argument is a
String with buffer `b` it returns a String at an address that was free, whose
text is the text of `a` followed by the text of `b`, whose count is the sum of
the two counts, and every object that was in the heap, the operands among them,
is unchanged. -/
theorem string_plus_concat (hw : Host) (vm : VM) (r : Ref) (a : List Nat) (v : Value)
    (ha : vm.heap[r]? = some (Obj.string a)) :
    (IS_STRING vm v = false →
      primitive_string_plus hw vm [Value.obj r, v] = some (vm.unsupported, vm)) ∧
    (∀ b, AS_CSTRING vm v = some b →
      ∃ vm1 res,
        primitive_string_plus hw vm [Value.obj r, v] = some (Value.obj vm.heap.length, vm1) ∧
        vm.heap[vm.heap.length]? = none ∧
        vm1.heap[vm.heap.length]? = some (Obj.string res) ∧
        cstr res = cstr a ++ cstr b ∧
        primitive_string_count hw vm1 [Value.obj vm.heap.length]
          = some (NUM_VAL (intToDouble ((strlen a + strlen b : Nat) : Int)), vm1) ∧
        (∀ (p : Nat) (o : Obj), vm.heap[p]? = some o → vm1.heap[p]? = some o)) := by
  constructor
  · exact string_plus_not_string hw vm _ v
  · intro b hb
    obtain ⟨q, rfl, hq⟩ := AS_CSTRING_some vm v b hb
    have hc : cstr (cstr a ++ cstr b ++ [0]) = cstr a ++ cstr b := cstr_idem_append a b []
    have hnew := alloc_new vm (Obj.string (cstr a ++ cstr b ++ [0]))
    refine ⟨vm.alloc (Obj.string (cstr a ++ cstr b ++ [0])), cstr a ++ cstr b ++ [0],
      string_plus_strings hw vm r q a b ha hq, ?_, hnew, hc, ?_, ?_⟩
    · exact List.getElem?_eq_none (le_refl _)
    · rw [string_count_eq hw _ _ _ hnew]
      have : strlen (cstr a ++ cstr b ++ [0]) = strlen a + strlen b := by
        unfold strlen
        rw [hc, List.length_append]
      rw [this]
    · intro p o hp
      exact alloc_old vm _ o p hp

/-- Instance of C7: "abc" + "de" is a new string with text "abcde" and leaves
"abc" in place; "abc" + 2 is the sentinel. -/
theorem string_plus_concat_witness :
    (∃ vm1 res,
      primitive_string_plus sampleHost sampleVM [Value.obj 1, Value.obj 2]
        = some (Value.obj 10, vm1) ∧
      vm1.heap[10]? = some (Obj.string res) ∧
      cstr res = [97, 98, 99, 100, 101] ∧
      vm1.heap[1]? = some (Obj.string [97, 98, 99, 0])) ∧
    primitive_string_plus sampleHost sampleVM [Value.obj 1, Value.num (dbl false 2)]
      = some (Value.obj 6, sampleVM) := by
  have h := string_plus_concat sampleHost sampleVM 1 [97, 98, 99, 0]
  constructor
  · obtain ⟨vm1, res, h1, _, h3, h4, _, h6⟩ := (h (Value.obj 2) rfl).2 [100, 101, 0] rfl
    exact ⟨vm1, res, h1, h3, h4, h6 1 _ rfl⟩
  · exact (h (Value.num (dbl false 2)) rfl).1 rfl

/-! ## The two subscripts side by side -/

/-- A selected position of a string of `n` bytes holds a byte of its text. -/
theorem cstr_at_selected (buf : List Nat) (i : Int) (k : Nat)
    (hk : normalisedIndex (strlen buf : Int) i = some k) :
    ∃ c, buf[k]? = some c ∧ (cstr buf)[k]? = some c := by
  have hlt : k < strlen buf := by
    have := normalisedIndex_lt _ i k hk
    omega
  have hlt2 : k < (cstr buf).length := hlt
  exact ⟨(cstr buf)[k], by rw [cstr_getElem? buf k hlt, List.getElem?_eq_getElem hlt2],
    List.getElem?_eq_getElem hlt2⟩

/-- The text of the buffer that `string_subscript` leaves is the selected byte. -/
theorem cstr_one_byte (buf : List Nat) (k c junk : Nat) (hc : (cstr buf)[k]? = some c) :
    cstr [c, 0, junk] = [c] := by
  have hmem : c ∈ cstr buf := List.getElem?_mem hc
  have hne : c ≠ 0 := cstr_ne_zero buf c hmem
  rw [cstr_cons_ne c _ hne, cstr_cons_zero]

/-- C8 (as amended): for a string and a list of equal counts and any index
argument, either both subscripts select no position and both return null, or
both select the same normalised position `k`: the list returns its element at
`k` and the string a new string made of its byte at `k`.  Hence, when no
element of the list is null, `string_subscript` returns null exactly when
`list_subscript` does. -/
theorem subscript_same_policy (hw : Host) (vm : VM) (rs rl : Ref) (buf : List Nat)
    (elements : List Value) (v : Value)
    (hs : vm.heap[rs]? = some (Obj.string buf))
    (hl : vm.heap[rl]? = some (Obj.list elements))
    (hcount : strlen buf = elements.length)
    (hn : (elements.length : Int) ≤ INT_MAX) :
    ((primitive_list_subscript hw vm [Value.obj rl, v] = some (NULL_VAL, vm) ∧
        primitive_string_subscript hw vm [Value.obj rs, v] = some (NULL_VAL, vm) ∧
        (∀ d i, v = Value.num d → d.intValue? = some i →
          normalisedIndex (elements.length : Int) i = none)) ∨
      (∃ d i k e c, v = Value.num d ∧ d.intValue? = some i ∧
        normalisedIndex (elements.length : Int) i = some k ∧
        elements[k]? = some e ∧ (cstr buf)[k]? = some c ∧
        primitive_list_subscript hw vm [Value.obj rl, v] = some (e, vm) ∧
        primitive_string_subscript hw vm [Value.obj rs, v]
          = some (Value.obj vm.heap.length, vm.alloc (Obj.string [c, 0, hw.fresh 2])))) ∧
    ((∀ e ∈ elements, e ≠ Value.null) →
      (returned (primitive_string_subscript hw vm [Value.obj rs, v]) = some NULL_VAL ↔
        returned (primitive_list_subscript hw vm [Value.obj rl, v]) = some NULL_VAL)) := by
  have hlen : (strlen buf : Int) ≤ INT_MAX := by rw [hcount]; exact hn
  have hnum : IS_NUM v = false → (primitive_list_subscript hw vm [Value.obj rl, v] = some (NULL_VAL, vm) ∧
        primitive_string_subscript hw vm [Value.obj rs, v] = some (NULL_VAL, vm) ∧
        (∀ d i, v = Value.num d → d.intValue? = some i →
          normalisedIndex (elements.length : Int) i = none)) := by
    intro hv
    refine ⟨list_subscript_not_num hw vm _ v hv, string_subscript_not_num hw vm _ v hv, ?_⟩
    intro d i hvd
    rw [hvd] at hv
    exact Bool.noConfusion hv
  have key : (primitive_list_subscript hw vm [Value.obj rl, v] = some (NULL_VAL, vm) ∧
        primitive_string_subscript hw vm [Value.obj rs, v] = some (NULL_VAL, vm) ∧
        (∀ d i, v = Value.num d → d.intValue? = some i →
          normalisedIndex (elements.length : Int) i = none)) ∨
      (∃ d i k e c, v = Value.num d ∧ d.intValue? = some i ∧
        normalisedIndex (elements.length : Int) i = some k ∧
        elements[k]? = some e ∧ (cstr buf)[k]? = some c ∧
        primitive_list_subscript hw vm [Value.obj rl, v] = some (e, vm) ∧
        primitive_string_subscript hw vm [Value.obj rs, v]
          = some (Value.obj vm.heap.length, vm.alloc (Obj.string [c, 0, hw.fresh 2]))) := by
    cases v with
    | bool b => exact Or.inl (hnum rfl)
    | null => exact Or.inl (hnum rfl)
    | obj q => exact Or.inl (hnum rfl)
    | num d =>
      cases hd : d.intValue? with
      | none =>
        refine Or.inl ⟨list_subscript_not_int hw vm _ d hd, string_subscript_not_int hw vm _ d hd, ?_⟩
        intro d2 i hv hd2
        cases hv
        rw [hd] at hd2
        exact Option.noConfusion hd2
      | some i =>
        have hL := list_subscript_norm hw vm rl elements d i hl hn hd
        have hS := string_subscript_norm hw vm rs buf d i hs hlen hd
        rw [hcount] at hS
        cases hk : normalisedIndex (elements.length : Int) i with
        | none =>
          rw [hk] at hL hS
          refine Or.inl ⟨hL, hS, ?_⟩
          intro d2 i2 hv hd2
          cases hv
          rw [hd] at hd2
          cases hd2
          exact hk
        | some k =>
          rw [hk] at hL hS
          have hklt : k < elements.length := by
            have := normalisedIndex_lt _ i k hk
            omega
          have hk2 : normalisedIndex (strlen buf : Int) i = some k := by rw [hcount]; exact hk
          obtain ⟨c, hc1, hc2⟩ := cstr_at_selected buf i k hk2
          have hL2 : primitive_list_subscript hw vm [Value.obj rl, Value.num d]
              = (elements[k]?).map (fun v => (v, vm)) := hL
          have hS2 : primitive_string_subscript hw vm [Value.obj rs, Value.num d]
              = (buf[k]?).map (fun c => (Value.obj vm.heap.length,
                  vm.alloc (Obj.string [c, 0, hw.fresh 2]))) := hS
          rw [List.getElem?_eq_getElem hklt] at hL2
          rw [hc1] at hS2
          exact Or.inr ⟨d, i, k, elements[k], c, rfl, hd, hk, List.getElem?_eq_getElem hklt,
            hc2, hL2, hS2⟩
  refine ⟨key, ?_⟩
  intro hnonnull
  rcases key with ⟨h1, h2, _⟩ | ⟨d, i, k, e, c, _, _, _, he, _, h1, h2⟩
  · rw [h1, h2]
  · rw [h1, h2]
    have hene : e ≠ Value.null := hnonnull e (List.getElem?_mem he)
    constructor
    · intro h
      simp [returned, NULL_VAL] at h
    · intro h
      simp only [returned, Option.map_some', Option.some.injEq, NULL_VAL] at h
      exact absurd h hene

/-- Instance of C8 (as amended): on "abc" and `[10, 20, 30]` the index 5
selects nothing in either, and the subscripts agree on null for every index. -/
theorem subscript_same_policy_witness :
    sampleVM.heap[1]? = some (Obj.string [97, 98, 99, 0]) ∧
    strlen [97, 98, 99, 0] = 3 ∧
    (returned (primitive_string_subscript sampleHost sampleVM [Value.obj 1, Value.num (dbl false 5)])
        = some NULL_VAL ↔
      returned (primitive_list_subscript sampleHost sampleVM [Value.obj 0, Value.num (dbl false 5)])
        = some NULL_VAL) :=
  ⟨rfl, rfl,
    (subscript_same_policy sampleHost sampleVM 1 0 [97, 98, 99, 0]
      [Value.num (dbl false 10), Value.num (dbl false 20), Value.num (dbl false 30)]
      (Value.num (dbl false 5)) rfl rfl rfl (by decide)).2 (by decide)⟩

/-- C8 as stated fails: the string "a" and the list `[null]` have equal counts;
at index 0 the list returns its element, which is null, and the string returns
a string. -/
theorem subscript_same_policy_counterexample :
    strlen [97, 0] = [Value.null].length ∧
    ¬ (returned (primitive_string_subscript sampleHost sampleVM [Value.obj 9, Value.num (dbl false 0)])
        = some NULL_VAL ↔
      returned (primitive_list_subscript sampleHost sampleVM [Value.obj 8, Value.num (dbl false 0)])
        = some NULL_VAL) := by
  refine ⟨rfl, ?_⟩
  have hL := list_subscript_norm sampleHost sampleVM 8 [Value.null] (dbl false 0) 0 rfl
    (by decide) rfl
  have hS := string_subscript_norm sampleHost sampleVM 9 [97, 0] (dbl false 0) 0 rfl
    (by decide) rfl
  have hL2 : primitive_list_subscript sampleHost sampleVM [Value.obj 8, Value.num (dbl false 0)]
      = some (Value.null, sampleVM) := hL
  have hS2 : primitive_string_subscript sampleHost sampleVM [Value.obj 9, Value.num (dbl false 0)]
      = some (Value.obj sampleVM.heap.length,
          sampleVM.alloc (Obj.string [97, 0, sampleHost.fresh 2])) := hS
  rw [hL2, hS2]
  intro h
  have h2 := h.mpr rfl
  simp [returned, NULL_VAL] at h2

/-! ## The string that `string_subscript` returns -/

/-- C9 (as amended): on a string of at most `INT_MAX` bytes and an integer
index that selects position `k`, `string_subscript` returns a new String whose
text is exactly the byte at position `k` of the receiver, and whose count is 1. -/
theorem string_subscript_one_byte (hw : Host) (vm : VM) (r : Ref) (buf : List Nat)
    (d : Double) (i : Int) (k : Nat)
    (hobj : vm.heap[r]? = some (Obj.string buf))
    (hlen : (strlen buf : Int) ≤ INT_MAX)
    (hd : d.intValue? = some i)
    (hk : normalisedIndex (strlen buf : Int) i = some k) :
    ∃ c vm1 res, (cstr buf)[k]? = some c ∧
      primitive_string_subscript hw vm [Value.obj r, Value.num d]
        = some (Value.obj vm.heap.length, vm1) ∧
      vm1.heap[vm.heap.length]? = some (Obj.string res) ∧
      cstr res = [c] ∧
      primitive_string_count hw vm1 [Value.obj vm.heap.length]
        = some (NUM_VAL (intToDouble 1), vm1) := by
  obtain ⟨c, hc1, hc2⟩ := cstr_at_selected buf i k hk
  have hS := string_subscript_norm hw vm r buf d i hobj hlen hd
  rw [hk] at hS
  have hS2 : primitive_string_subscript hw vm [Value.obj r, Value.num d]
      = (buf[k]?).map (fun c => (Value.obj vm.heap.length,
          vm.alloc (Obj.string [c, 0, hw.fresh 2]))) := hS
  rw [hc1] at hS2
  have hnew := alloc_new vm (Obj.string [c, 0, hw.fresh 2])
  have hone := cstr_one_byte buf k c (hw.fresh 2) hc2
  refine ⟨c, vm.alloc (Obj.string [c, 0, hw.fresh 2]), [c, 0, hw.fresh 2], hc2, hS2, hnew, hone, ?_⟩
  rw [string_count_eq hw _ _ _ hnew]
  have : strlen [c, 0, hw.fresh 2] = 1 := by
    unfold strlen
    rw [hone]
    rfl
  rw [this]
  rfl

/-- Instance of C9 (as amended): index -1 of "abc" is a new string with text "c". -/
theorem string_subscript_one_byte_witness :
    ∃ vm1 res,
      primitive_string_subscript sampleHost sampleVM [Value.obj 1, Value.num (dbl true 1)]
        = some (Value.obj 10, vm1) ∧
      vm1.heap[10]? = some (Obj.string res) ∧
      cstr res = [99] := by
  obtain ⟨c, vm1, res, hc, h1, h2, h3, _⟩ :=
    string_subscript_one_byte sampleHost sampleVM 1 [97, 98, 99, 0] (dbl true 1) (-1) 2
      rfl (by decide) rfl (by decide)
  have hc2 : c = 99 := by
    have : (some 99 : Option Nat) = some c := hc
    exact (Option.some.inj this).symm
  rw [hc2] at h3
  exact ⟨vm1, res, h1, h2, h3⟩

theorem strlen_bigString : strlen bigString = 2147483648 := by
  unfold strlen bigString
  rw [cstr_append_zero _ [] (fun c hc => by rw [List.eq_of_mem_replicate hc]; decide)]
  exact List.length_replicate _ _

/-- C9 as stated fails on a string of 2^31 bytes: `(int)strlen` is then
negative, so the index `INT_MAX`, which is in range, is rejected by the bounds
check and the result is null. -/
theorem string_subscript_one_byte_counterexample :
    bigVM.heap[0]? = some (Obj.string bigString) ∧
    strlen bigString = 2147483648 ∧
    normalisedIndex (strlen bigString : Int) 2147483647 = some 2147483647 ∧
    primitive_string_subscript sampleHost bigVM [Value.obj 0, Value.num (dbl false 2147483647)]
      = some (NULL_VAL, bigVM) := by
  refine ⟨rfl, strlen_bigString, ?_, ?_⟩
  · rw [strlen_bigString]
    decide
  · have hwrap : wrapInt ((2147483648 : Nat) : Int) = -2147483648 := by decide
    rw [string_subscript_raw sampleHost bigVM 0 bigString (dbl false 2147483647) 2147483647
      rfl (by decide) (by decide) (by decide), strlen_bigString, hwrap]
    rw [if_neg (show ¬ ((2147483647 : Int) < 0) by decide)]
    exact if_pos (by decide)

/-! ## `loadCore` as a list of registrations -/

theorem isClassAt_setMethodEntry (heap : List Obj) (c : Ref) (sym : Nat) (m : Method) (c2 : Ref) :
    isClassAt ((setMethodEntry heap c sym m).getD heap) c2 = isClassAt heap c2 := by
  unfold setMethodEntry
  cases hc : heap[c]? with
  | none => rfl
  | some o =>
    cases o with
    | cls k =>
      simp only [Option.getD_some]
      unfold isClassAt
      by_cases h : c = c2
      · subst h
        have hlt : c < heap.length := by
          by_contra hge
          rw [List.getElem?_eq_none (not_lt.mp hge)] at hc
          exact Option.noConfusion hc
        rw [List.getElem?_set_self hlt, hc]
      · rw [List.getElem?_set_ne h]
    | string v => rfl
    | list v => rfl
    | fn v => rfl
    | inst v fs => rfl

theorem isClassAt_applyReg (st : List String × List Obj) (r : Reg) (c : Ref) :
    isClassAt (applyReg st r).2 c = isClassAt st.2 c :=
  isClassAt_setMethodEntry _ _ _ _ _

theorem PRIMITIVE_eq (vm : VM) (c : Ref) (name : String) (p : Prim)
    (hc : isClassAt vm.heap c = true) :
    PRIMITIVE vm c name p = some (vm.afterRegs [⟨c, name, Method.primitive p⟩]) := by
  unfold PRIMITIVE VM.afterRegs applyRegs applyReg
  unfold isClassAt at hc
  unfold setMethodEntry
  cases h : vm.heap[c]? with
  | none => rw [h] at hc; exact Bool.noConfusion hc
  | some o =>
    cases o with
    | cls k => simp only [List.foldl_cons, List.foldl_nil, h]; rfl
    | string v => rw [h] at hc; exact Bool.noConfusion hc
    | list v => rw [h] at hc; exact Bool.noConfusion hc
    | fn v => rw [h] at hc; exact Bool.noConfusion hc
    | inst v fs => rw [h] at hc; exact Bool.noConfusion hc

theorem FIBER_PRIMITIVE_eq (vm : VM) (c : Ref) (name : String) (p : FiberPrim)
    (hc : isClassAt vm.heap c = true) :
    FIBER_PRIMITIVE vm c name p = some (vm.afterRegs [⟨c, name, Method.fiber p⟩]) := by
  unfold FIBER_PRIMITIVE VM.afterRegs applyRegs applyReg
  unfold isClassAt at hc
  unfold setMethodEntry
  cases h : vm.heap[c]? with
  | none => rw [h] at hc; exact Bool.noConfusion hc
  | some o =>
    cases o with
    | cls k => simp only [List.foldl_cons, List.foldl_nil, h]; rfl
    | string v => rw [h] at hc; exact Bool.noConfusion hc
    | list v => rw [h] at hc; exact Bool.noConfusion hc
    | fn v => rw [h] at hc; exact Bool.noConfusion hc
    | inst v fs => rw [h] at hc; exact Bool.noConfusion hc

theorem globalClass_isClass (vm : VM) (name : String) (c : Ref) (h : globalClass vm name = some c) :
    isClassAt vm.heap c = true := by
  unfold globalClass at h
  cases hg : findGlobal vm name with
  | none => rw [hg] at h; exact Option.noConfusion h
  | some v =>
    rw [hg] at h
    cases v with
    | obj q =>
      replace h : AS_CLASS vm (Value.obj q) = some c := h
      unfold AS_CLASS at h
      rw [objOf_obj] at h
      unfold isClassAt
      cases hq : vm.heap[q]? with
      | none => rw [hq] at h; exact Option.noConfusion h
      | some o =>
        rw [hq] at h
        cases o with
        | cls k =>
          simp only [Option.some.injEq] at h
          subst h
          rw [hq]
        | string v => exact Option.noConfusion h
        | list v => exact Option.noConfusion h
        | fn v => exact Option.noConfusion h
        | inst v fs => exact Option.noConfusion h
    | bool x => exact Option.noConfusion h
    | null => exact Option.noConfusion h
    | num x => exact Option.noConfusion h

theorem isClassAt_applyRegs (regs : List Reg) (st : List String × List Obj) (c : Ref) :
    isClassAt (applyRegs st regs).2 c = isClassAt st.2 c := by
  unfold applyRegs
  induction regs generalizing st with
  | nil => rfl
  | cons r rs ih =>
    rw [List.foldl_cons, ih, isClassAt_applyReg]

theorem isClassAt_afterRegs (vm : VM) (regs : List Reg) (c : Ref) :
    isClassAt (vm.afterRegs regs).heap c = isClassAt vm.heap c :=
  isClassAt_applyRegs regs _ c

theorem afterRegs_afterRegs (vm : VM) (r1 r2 : List Reg) :
    (vm.afterRegs r1).afterRegs r2 = vm.afterRegs (r1 ++ r2) := by
  unfold VM.afterRegs applyRegs
  simp only [List.foldl_append]

theorem AS_CLASS_eq (vm : VM) (v : Value) :
    AS_CLASS vm v = match v with
      | Value.obj q => if isClassAt vm.heap q = true then some q else none
      | _ => none := by
  cases v with
  | obj q =>
    unfold AS_CLASS isClassAt
    rw [objOf_obj]
    cases hq : vm.heap[q]? with
    | none => simp only [hq]; rfl
    | some o => cases o <;> simp only [hq] <;> rfl
  | bool x => rfl
  | null => rfl
  | num x => rfl

/-- A global that resolves to a class yields the pointer to that class. -/
theorem globalPointer_of_globalClass (vm : VM) (name : String) (c : Ref)
    (h : globalClass vm name = some c) : globalPointer vm name = some c := by
  unfold globalClass at h
  unfold globalPointer
  cases hf : findGlobal vm name with
  | none => rw [hf] at h; exact Option.noConfusion h
  | some v =>
    rw [hf] at h
    cases v with
    | obj r =>
      replace h : AS_CLASS vm (Value.obj r) = some c := h
      unfold AS_CLASS at h
      rw [objOf_obj] at h
      cases ho : vm.heap[r]? with
      | none => rw [ho] at h; exact Option.noConfusion h
      | some o =>
        rw [ho] at h
        cases o with
        | cls k => exact h
        | string v => exact Option.noConfusion h
        | list v => exact Option.noConfusion h
        | fn v => exact Option.noConfusion h
        | inst a b => exact Option.noConfusion h
    | bool b => exact Option.noConfusion h
    | null => exact Option.noConfusion h
    | num d => exact Option.noConfusion h

theorem globalPointer_congr (vm vm2 : VM) (name : String) (hg : vm2.globals = vm.globals) :
    globalPointer vm2 name = globalPointer vm name := by
  unfold globalPointer findGlobal
  rw [hg]

/-- Whether a global name resolves to a class depends on the globals and on
which objects are classes. -/
theorem globalClass_congr (vm vm2 : VM) (name : String) (hg : vm2.globals = vm.globals)
    (hc : ∀ c, isClassAt vm2.heap c = isClassAt vm.heap c) :
    globalClass vm2 name = globalClass vm name := by
  unfold globalClass findGlobal
  rw [hg]
  cases List.lookup name vm.globals with
  | none => rfl
  | some v =>
    simp only [AS_CLASS_eq]
    cases v with
    | obj q => simp only [hc]
    | bool x => rfl
    | null => rfl
    | num x => rfl

theorem globalClass_afterRegs (vm : VM) (regs : List Reg) (name : String) :
    globalClass (vm.afterRegs regs) name = globalClass vm name :=
  globalClass_congr vm _ name rfl (isClassAt_afterRegs vm regs)

theorem metaclassAt_setMethodEntry (heap : List Obj) (c : Ref) (sym : Nat) (m : Method) (c2 : Ref) :
    metaclassAt ((setMethodEntry heap c sym m).getD heap) c2 = metaclassAt heap c2 := by
  unfold setMethodEntry
  cases hc : heap[c]? with
  | none => rfl
  | some o =>
    cases o with
    | cls k =>
      simp only [Option.getD_some]
      unfold metaclassAt
      by_cases h : c = c2
      · subst h
        have hlt : c < heap.length := by
          by_contra hge
          rw [List.getElem?_eq_none (not_lt.mp hge)] at hc
          exact Option.noConfusion hc
        rw [List.getElem?_set_self hlt, hc]
      · rw [List.getElem?_set_ne h]
    | string v => rfl
    | list v => rfl
    | fn v => rfl
    | inst v fs => rfl

theorem metaclassAt_applyRegs (regs : List Reg) (st : List String × List Obj) (c : Ref) :
    metaclassAt (applyRegs st regs).2 c = metaclassAt st.2 c := by
  unfold applyRegs
  induction regs generalizing st with
  | nil => rfl
  | cons r rs ih =>
    rw [List.foldl_cons, ih]
    exact metaclassAt_setMethodEntry _ _ _ _ _

theorem metaclassOf_afterRegs (vm : VM) (regs : List Reg) (c : Ref) :
    metaclassOf (vm.afterRegs regs) c = metaclassOf vm c :=
  metaclassAt_applyRegs regs _ c

theorem length_setMethodEntry (heap : List Obj) (c : Ref) (sym : Nat) (m : Method) :
    ((setMethodEntry heap c sym m).getD heap).length = heap.length := by
  unfold setMethodEntry
  cases hc : heap[c]? with
  | none => rfl
  | some o => cases o <;> simp

theorem length_applyRegs (regs : List Reg) (st : List String × List Obj) :
    (applyRegs st regs).2.length = st.2.length := by
  unfold applyRegs
  induction regs generalizing st with
  | nil => rfl
  | cons r rs ih =>
    rw [List.foldl_cons, ih]
    exact length_setMethodEntry _ _ _ _

/-! ### The blocks of `loadCore` -/

theorem afterRegs_boolClass (vm : VM) (regs : List Reg) :
    (vm.afterRegs regs).boolClass = vm.boolClass := rfl

theorem afterRegs_fnClass (vm : VM) (regs : List Reg) :
    (vm.afterRegs regs).fnClass = vm.fnClass := rfl

theorem afterRegs_listClass (vm : VM) (regs : List Reg) :
    (vm.afterRegs regs).listClass = vm.listClass := rfl

theorem afterRegs_numClass (vm : VM) (regs : List Reg) :
    (vm.afterRegs regs).numClass = vm.numClass := rfl

theorem afterRegs_stringClass (vm : VM) (regs : List Reg) :
    (vm.afterRegs regs).stringClass = vm.stringClass := rfl

theorem afterRegs_objectClass (vm : VM) (regs : List Reg) :
    (vm.afterRegs regs).objectClass = vm.objectClass := rfl

theorem loadBool_eq (vm : VM) (b : Ref) (hg : globalClass vm "Bool" = some b) :
    loadBool vm = some ((vm.setBool b).afterRegs (boolRegs b)) := by
  have hc : isClassAt ({ vm with boolClass := b } : VM).heap b = true :=
    globalClass_isClass vm _ b hg
  unfold loadBool boolRegs
  simp only [runBlock, globalPointer_of_globalClass vm _ _ hg, Option.map_some', PRIMITIVE_eq, isClassAt_afterRegs, hc,
    afterRegs_afterRegs, afterRegs_boolClass, List.cons_append, List.nil_append]
  rfl

theorem loadClass_eq (vm : VM) (c : Ref) (hg : globalPointer vm "Class" = some c) :
    loadClass vm = some (vm.setClass c) := by
  unfold loadClass
  simp only [runBlock, hg, Option.map_some']
  rfl

theorem loadFn_eq (vm : VM) (f : Ref) (hg : globalClass vm "Function" = some f) :
    loadFn vm = some ((vm.setFn f).afterRegs (fnRegs f)) := by
  have hc : isClassAt ({ vm with fnClass := f } : VM).heap f = true :=
    globalClass_isClass vm _ f hg
  unfold loadFn fnRegs
  simp only [runBlock, globalPointer_of_globalClass vm _ _ hg, Option.map_some', PRIMITIVE_eq, FIBER_PRIMITIVE_eq,
    isClassAt_afterRegs, hc, afterRegs_afterRegs, afterRegs_fnClass, List.cons_append,
    List.nil_append]
  rfl

theorem loadList_eq (vm : VM) (l : Ref) (hg : globalClass vm "List" = some l) :
    loadList vm = some ((vm.setList l).afterRegs (listRegs l)) := by
  have hc : isClassAt ({ vm with listClass := l } : VM).heap l = true :=
    globalClass_isClass vm _ l hg
  unfold loadList listRegs
  simp only [runBlock, globalPointer_of_globalClass vm _ _ hg, Option.map_some', PRIMITIVE_eq, isClassAt_afterRegs, hc,
    afterRegs_afterRegs, afterRegs_listClass, List.cons_append, List.nil_append]
  rfl

theorem loadNull_eq (vm : VM) (c : Ref) (hg : globalPointer vm "Null" = some c) :
    loadNull vm = some (vm.setNull c) := by
  unfold loadNull
  simp only [runBlock, hg, Option.map_some']
  rfl

theorem loadNum_eq (vm : VM) (n : Ref) (hg : globalClass vm "Num" = some n) :
    loadNum vm = some ((vm.setNum n).afterRegs (numRegs n)) := by
  have hc : isClassAt ({ vm with numClass := n } : VM).heap n = true :=
    globalClass_isClass vm _ n hg
  unfold loadNum numRegs
  simp only [runBlock, globalPointer_of_globalClass vm _ _ hg, Option.map_some', PRIMITIVE_eq, isClassAt_afterRegs, hc,
    afterRegs_afterRegs, afterRegs_numClass, List.cons_append, List.nil_append]
  rfl

theorem loadString_eq (vm : VM) (s : Ref) (hg : globalClass vm "String" = some s) :
    loadString vm = some ((vm.setString s).afterRegs (stringRegs s)) := by
  have hc : isClassAt ({ vm with stringClass := s } : VM).heap s = true :=
    globalClass_isClass vm _ s hg
  unfold loadString stringRegs
  simp only [runBlock, globalPointer_of_globalClass vm _ _ hg, Option.map_some', PRIMITIVE_eq, isClassAt_afterRegs, hc,
    afterRegs_afterRegs, afterRegs_stringClass, List.cons_append, List.nil_append]
  rfl

theorem loadIo_eq (vm : VM) (io : Ref) (hg : globalClass vm "IO" = some io) :
    loadIo vm = some (vm.afterRegs [⟨io, "write ", Method.primitive Prim.io_write⟩]) := by
  have hc := globalClass_isClass vm _ io hg
  unfold loadIo
  simp only [globalPointer_of_globalClass vm _ _ hg, PRIMITIVE_eq, hc]

theorem loadOs_eq (vm : VM) (os osMeta : Ref) (hg : globalClass vm "OS" = some os)
    (hm : metaclassOf vm os = some osMeta) (hc : isClassAt vm.heap osMeta = true) :
    loadOs vm = some (vm.afterRegs [⟨osMeta, "clock", Method.primitive Prim.os_clock⟩]) := by
  unfold loadOs
  simp only [globalPointer_of_globalClass vm _ _ hg, hm, PRIMITIVE_eq, hc]

theorem loadUnsupported_eq (vm : VM) (hc : isClassAt vm.heap vm.objectClass = true) :
    ∃ k2 : ObjClass, loadUnsupported vm
      = some ((((vm.alloc (Obj.cls emptyClass)).alloc (Obj.cls k2)).alloc
                  (Obj.inst (vm.heap.length + 1) [])).setUnsupported
                (Value.obj (vm.heap.length + 2))) ∧
      k2.superclass = some vm.objectClass ∧ k2.numFields = 0 := by
  unfold isClassAt at hc
  cases h : vm.heap[vm.objectClass]? with
  | none => rw [h] at hc; exact Bool.noConfusion hc
  | some o =>
    cases o with
    | cls sup =>
      obtain ⟨k2, hk2⟩ : ∃ k2 : ObjClass, k2 = { metaclass := some vm.heap.length, superclass := some vm.objectClass, numFields := 0, methods := sup.methods } := ⟨_, rfl⟩
      have hf : k2.numFields = 0 := by rw [hk2]
      refine ⟨k2, ?_, by rw [hk2], hf⟩
      have hnew : ((vm.alloc (Obj.cls emptyClass)).alloc (Obj.cls k2)).heap[vm.heap.length + 1]?
          = some (Obj.cls k2) := by
        have := alloc_new (vm.alloc (Obj.cls emptyClass)) (Obj.cls k2)
        rw [alloc_heap vm, List.length_append] at this
        exact this
      unfold loadUnsupported newClass
      simp only [h]
      rw [← hk2]
      unfold newInstance
      have hlen2 : ((vm.alloc (Obj.cls emptyClass)).alloc (Obj.cls k2)).heap.length
          = vm.heap.length + 2 := by
        simp only [alloc_heap, List.length_append, List.length_cons, List.length_nil]
      simp only [hnew, hf, List.replicate_zero, hlen2]
      rfl
    | string v => rw [h] at hc; exact Bool.noConfusion hc
    | list v => rw [h] at hc; exact Bool.noConfusion hc
    | fn v => rw [h] at hc; exact Bool.noConfusion hc
    | inst v fs => rw [h] at hc; exact Bool.noConfusion hc

/-! ### The whole of `loadCore` -/

theorem loaded_refl (vm : VM) : Loaded vm vm [] := ⟨rfl, rfl, rfl⟩

theorem loaded_isClassAt (vm S : VM) (regs : List Reg) (h : Loaded vm S regs) (c : Ref) :
    isClassAt S.heap c = isClassAt vm.heap c := by
  have h1 : S.heap = (applyRegs (vm.methods, vm.heap) regs).2 := congrArg Prod.snd h.1
  rw [h1, isClassAt_applyRegs]

theorem loaded_globalClass (vm S : VM) (regs : List Reg) (h : Loaded vm S regs) (name : String) :
    globalClass S name = globalClass vm name :=
  globalClass_congr vm S name h.2.1 (loaded_isClassAt vm S regs h)

theorem loaded_globalPointer (vm S : VM) (regs : List Reg) (h : Loaded vm S regs)
    (name : String) : globalPointer S name = globalPointer vm name :=
  globalPointer_congr vm S name h.2.1

theorem loaded_metaclassOf (vm S : VM) (regs : List Reg) (h : Loaded vm S regs) (c : Ref) :
    metaclassOf S c = metaclassOf vm c := by
  have h1 : S.heap = (applyRegs (vm.methods, vm.heap) regs).2 := congrArg Prod.snd h.1
  unfold metaclassOf
  rw [h1, metaclassAt_applyRegs]

theorem loaded_afterRegs (vm S : VM) (regs r2 : List Reg) (h : Loaded vm S regs) :
    Loaded vm (S.afterRegs r2) (regs ++ r2) := by
  refine ⟨?_, h.2.1, h.2.2⟩
  show ((applyRegs (S.methods, S.heap) r2).1, (applyRegs (S.methods, S.heap) r2).2) = _
  rw [h.1]
  unfold applyRegs
  rw [List.foldl_append]

theorem loaded_setBool (vm S : VM) (regs : List Reg) (h : Loaded vm S regs) (c : Ref) :
    Loaded vm (S.setBool c) regs := h

theorem loaded_setClass (vm S : VM) (regs : List Reg) (h : Loaded vm S regs) (c : Ref) :
    Loaded vm (S.setClass c) regs := h

theorem loaded_setFn (vm S : VM) (regs : List Reg) (h : Loaded vm S regs) (c : Ref) :
    Loaded vm (S.setFn c) regs := h

theorem loaded_setList (vm S : VM) (regs : List Reg) (h : Loaded vm S regs) (c : Ref) :
    Loaded vm (S.setList c) regs := h

theorem loaded_setNull (vm S : VM) (regs : List Reg) (h : Loaded vm S regs) (c : Ref) :
    Loaded vm (S.setNull c) regs := h

theorem loaded_setNum (vm S : VM) (regs : List Reg) (h : Loaded vm S regs) (c : Ref) :
    Loaded vm (S.setNum c) regs := h

theorem loaded_setString (vm S : VM) (regs : List Reg) (h : Loaded vm S regs) (c : Ref) :
    Loaded vm (S.setString c) regs := h

theorem setUnsupported_methods (vm : VM) (v : Value) : (vm.setUnsupported v).methods = vm.methods := rfl
theorem setUnsupported_heap (vm : VM) (v : Value) : (vm.setUnsupported v).heap = vm.heap := rfl
theorem setUnsupported_unsupported (vm : VM) (v : Value) : (vm.setUnsupported v).unsupported = v := rfl
theorem alloc_methods (vm : VM) (o : Obj) : (vm.alloc o).methods = vm.methods := rfl

/-- In a state where the seven classes that `loadCore` writes to resolve, and
Class and Null are bound to objects, `loadCore` returns: the symbol table and
the method tables are those after the registrations in program order, three
objects are added for the unsupported sentinel (a metaclass, a class without
fields under the object class, and an instance of it), and the class fields
of the VM hold the pointers found. -/
theorem loadCore_weak_sentinel (vm : VM) (k : CoreClasses) (h : PreludeWeak vm k) :
    ∃ (vm1 : VM) (k2 : ObjClass), loadCore vm = some vm1 ∧
      vm1.methods = (applyRegs (vm.methods, vm.heap) (coreRegsOf k)).1 ∧
      vm1.heap = (applyRegs (vm.methods, vm.heap) (coreRegsOf k)).2
        ++ [Obj.cls emptyClass, Obj.cls k2, Obj.inst (vm.heap.length + 1) []] ∧
      vm1.boolClass = k.boolC ∧ vm1.classClass = k.classC ∧ vm1.fnClass = k.fnC ∧
      vm1.listClass = k.listC ∧ vm1.nullClass = k.nullC ∧ vm1.numClass = k.numC ∧
      vm1.stringClass = k.stringC ∧
      vm1.unsupported = Value.obj (vm.heap.length + 2) ∧
      k2.superclass = some vm.objectClass ∧ k2.numFields = 0 := by
  obtain ⟨hb, hc, hf, hl, hnl, hn, hs, hio, hos, hmeta, hmc, hobj⟩ := h
  have e1 := loadBool_eq vm k.boolC hb
  have i1 := loaded_afterRegs vm _ _ (boolRegs k.boolC)
    (loaded_setBool vm vm [] (loaded_refl vm) k.boolC)
  have e2 := loadClass_eq _ k.classC ((loaded_globalPointer vm _ _ i1 _).trans hc)
  have i2 := loaded_setClass vm _ _ i1 k.classC
  have e3 := loadFn_eq _ k.fnC ((loaded_globalClass vm _ _ i2 _).trans hf)
  have i3 := loaded_afterRegs vm _ _ (fnRegs k.fnC) (loaded_setFn vm _ _ i2 k.fnC)
  have e4 := loadList_eq _ k.listC ((loaded_globalClass vm _ _ i3 _).trans hl)
  have i4 := loaded_afterRegs vm _ _ (listRegs k.listC) (loaded_setList vm _ _ i3 k.listC)
  have e5 := loadNull_eq _ k.nullC ((loaded_globalPointer vm _ _ i4 _).trans hnl)
  have i5 := loaded_setNull vm _ _ i4 k.nullC
  have e6 := loadNum_eq _ k.numC ((loaded_globalClass vm _ _ i5 _).trans hn)
  have i6 := loaded_afterRegs vm _ _ (numRegs k.numC) (loaded_setNum vm _ _ i5 k.numC)
  have e7 := loadString_eq _ k.stringC ((loaded_globalClass vm _ _ i6 _).trans hs)
  have i7 := loaded_afterRegs vm _ _ (stringRegs k.stringC)
    (loaded_setString vm _ _ i6 k.stringC)
  have e8 := loadIo_eq _ k.ioC ((loaded_globalClass vm _ _ i7 _).trans hio)
  have i8 := loaded_afterRegs vm _ _ [⟨k.ioC, "write ", Method.primitive Prim.io_write⟩] i7
  have e9 := loadOs_eq _ k.osC k.osMeta ((loaded_globalClass vm _ _ i8 _).trans hos)
    ((loaded_metaclassOf vm _ _ i8 _).trans hmeta)
    ((loaded_isClassAt vm _ _ i8 _).trans hmc)
  have i9 := loaded_afterRegs vm _ _ [⟨k.osMeta, "clock", Method.primitive Prim.os_clock⟩] i8
  obtain ⟨k2, e10, hsup, hnf⟩ := loadUnsupported_eq _
    ((loaded_isClassAt vm _ _ i9 _).trans (by rw [i9.2.2]; exact hobj))
  have hsup2 : k2.superclass = some vm.objectClass := hsup.trans (congrArg some i9.2.2)
  have hregs : ([] ++ boolRegs k.boolC ++ fnRegs k.fnC ++ listRegs k.listC ++ numRegs k.numC
      ++ stringRegs k.stringC ++ [⟨k.ioC, "write ", Method.primitive Prim.io_write⟩]
      ++ [⟨k.osMeta, "clock", Method.primitive Prim.os_clock⟩]) = coreRegsOf k := by
    simp only [coreRegsOf, coreRegs, List.nil_append]
  rw [hregs] at i9
  have hlen := congrArg List.length (congrArg Prod.snd i9.1)
  rw [length_applyRegs] at hlen
  have hm := congrArg Prod.fst i9.1
  have hh := congrArg Prod.snd i9.1
  simp only [] at hlen hm hh
  unfold loadCore
  simp only [runBlock, e1, e2, e3, e4, e5, e6, e7, e8, e9, e10]
  refine ⟨_, k2, rfl, ?_, ?_, rfl, rfl, rfl, rfl, rfl, rfl, rfl, ?_, hsup2, hnf⟩
  · simp only [setUnsupported_methods, alloc_methods]
    exact hm
  · simp only [setUnsupported_heap, alloc_heap, List.append_assoc, List.cons_append,
      List.nil_append]
    rw [hh, length_applyRegs]
  · simp only [setUnsupported_unsupported]
    rw [hh, length_applyRegs]

/-- The same without the fields of the class of the sentinel. -/
theorem loadCore_weak (vm : VM) (k : CoreClasses) (h : PreludeWeak vm k) :
    ∃ (vm1 : VM) (k2 : ObjClass), loadCore vm = some vm1 ∧
      vm1.methods = (applyRegs (vm.methods, vm.heap) (coreRegsOf k)).1 ∧
      vm1.heap = (applyRegs (vm.methods, vm.heap) (coreRegsOf k)).2
        ++ [Obj.cls emptyClass, Obj.cls k2, Obj.inst (vm.heap.length + 1) []] ∧
      vm1.boolClass = k.boolC ∧ vm1.classClass = k.classC ∧ vm1.fnClass = k.fnC ∧
      vm1.listClass = k.listC ∧ vm1.nullClass = k.nullC ∧ vm1.numClass = k.numC ∧
      vm1.stringClass = k.stringC ∧
      vm1.unsupported = Value.obj (vm.heap.length + 2) := by
  obtain ⟨vm1, k2, h1, h2, h3, h4, h5, h6, h7, h8, h9, h10, h11, _⟩ :=
    loadCore_weak_sentinel vm k h
  exact ⟨vm1, k2, h1, h2, h3, h4, h5, h6, h7, h8, h9, h10, h11⟩

theorem preludeWeak_of_preludeOk (vm : VM) (k : CoreClasses) (h : PreludeOk vm k) :
    PreludeWeak vm k := by
  obtain ⟨hb, hc, hf, hl, hnl, hn, hs, hio, hos, hmeta, hmc, hobj⟩ := h
  exact ⟨hb, globalPointer_of_globalClass vm _ _ hc, hf, hl,
    globalPointer_of_globalClass vm _ _ hnl, hn, hs, hio, hos, hmeta, hmc, hobj⟩

/-- In a state where the nine global names resolve, `loadCore` returns: the
symbol table and the method tables are those after the registrations in program
order, three objects are added for the unsupported sentinel, and the class
fields of the VM hold the classes found. -/
theorem loadCore_spec (vm : VM) (k : CoreClasses) (h : PreludeOk vm k) :
    ∃ (vm1 : VM) (k2 : ObjClass), loadCore vm = some vm1 ∧
      vm1.methods = (applyRegs (vm.methods, vm.heap) (coreRegsOf k)).1 ∧
      vm1.heap = (applyRegs (vm.methods, vm.heap) (coreRegsOf k)).2
        ++ [Obj.cls emptyClass, Obj.cls k2, Obj.inst (vm.heap.length + 1) []] ∧
      vm1.boolClass = k.boolC ∧ vm1.classClass = k.classC ∧ vm1.fnClass = k.fnC ∧
      vm1.listClass = k.listC ∧ vm1.nullClass = k.nullC ∧ vm1.numClass = k.numC ∧
      vm1.stringClass = k.stringC ∧
      vm1.unsupported = Value.obj (vm.heap.length + 2) :=
  loadCore_weak vm k (preludeWeak_of_preludeOk vm k h)

/-! ### Looking up a method after the registrations -/

theorem ensureSymbol_fst (T : List String) (n : String) :
    (ensureSymbol T n).1 = (ensureSymbol T n).2.indexOf n := by
  unfold ensureSymbol
  by_cases h : n ∈ T
  · simp only [if_pos h]
  · simp only [if_neg h]
    rw [List.indexOf_append_of_not_mem h, List.indexOf_cons_self, Nat.add_zero]

theorem ensureSymbol_mem (T : List String) (n : String) : n ∈ (ensureSymbol T n).2 := by
  unfold ensureSymbol
  by_cases h : n ∈ T
  · simp only [if_pos h]; exact h
  · simp only [if_neg h]; simp

theorem ensureSymbol_ext (T : List String) (n : String) :
    ∃ e, (ensureSymbol T n).2 = T ++ e := by
  unfold ensureSymbol
  by_cases h : n ∈ T
  · exact ⟨[], by simp only [if_pos h, List.append_nil]⟩
  · exact ⟨[n], by simp only [if_neg h]⟩

theorem applyRegs_cons (st : List String × List Obj) (r : Reg) (rs : List Reg) :
    applyRegs st (r :: rs) = applyRegs (applyReg st r) rs := rfl

theorem applyRegs_ext (regs : List Reg) (st : List String × List Obj) :
    ∃ e, (applyRegs st regs).1 = st.1 ++ e := by
  induction regs generalizing st with
  | nil => exact ⟨[], (List.append_nil _).symm⟩
  | cons r rs ih =>
    obtain ⟨e1, h1⟩ := ih (applyReg st r)
    obtain ⟨e0, h0⟩ := ensureSymbol_ext st.1 r.name
    refine ⟨e0 ++ e1, ?_⟩
    rw [applyRegs_cons, h1]
    show (ensureSymbol st.1 r.name).2 ++ e1 = _
    rw [h0, List.append_assoc]

/-- A name that a registration interned is in the final symbol table. -/
theorem applyRegs_mem (regs : List Reg) (st : List String × List Obj) (r : Reg) (hr : r ∈ regs) :
    r.name ∈ (applyRegs st regs).1 := by
  induction regs generalizing st with
  | nil => exact absurd hr (List.not_mem_nil r)
  | cons r0 rs ih =>
    rw [applyRegs_cons]
    rcases List.mem_cons.mp hr with h | h
    · subst h
      obtain ⟨e, he⟩ := applyRegs_ext rs (applyReg st r)
      rw [he]
      exact List.mem_append_left _ (ensureSymbol_mem st.1 r.name)
    · exact ih _ h

theorem entryAt_setMethodEntry (H : List Obj) (c : Ref) (sym : Nat) (m : Method) (c2 : Ref)
    (sym2 : Nat) (hc : c = c2 → isClassAt H c = true) :
    entryAt ((setMethodEntry H c sym m).getD H) c2 sym2
      = if c = c2 ∧ sym = sym2 then m else entryAt H c2 sym2 := by
  unfold setMethodEntry
  cases hH : H[c]? with
  | none =>
    have hne : c ≠ c2 := by
      intro h
      have := hc h
      unfold isClassAt at this
      rw [hH] at this
      exact Bool.noConfusion this
    simp only [Option.getD_none]
    rw [if_neg (fun h => hne h.1)]
  | some o =>
    cases o with
    | cls k =>
      simp only [Option.getD_some]
      unfold entryAt
      by_cases h : c = c2
      · subst h
        have hlt : c < H.length := by
          by_contra hge
          rw [List.getElem?_eq_none (not_lt.mp hge)] at hH
          exact Option.noConfusion hH
        rw [List.getElem?_set_self hlt, hH]
        simp only [true_and]
        by_cases hs : sym = sym2
        · subst hs
          simp only [Function.update_same, if_true]
        · simp only [Function.update_noteq (Ne.symm hs), if_neg hs]
      · rw [List.getElem?_set_ne h, if_neg (fun hh => h hh.1)]
    | string v =>
      have hne : c ≠ c2 := by
        intro h
        have := hc h
        unfold isClassAt at this
        rw [hH] at this
        exact Bool.noConfusion this
      simp only [Option.getD_none]
      rw [if_neg (fun h => hne h.1)]
    | list v =>
      have hne : c ≠ c2 := by
        intro h
        have := hc h
        unfold isClassAt at this
        rw [hH] at this
        exact Bool.noConfusion this
      simp only [Option.getD_none]
      rw [if_neg (fun h => hne h.1)]
    | fn v =>
      have hne : c ≠ c2 := by
        intro h
        have := hc h
        unfold isClassAt at this
        rw [hH] at this
        exact Bool.noConfusion this
      simp only [Option.getD_none]
      rw [if_neg (fun h => hne h.1)]
    | inst v fs =>
      have hne : c ≠ c2 := by
        intro h
        have := hc h
        unfold isClassAt at this
        rw [hH] at this
        exact Bool.noConfusion this
      simp only [Option.getD_none]
      rw [if_neg (fun h => hne h.1)]

theorem lastReg_cons (r : Reg) (rs : List Reg) (c : Ref) (name : String) :
    lastReg (r :: rs) c name
      = match lastReg rs c name with
        | some m => some m
        | none => if r.cls = c ∧ r.name = name then some r.method else none := rfl

/-- The entry of class `c` at the final symbol of `name`: the method of the
last registration for `c` and `name`, and the entry the class had there when
no registration is for them. -/
theorem entryAt_applyRegs (regs : List Reg) (st : List String × List Obj) (c : Ref)
    (name : String) (hc : isClassAt st.2 c = true) (hn : name ∈ (applyRegs st regs).1) :
    entryAt (applyRegs st regs).2 c ((applyRegs st regs).1.indexOf name)
      = (lastReg regs c name).getD (entryAt st.2 c ((applyRegs st regs).1.indexOf name)) := by
  induction regs generalizing st with
  | nil => rfl
  | cons r rs ih =>
    rw [applyRegs_cons] at hn ⊢
    have hc1 : isClassAt (applyReg st r).2 c = true := by
      rw [isClassAt_applyReg]; exact hc
    rw [ih (applyReg st r) hc1 hn, lastReg_cons]
    cases hl : lastReg rs c name with
    | some m => rfl
    | none =>
      simp only [Option.getD_none]
      obtain ⟨e, he⟩ := applyRegs_ext rs (applyReg st r)
      have hmem1 : r.name ∈ (applyReg st r).1 := ensureSymbol_mem st.1 r.name
      have hsym : (ensureSymbol st.1 r.name).1
          = (applyRegs (applyReg st r) rs).1.indexOf r.name := by
        rw [he, List.indexOf_append_of_mem hmem1]
        exact ensureSymbol_fst st.1 r.name
      have hmem2 : r.name ∈ (applyRegs (applyReg st r) rs).1 := by
        rw [he]; exact List.mem_append_left _ hmem1
      show entryAt ((setMethodEntry st.2 r.cls (ensureSymbol st.1 r.name).1 r.method).getD st.2) c _
        = _
      rw [entryAt_setMethodEntry _ _ _ _ _ _ (fun h => by rw [h]; exact hc), hsym]
      by_cases hcc : r.cls = c
      · by_cases hnn : r.name = name
        · rw [if_pos ⟨hcc, by rw [hnn]⟩, if_pos ⟨hcc, hnn⟩]
          rfl
        · have hidx : ¬ ((applyRegs (applyReg st r) rs).1.indexOf r.name
              = (applyRegs (applyReg st r) rs).1.indexOf name) := by
            intro h
            exact hnn ((List.indexOf_inj hmem2 hn).mp h)
          rw [if_neg (fun h => hidx h.2), if_neg (fun h => hnn h.2)]
          rfl
      · rw [if_neg (fun h => hcc h.1), if_neg (fun h => hcc h.1)]
        rfl


theorem preludeVM_ok : PreludeOk preludeVM preludeClasses := by
  refine ⟨?_, ?_, ?_, ?_, ?_, ?_, ?_, ?_, ?_, ?_, ?_, ?_⟩ <;> rfl


theorem entryAt_append_left (H ext : List Obj) (c : Ref) (sym : Nat) (hc : c < H.length) :
    entryAt (H ++ ext) c sym = entryAt H c sym := by
  unfold entryAt
  rw [List.getElem?_append_left hc]

theorem isClassAt_lt (H : List Obj) (c : Ref) (h : isClassAt H c = true) : c < H.length := by
  by_contra hge
  unfold isClassAt at h
  rw [List.getElem?_eq_none (not_lt.mp hge)] at h
  exact Bool.noConfusion h

/-- The method that a class has for a registered selector once `loadCore` has
returned: the method of the last registration for the class and the selector,
and the entry the prelude left when there is none. -/
theorem findMethod_loadCore (vm : VM) (k : CoreClasses) (h : PreludeOk vm k) (vm1 : VM)
    (hload : loadCore vm = some vm1) (c : Ref) (name : String)
    (hc : isClassAt vm.heap c = true) (r : Reg) (hr : r ∈ coreRegsOf k) (hname : r.name = name) :
    findMethod vm1 c name
      = (lastReg (coreRegsOf k) c name).getD (entryAt vm.heap c (vm1.methods.indexOf name)) := by
  obtain ⟨vm0, k2, hl, hm, hh, _⟩ := loadCore_spec vm k h
  rw [hload] at hl
  have hv : vm1 = vm0 := Option.some.inj hl
  subst hv
  have hmem : name ∈ vm1.methods := by
    rw [hm, ← hname]
    exact applyRegs_mem _ _ r hr
  unfold findMethod
  rw [if_pos hmem]
  show entryAt vm1.heap c _ = _
  have hlt : c < (applyRegs (vm.methods, vm.heap) (coreRegsOf k)).2.length := by
    rw [length_applyRegs]
    exact isClassAt_lt _ _ hc
  rw [hh, entryAt_append_left _ _ _ _ hlt, hm]
  rw [hm] at hmem
  exact entryAt_applyRegs (coreRegsOf k) (vm.methods, vm.heap) c name hc hmem

theorem callSelector_values :
    callSelector 0 = "call" ∧ callSelector 1 = "call " ∧ callSelector 2 = "call  " ∧
    callSelector 3 = "call   " ∧ callSelector 4 = "call    " ∧ callSelector 5 = "call     " ∧
    callSelector 6 = "call      " ∧ callSelector 7 = "call       " ∧
    callSelector 8 = "call        " := by
  decide


theorem fnRegs_sub (k : CoreClasses) (r : Reg) (hr : r ∈ fnRegs k.fnC) : r ∈ coreRegsOf k := by
  unfold coreRegsOf coreRegs
  simp only [List.mem_append]
  exact Or.inl (Or.inl (Or.inl (Or.inl (Or.inl (Or.inr hr)))))

theorem fn_call_body (numArgs : Int) (vm2 : VM) (fiber : Fiber) (v : Value) (rest : List Value)
    (f : Ref) (hf : AS_FN vm2 v = some f) :
    fn_call numArgs vm2 fiber (v :: rest) = some (callFunction fiber f numArgs) := by
  unfold fn_call
  simp only [List.getElem?_cons_zero, hf]

/-- C10: once `loadCore` has returned, for every `j` in 0..8 the method of the
Function class under "call" followed by `j` spaces is a fiber primitive; called
with a function `f` as `args[0]` it is `callFunction(fiber, f, j + 1)`, which
pushes exactly one frame, for `f`, starting `j + 1` slots below the top of the
stack, and leaves the stack as it is. -/
theorem fn_call_delegates (vm : VM) (k : CoreClasses) (h : PreludeOk vm k) :
    ∃ vm1, loadCore vm = some vm1 ∧ vm1.fnClass = k.fnC ∧
      ∀ j, j < 9 → ∃ p, findMethod vm1 vm1.fnClass (callSelector j) = Method.fiber p ∧
        ∀ (vm2 : VM) (fiber : Fiber) (v : Value) (rest : List Value) (f : Ref),
          AS_FN vm2 v = some f →
          callFiberPrimitive p vm2 fiber (v :: rest)
            = some (callFunction fiber f ((j : Int) + 1)) ∧
          (callFunction fiber f ((j : Int) + 1)).frames
            = fiber.frames ++ [{ fn := f, ip := 0,
                                 stackStart := (fiber.stack.length : Int) - ((j : Int) + 1) }] ∧
          (callFunction fiber f ((j : Int) + 1)).stack = fiber.stack := by
  obtain ⟨vm1, k2, hl, _, _, _, _, hfn, _⟩ := loadCore_spec vm k h
  have hc : isClassAt vm.heap k.fnC = true := globalClass_isClass vm _ _ h.2.2.1
  obtain ⟨s0, s1, s2, s3, s4, s5, s6, s7, s8⟩ := callSelector_values
  refine ⟨vm1, hl, hfn, ?_⟩
  intro j hj
  rw [hfn]
  have hfind : ∀ (name : String) (p : FiberPrim), (⟨k.fnC, name, Method.fiber p⟩ : Reg) ∈ fnRegs k.fnC →
      lastReg (coreRegsOf k) k.fnC name = some (Method.fiber p) →
      findMethod vm1 k.fnC name = Method.fiber p := by
    intro name p hr hlast
    rw [findMethod_loadCore vm k h vm1 hl k.fnC name hc _ (fnRegs_sub k _ hr) rfl, hlast]
    rfl
  have hbody : ∀ (n : Int) (p : FiberPrim), n = (j : Int) + 1 →
      (∀ vm2 fiber args, callFiberPrimitive p vm2 fiber args = fn_call n vm2 fiber args) →
      ∀ (vm2 : VM) (fiber : Fiber) (v : Value) (rest : List Value) (f : Ref),
          AS_FN vm2 v = some f →
          callFiberPrimitive p vm2 fiber (v :: rest)
            = some (callFunction fiber f ((j : Int) + 1)) ∧
          (callFunction fiber f ((j : Int) + 1)).frames
            = fiber.frames ++ [{ fn := f, ip := 0,
                                 stackStart := (fiber.stack.length : Int) - ((j : Int) + 1) }] ∧
          (callFunction fiber f ((j : Int) + 1)).stack = fiber.stack := by
    intro n p hn hp vm2 fiber v rest f hf
    rw [hp, fn_call_body n vm2 fiber v rest f hf, hn]
    exact ⟨rfl, rfl, rfl⟩
  interval_cases j
  · rw [s0]
    exact ⟨FiberPrim.fn_call0, hfind _ _ (by simp [fnRegs])
      (by simp [lastReg, coreRegsOf, coreRegs, boolRegs, fnRegs, listRegs, numRegs, stringRegs]),
      hbody 1 _ (by norm_num) (fun _ _ _ => rfl)⟩
  · rw [s1]
    exact ⟨FiberPrim.fn_call1, hfind _ _ (by simp [fnRegs])
      (by simp [lastReg, coreRegsOf, coreRegs, boolRegs, fnRegs, listRegs, numRegs, stringRegs]),
      hbody 2 _ (by norm_num) (fun _ _ _ => rfl)⟩
  · rw [s2]
    exact ⟨FiberPrim.fn_call2, hfind _ _ (by simp [fnRegs])
      (by simp [lastReg, coreRegsOf, coreRegs, boolRegs, fnRegs, listRegs, numRegs, stringRegs]),
      hbody 3 _ (by norm_num) (fun _ _ _ => rfl)⟩
  · rw [s3]
    exact ⟨FiberPrim.fn_call3, hfind _ _ (by simp [fnRegs])
      (by simp [lastReg, coreRegsOf, coreRegs, boolRegs, fnRegs, listRegs, numRegs, stringRegs]),
      hbody 4 _ (by norm_num) (fun _ _ _ => rfl)⟩
  · rw [s4]
    exact ⟨FiberPrim.fn_call4, hfind _ _ (by simp [fnRegs])
      (by simp [lastReg, coreRegsOf, coreRegs, boolRegs, fnRegs, listRegs, numRegs, stringRegs]),
      hbody 5 _ (by norm_num) (fun _ _ _ => rfl)⟩
  · rw [s5]
    exact ⟨FiberPrim.fn_call5, hfind _ _ (by simp [fnRegs])
      (by simp [lastReg, coreRegsOf, coreRegs, boolRegs, fnRegs, listRegs, numRegs, stringRegs]),
      hbody 6 _ (by norm_num) (fun _ _ _ => rfl)⟩
  · rw [s6]
    exact ⟨FiberPrim.fn_call6, hfind _ _ (by simp [fnRegs])
      (by simp [lastReg, coreRegsOf, coreRegs, boolRegs, fnRegs, listRegs, numRegs, stringRegs]),
      hbody 7 _ (by norm_num) (fun _ _ _ => rfl)⟩
  · rw [s7]
    exact ⟨FiberPrim.fn_call7, hfind _ _ (by simp [fnRegs])
      (by simp [lastReg, coreRegsOf, coreRegs, boolRegs, fnRegs, listRegs, numRegs, stringRegs]),
      hbody 8 _ (by norm_num) (fun _ _ _ => rfl)⟩
  · rw [s8]
    exact ⟨FiberPrim.fn_call8, hfind _ _ (by simp [fnRegs])
      (by simp [lastReg, coreRegsOf, coreRegs, boolRegs, fnRegs, listRegs, numRegs, stringRegs]),
      hbody 9 _ (by norm_num) (fun _ _ _ => rfl)⟩


/-- Instance of C10: after `loadCore` on `preludeVM`, "call" with two spaces on
Function is a fiber primitive that, on a stack of three slots with the
function at address 3 in the first, pushes one frame starting at slot 0. -/
theorem fn_call_delegates_witness :
    ∃ vm1 p, loadCore preludeVM = some vm1 ∧
      findMethod vm1 vm1.fnClass "call  " = Method.fiber p ∧
      callFiberPrimitive p sampleVM
          { stack := [Value.obj 3, Value.num (dbl false 1), Value.num (dbl false 2)], frames := [] }
          [Value.obj 3, Value.num (dbl false 1), Value.num (dbl false 2)]
        = some { stack := [Value.obj 3, Value.num (dbl false 1), Value.num (dbl false 2)],
                 frames := [{ fn := 3, ip := 0, stackStart := 0 }] } := by
  obtain ⟨vm1, hl, _, hall⟩ := fn_call_delegates preludeVM preludeClasses preludeVM_ok
  obtain ⟨p, hp, hrun⟩ := hall 2 (by decide)
  refine ⟨vm1, p, hl, hp, ?_⟩
  exact (hrun sampleVM _ (Value.obj 3) _ 3 rfl).1

theorem eqRegs_mem (k : CoreClasses) :
    (⟨k.boolC, "== ", Method.primitive Prim.bool_eqeq⟩ : Reg) ∈ coreRegsOf k ∧
    (⟨k.boolC, "!= ", Method.primitive Prim.bool_bangeq⟩ : Reg) ∈ coreRegsOf k := by
  unfold coreRegsOf coreRegs boolRegs
  simp

/-- C5 (as amended): once `loadCore` has returned, with Bool, Function, Num and
String resolved to four different classes, the method under "== " of each of
these classes is the equality primitive of its type and the method under "!= "
its inequality primitive; on an argument of another runtime type the former
returns false and the latter true, whatever the receiver.  `loadCore` stores no
entry under "== " or "!= " for the class List: they are what the prelude left. -/
theorem equality_on_mismatched_types (vm : VM) (k : CoreClasses) (h : PreludeOk vm k)
    (hd : [k.boolC, k.fnC, k.numC, k.stringC].Nodup) :
    ∃ vm1, loadCore vm = some vm1 ∧
      (findMethod vm1 vm1.boolClass "== " = Method.primitive Prim.bool_eqeq ∧
        findMethod vm1 vm1.boolClass "!= " = Method.primitive Prim.bool_bangeq ∧
        findMethod vm1 vm1.numClass "== " = Method.primitive Prim.num_eqeq ∧
        findMethod vm1 vm1.numClass "!= " = Method.primitive Prim.num_bangeq ∧
        findMethod vm1 vm1.stringClass "== " = Method.primitive Prim.string_eqeq ∧
        findMethod vm1 vm1.stringClass "!= " = Method.primitive Prim.string_bangeq ∧
        findMethod vm1 vm1.fnClass "== " = Method.primitive Prim.fn_eqeq ∧
        findMethod vm1 vm1.fnClass "!= " = Method.primitive Prim.fn_bangeq) ∧
      (∀ (hw : Host) (vm2 : VM) (recv v : Value),
        (IS_BOOL v = false →
          callPrimitive Prim.bool_eqeq hw vm2 [recv, v] = some (FALSE_VAL, vm2) ∧
          callPrimitive Prim.bool_bangeq hw vm2 [recv, v] = some (TRUE_VAL, vm2)) ∧
        (IS_NUM v = false →
          callPrimitive Prim.num_eqeq hw vm2 [recv, v] = some (FALSE_VAL, vm2) ∧
          callPrimitive Prim.num_bangeq hw vm2 [recv, v] = some (TRUE_VAL, vm2)) ∧
        (IS_STRING vm2 v = false →
          callPrimitive Prim.string_eqeq hw vm2 [recv, v] = some (FALSE_VAL, vm2) ∧
          callPrimitive Prim.string_bangeq hw vm2 [recv, v] = some (TRUE_VAL, vm2)) ∧
        (IS_FN vm2 v = false →
          callPrimitive Prim.fn_eqeq hw vm2 [recv, v] = some (FALSE_VAL, vm2) ∧
          callPrimitive Prim.fn_bangeq hw vm2 [recv, v] = some (TRUE_VAL, vm2))) ∧
      (k.listC ∉ [k.boolC, k.fnC, k.numC, k.stringC] →
        findMethod vm1 vm1.listClass "== "
          = entryAt vm.heap k.listC (vm1.methods.indexOf "== ") ∧
        findMethod vm1 vm1.listClass "!= "
          = entryAt vm.heap k.listC (vm1.methods.indexOf "!= ")) := by
  obtain ⟨vm1, k2, hl, _, _, hbool, _, hfn, hlist, _, hnum, hstring, _⟩ := loadCore_spec vm k h
  have cb : isClassAt vm.heap k.boolC = true := globalClass_isClass vm _ _ h.1
  have cf : isClassAt vm.heap k.fnC = true := globalClass_isClass vm _ _ h.2.2.1
  have cl : isClassAt vm.heap k.listC = true := globalClass_isClass vm _ _ h.2.2.2.1
  have cn : isClassAt vm.heap k.numC = true := globalClass_isClass vm _ _ h.2.2.2.2.2.1
  have cs : isClassAt vm.heap k.stringC = true := globalClass_isClass vm _ _ h.2.2.2.2.2.2.1
  obtain ⟨m1, m2⟩ := eqRegs_mem k
  simp only [List.nodup_cons, List.mem_cons, List.mem_singleton, List.not_mem_nil, not_or,
    List.nodup_nil, or_false, and_true] at hd
  obtain ⟨⟨hbf, hbn, hbs⟩, ⟨hfn2, hfs⟩, hns, _⟩ := hd
  have look : ∀ (c : Ref) (name : String), isClassAt vm.heap c = true →
      (name = "== " ∨ name = "!= ") →
      findMethod vm1 c name
        = (lastReg (coreRegsOf k) c name).getD (entryAt vm.heap c (vm1.methods.indexOf name)) := by
    intro c name hc hname
    rcases hname with rfl | rfl
    · exact findMethod_loadCore vm k h vm1 hl c _ hc _ m1 rfl
    · exact findMethod_loadCore vm k h vm1 hl c _ hc _ m2 rfl
  refine ⟨vm1, hl, ?_, ?_, ?_⟩
  · rw [hbool, hnum, hstring, hfn]
    refine ⟨?_, ?_, ?_, ?_, ?_, ?_, ?_, ?_⟩
    · rw [look _ _ cb (Or.inl rfl)]
      simp [lastReg, coreRegsOf, coreRegs, boolRegs, fnRegs, listRegs, numRegs, stringRegs,
        Ne.symm hbf, Ne.symm hbn, Ne.symm hbs]
    · rw [look _ _ cb (Or.inr rfl)]
      simp [lastReg, coreRegsOf, coreRegs, boolRegs, fnRegs, listRegs, numRegs, stringRegs,
        Ne.symm hbf, Ne.symm hbn, Ne.symm hbs]
    · rw [look _ _ cn (Or.inl rfl)]
      simp [lastReg, coreRegsOf, coreRegs, boolRegs, fnRegs, listRegs, numRegs, stringRegs,
        Ne.symm hns]
    · rw [look _ _ cn (Or.inr rfl)]
      simp [lastReg, coreRegsOf, coreRegs, boolRegs, fnRegs, listRegs, numRegs, stringRegs,
        Ne.symm hns]
    · rw [look _ _ cs (Or.inl rfl)]
      simp [lastReg, coreRegsOf, coreRegs, boolRegs, fnRegs, listRegs, numRegs, stringRegs]
    · rw [look _ _ cs (Or.inr rfl)]
      simp [lastReg, coreRegsOf, coreRegs, boolRegs, fnRegs, listRegs, numRegs, stringRegs]
    · rw [look _ _ cf (Or.inl rfl)]
      simp [lastReg, coreRegsOf, coreRegs, boolRegs, fnRegs, listRegs, numRegs, stringRegs,
        Ne.symm hfn2, Ne.symm hfs]
    · rw [look _ _ cf (Or.inr rfl)]
      simp [lastReg, coreRegsOf, coreRegs, boolRegs, fnRegs, listRegs, numRegs, stringRegs,
        Ne.symm hfn2, Ne.symm hfs]
  · intro hw vm2 recv v
    refine ⟨?_, ?_, ?_, ?_⟩
    · intro hv
      simp [callPrimitive, primitive_bool_eqeq, primitive_bool_bangeq, hv]
    · intro hv
      simp [callPrimitive, primitive_num_eqeq, primitive_num_bangeq, hv]
    · intro hv
      simp [callPrimitive, primitive_string_eqeq, primitive_string_bangeq, hv]
    · intro hv
      simp [callPrimitive, primitive_fn_eqeq, primitive_fn_bangeq, hv]
  · intro hnot
    simp only [List.mem_cons, List.mem_singleton, List.not_mem_nil, not_or, or_false] at hnot
    obtain ⟨l1, l2, l3, l4⟩ := hnot
    rw [hlist]
    constructor
    · rw [look _ _ cl (Or.inl rfl)]
      simp [lastReg, coreRegsOf, coreRegs, boolRegs, fnRegs, listRegs, numRegs, stringRegs,
        Ne.symm l1, Ne.symm l2, Ne.symm l3, Ne.symm l4]
    · rw [look _ _ cl (Or.inr rfl)]
      simp [lastReg, coreRegsOf, coreRegs, boolRegs, fnRegs, listRegs, numRegs, stringRegs,
        Ne.symm l1, Ne.symm l2, Ne.symm l3, Ne.symm l4]


/-- Instance of C5 (as amended): after `loadCore` on `preludeVM`, "== " on Bool
is `bool_eqeq`; `true == 1` is false and `"abc" != 1` is true. -/
theorem equality_on_mismatched_types_witness :
    ∃ vm1, loadCore preludeVM = some vm1 ∧
      findMethod vm1 vm1.boolClass "== " = Method.primitive Prim.bool_eqeq ∧
      callPrimitive Prim.bool_eqeq sampleHost sampleVM [Value.bool true, Value.num (dbl false 1)]
        = some (FALSE_VAL, sampleVM) ∧
      callPrimitive Prim.string_bangeq sampleHost sampleVM [Value.obj 1, Value.num (dbl false 1)]
        = some (TRUE_VAL, sampleVM) := by
  obtain ⟨vm1, hl, hm, hrun, _⟩ :=
    equality_on_mismatched_types preludeVM preludeClasses preludeVM_ok (by decide)
  exact ⟨vm1, hl, hm.1,
    ((hrun sampleHost sampleVM (Value.bool true) (Value.num (dbl false 1))).1 rfl).1,
    ((hrun sampleHost sampleVM (Value.obj 1) (Value.num (dbl false 1))).2.2.1 rfl).2⟩

/-- C5 as stated fails for List: after `loadCore` on `preludeVM` the class List
(at address 9) has no method under "== " and none under "!= ". -/
theorem equality_on_mismatched_types_counterexample :
    ∃ vm1, loadCore preludeVM = some vm1 ∧ vm1.listClass = 9 ∧
      findMethod vm1 vm1.listClass "== " = Method.none ∧
      findMethod vm1 vm1.listClass "!= " = Method.none := by
  obtain ⟨vm1, k2, hl, _, _, _, _, _, hlist, _⟩ :=
    loadCore_spec preludeVM preludeClasses preludeVM_ok
  obtain ⟨m1, m2⟩ := eqRegs_mem preludeClasses
  refine ⟨vm1, hl, hlist, ?_, ?_⟩
  · rw [hlist]
    show findMethod vm1 9 "== " = Method.none
    rw [findMethod_loadCore preludeVM preludeClasses preludeVM_ok vm1 hl 9 "== " rfl _ m1 rfl]
    have hlast : lastReg (coreRegsOf preludeClasses) 9 "== " = none := by
      simp [lastReg, coreRegsOf, coreRegs, boolRegs, fnRegs, listRegs, numRegs, stringRegs,
        preludeClasses]
    rw [hlast]
    rfl
  · rw [hlist]
    show findMethod vm1 9 "!= " = Method.none
    rw [findMethod_loadCore preludeVM preludeClasses preludeVM_ok vm1 hl 9 "!= " rfl _ m2 rfl]
    have hlast : lastReg (coreRegsOf preludeClasses) 9 "!= " = none := by
      simp [lastReg, coreRegsOf, coreRegs, boolRegs, fnRegs, listRegs, numRegs, stringRegs,
        preludeClasses]
    rw [hlast]
    rfl


/-- The sentinel that `loadCore` leaves in `vm->unsupported` is an object. -/
theorem loadCore_unsupported (vm : VM) (k : CoreClasses) (h : PreludeOk vm k) :
    ∃ vm1 u, loadCore vm = some vm1 ∧ vm1.unsupported = Value.obj u := by
  obtain ⟨vm1, k2, hl, _, _, _, _, _, _, _, _, _, hu⟩ := loadCore_spec vm k h
  exact ⟨vm1, _, hl, hu⟩

/-! ## Equality primitives -/

/-- `strcmp` is zero exactly when the two texts are the same. -/
theorem strcmp_eq_zero_iff (a b : List Nat) : strcmp a b = 0 ↔ cstr a = cstr b := by
  induction a generalizing b with
  | nil =>
    cases b with
    | nil => simp [strcmp]
    | cons y t =>
      by_cases hy : y = 0
      · subst hy; simp [strcmp, cstr_nil, cstr_cons_zero]
      · simp [strcmp, cstr_nil, cstr_cons_ne y t hy, hy]
  | cons x xs ih =>
    cases b with
    | nil =>
      by_cases hx : x = 0
      · subst hx; simp [strcmp, cstr_nil, cstr_cons_zero]
      · simp [strcmp, cstr_nil, cstr_cons_ne x xs hx, hx]
    | cons y ys =>
      unfold strcmp
      by_cases hxy : x = y
      · subst hxy
        by_cases hx : x = 0
        · subst hx; simp [cstr_cons_zero]
        · simp [hx, cstr_cons_ne x _ hx, ih ys]
      · have hne : (x : Int) - (y : Int) ≠ 0 := by omega
        simp only [ne_eq, hxy, not_false_eq_true, if_true, hne, false_iff]
        by_cases hx : x = 0
        · subst hx
          have hy : y ≠ 0 := fun h => hxy h.symm
          rw [cstr_cons_zero, cstr_cons_ne y ys hy]
          exact List.noConfusion
        · by_cases hy : y = 0
          · subst hy
            rw [cstr_cons_zero, cstr_cons_ne x xs hx]
            exact List.noConfusion
          · rw [cstr_cons_ne x xs hx, cstr_cons_ne y ys hy]
            intro h
            exact hxy (List.cons.inj h).1

/-- `string_eqeq` on two strings compares their texts. -/
theorem string_eqeq_strings (hw : Host) (vm : VM) (r q : Ref) (a b : List Nat)
    (ha : vm.heap[r]? = some (Obj.string a)) (hb : vm.heap[q]? = some (Obj.string b)) :
    primitive_string_eqeq hw vm [Value.obj r, Value.obj q]
      = some (Value.bool (decide (cstr a = cstr b)), vm) := by
  have hd : decide (strcmp a b = 0) = decide (cstr a = cstr b) := by
    by_cases h : cstr a = cstr b
    · rw [decide_eq_true h, decide_eq_true ((strcmp_eq_zero_iff a b).mpr h)]
    · rw [decide_eq_false h, decide_eq_false (fun h2 => h ((strcmp_eq_zero_iff a b).mp h2))]
  unfold primitive_string_eqeq
  simp only [List.getElem?_cons_succ, List.getElem?_cons_zero, IS_STRING, AS_CSTRING, objOf_obj,
    ha, hb, Bool.not_true, Bool.false_eq_true, if_false, BOOL_VAL, hd]

/-- `string_bangeq` on two strings compares their texts. -/
theorem string_bangeq_strings (hw : Host) (vm : VM) (r q : Ref) (a b : List Nat)
    (ha : vm.heap[r]? = some (Obj.string a)) (hb : vm.heap[q]? = some (Obj.string b)) :
    primitive_string_bangeq hw vm [Value.obj r, Value.obj q]
      = some (Value.bool (!decide (cstr a = cstr b)), vm) := by
  have hd : decide (strcmp a b ≠ 0) = !decide (cstr a = cstr b) := by
    by_cases h : cstr a = cstr b
    · have h1 : ¬ (strcmp a b ≠ 0) := fun h2 => h2 ((strcmp_eq_zero_iff a b).mpr h)
      rw [decide_eq_true h, decide_eq_false h1]
      rfl
    · have h1 : strcmp a b ≠ 0 := fun h2 => h ((strcmp_eq_zero_iff a b).mp h2)
      rw [decide_eq_false h, decide_eq_true h1]
      rfl
  unfold primitive_string_bangeq
  simp only [List.getElem?_cons_succ, List.getElem?_cons_zero, IS_STRING, AS_CSTRING, objOf_obj,
    ha, hb, Bool.not_true, Bool.false_eq_true, if_false, BOOL_VAL, hd]

theorem IS_STRING_iff (vm : VM) (v : Value) :
    IS_STRING vm v = true ↔ ∃ b, AS_CSTRING vm v = some b := by
  unfold IS_STRING AS_CSTRING
  cases h : objOf vm v with
  | none => simp
  | some o => cases o <;> simp


theorem string_eqeq_not_string (hw : Host) (vm : VM) (recv v : Value)
    (hv : IS_STRING vm v = false) :
    primitive_string_eqeq hw vm [recv, v] = some (Value.bool false, vm) ∧
    primitive_string_bangeq hw vm [recv, v] = some (Value.bool true, vm) := by
  simp [primitive_string_eqeq, primitive_string_bangeq, hv, FALSE_VAL, TRUE_VAL]

/-- C20: `string_eqeq` on a String receiver is true exactly when the argument
is a String with the same text; so it is reflexive, symmetric and transitive on
strings, and the string that `string_plus` returns for `a` and `b` is equal to
every string whose text is the text of `a` followed by the text of `b`. -/
theorem string_equality_by_content (hw : Host) (vm : VM) (r : Ref) (a : List Nat)
    (hs : vm.heap[r]? = some (Obj.string a)) :
    (∀ v, ∃ e, primitive_string_eqeq hw vm [Value.obj r, v] = some (Value.bool e, vm) ∧
      (e = true ↔ ∃ b, AS_CSTRING vm v = some b ∧ cstr b = cstr a)) ∧
    primitive_string_eqeq hw vm [Value.obj r, Value.obj r] = some (Value.bool true, vm) ∧
    (∀ (q : Ref) (b : List Nat), vm.heap[q]? = some (Obj.string b) →
      primitive_string_eqeq hw vm [Value.obj r, Value.obj q]
        = primitive_string_eqeq hw vm [Value.obj q, Value.obj r]) ∧
    (∀ (q p : Ref) (b c : List Nat), vm.heap[q]? = some (Obj.string b) →
      vm.heap[p]? = some (Obj.string c) →
      primitive_string_eqeq hw vm [Value.obj r, Value.obj q] = some (Value.bool true, vm) →
      primitive_string_eqeq hw vm [Value.obj q, Value.obj p] = some (Value.bool true, vm) →
      primitive_string_eqeq hw vm [Value.obj r, Value.obj p] = some (Value.bool true, vm)) ∧
    (∀ (q p : Ref) (b c : List Nat), vm.heap[q]? = some (Obj.string b) →
      vm.heap[p]? = some (Obj.string c) → cstr c = cstr a ++ cstr b →
      ∃ vm1, primitive_string_plus hw vm [Value.obj r, Value.obj q]
          = some (Value.obj vm.heap.length, vm1) ∧
        primitive_string_eqeq hw vm1 [Value.obj vm.heap.length, Value.obj p]
          = some (Value.bool true, vm1)) := by
  refine ⟨?_, ?_, ?_, ?_, ?_⟩
  · intro v
    by_cases hv : IS_STRING vm v = true
    · obtain ⟨b, hb⟩ := (IS_STRING_iff vm v).mp hv
      obtain ⟨q, rfl, hq⟩ := AS_CSTRING_some vm v b hb
      refine ⟨decide (cstr a = cstr b), string_eqeq_strings hw vm r q a b hs hq, ?_⟩
      rw [hb]
      constructor
      · intro h
        exact ⟨b, rfl, (of_decide_eq_true h).symm⟩
      · rintro ⟨b2, h1, h2⟩
        cases h1
        exact decide_eq_true h2.symm
    · have hv2 : IS_STRING vm v = false := by simpa using hv
      refine ⟨false, (string_eqeq_not_string hw vm _ v hv2).1, ?_⟩
      constructor
      · intro h; exact Bool.noConfusion h
      · rintro ⟨b, hb, _⟩
        exact absurd ((IS_STRING_iff vm v).mpr ⟨b, hb⟩) hv
  · rw [string_eqeq_strings hw vm r r a a hs hs, decide_eq_true rfl]
  · intro q b hq
    rw [string_eqeq_strings hw vm r q a b hs hq, string_eqeq_strings hw vm q r b a hq hs]
    by_cases h : cstr a = cstr b
    · rw [decide_eq_true h, decide_eq_true h.symm]
    · rw [decide_eq_false h, decide_eq_false (fun h2 => h h2.symm)]
  · intro q p b c hq hp h1 h2
    rw [string_eqeq_strings hw vm r q a b hs hq] at h1
    rw [string_eqeq_strings hw vm q p b c hq hp] at h2
    rw [string_eqeq_strings hw vm r p a c hs hp]
    have e1 : cstr a = cstr b := of_decide_eq_true (by simpa using h1)
    have e2 : cstr b = cstr c := of_decide_eq_true (by simpa using h2)
    rw [decide_eq_true (e1.trans e2)]
  · intro q p b c hq hp hc
    refine ⟨_, string_plus_strings hw vm r q a b hs hq, ?_⟩
    rw [string_eqeq_strings hw _ vm.heap.length p (cstr a ++ cstr b ++ [0]) c
      (alloc_new vm _) (alloc_old vm _ _ p hp)]
    have : cstr (cstr a ++ cstr b ++ [0]) = cstr c := by
      rw [cstr_idem_append a b [], hc]
    rw [decide_eq_true this]


/-- Instance of C20: two different string objects with the text "abc" are
equal, and "abc" + "de" is equal to the string "abcde". -/
theorem string_equality_by_content_witness :
    primitive_string_eqeq sampleHost contentVM [Value.obj 0, Value.obj 1]
      = some (Value.bool true, contentVM) ∧
    ∃ vm1, primitive_string_plus sampleHost contentVM [Value.obj 0, Value.obj 2]
        = some (Value.obj 6, vm1) ∧
      primitive_string_eqeq sampleHost vm1 [Value.obj 6, Value.obj 3]
        = some (Value.bool true, vm1) := by
  have h := string_equality_by_content sampleHost contentVM 0 [97, 98, 99, 0] rfl
  constructor
  · obtain ⟨e, he, hiff⟩ := h.1 (Value.obj 1)
    have : e = true := hiff.mpr ⟨[97, 98, 99, 0, 120], rfl, by decide⟩
    rw [this] at he
    exact he
  · exact h.2.2.2.2 2 3 [100, 101, 0] [97, 98, 99, 100, 101, 0] rfl rfl (by decide)

/-! ## Function equality -/

theorem IS_FN_iff (vm : VM) (v : Value) :
    IS_FN vm v = true ↔ ∃ g c, v = Value.obj g ∧ vm.heap[g]? = some (Obj.fn c) := by
  cases v with
  | obj g =>
    unfold IS_FN
    rw [objOf_obj]
    cases h : vm.heap[g]? with
    | none => simp [h]
    | some o => cases o <;> simp [h]
  | bool x => simp [IS_FN, objOf]
  | null => simp [IS_FN, objOf]
  | num x => simp [IS_FN, objOf]

theorem AS_FN_fn (vm : VM) (g : Ref) (c : Nat) (h : vm.heap[g]? = some (Obj.fn c)) :
    AS_FN vm (Value.obj g) = some g ∧ IS_FN vm (Value.obj g) = true := by
  unfold AS_FN IS_FN
  rw [objOf_obj, h]
  exact ⟨rfl, rfl⟩

/-- On two function objects `fn_eqeq` and `fn_bangeq` compare the addresses. -/
theorem fn_eqeq_fns (hw : Host) (vm : VM) (f g : Ref) (c d : Nat)
    (hf : vm.heap[f]? = some (Obj.fn c)) (hg : vm.heap[g]? = some (Obj.fn d)) :
    primitive_fn_eqeq hw vm [Value.obj f, Value.obj g] = some (Value.bool (f == g), vm) ∧
    primitive_fn_bangeq hw vm [Value.obj f, Value.obj g] = some (Value.bool (f != g), vm) := by
  unfold primitive_fn_eqeq primitive_fn_bangeq
  simp only [List.getElem?_cons_succ, List.getElem?_cons_zero, (AS_FN_fn vm f c hf).1,
    (AS_FN_fn vm g d hg).1, (AS_FN_fn vm g d hg).2, Bool.not_true, Bool.false_eq_true, if_false,
    BOOL_VAL, and_self]

theorem fn_eqeq_not_fn (hw : Host) (vm : VM) (recv v : Value) (hv : IS_FN vm v = false) :
    primitive_fn_eqeq hw vm [recv, v] = some (Value.bool false, vm) ∧
    primitive_fn_bangeq hw vm [recv, v] = some (Value.bool true, vm) := by
  simp [primitive_fn_eqeq, primitive_fn_bangeq, hv, FALSE_VAL, TRUE_VAL]

/-- C15: on a Function receiver `f`, `fn_eqeq` is true exactly when the
argument is a Function and is the same object as `f`, and `fn_bangeq` is true
exactly in the opposite case; so every function equals itself and two different
function objects are never equal, even with the same code. -/
theorem fn_equality_is_identity (hw : Host) (vm : VM) (f : Ref) (c : Nat) (v : Value)
    (hf : vm.heap[f]? = some (Obj.fn c)) :
    (∃ e, primitive_fn_eqeq hw vm [Value.obj f, v] = some (Value.bool e, vm) ∧
      primitive_fn_bangeq hw vm [Value.obj f, v] = some (Value.bool (!e), vm) ∧
      (e = true ↔ IS_FN vm v = true ∧ v = Value.obj f)) ∧
    primitive_fn_eqeq hw vm [Value.obj f, Value.obj f] = some (Value.bool true, vm) ∧
    (∀ (g : Ref) (d : Nat), vm.heap[g]? = some (Obj.fn d) → g ≠ f →
      primitive_fn_eqeq hw vm [Value.obj f, Value.obj g] = some (Value.bool false, vm)) := by
  refine ⟨?_, ?_, ?_⟩
  · by_cases hv : IS_FN vm v = true
    · obtain ⟨g, d, rfl, hg⟩ := (IS_FN_iff vm v).mp hv
      obtain ⟨h1, h2⟩ := fn_eqeq_fns hw vm f g c d hf hg
      refine ⟨f == g, h1, h2, ?_⟩
      constructor
      · intro h
        have : f = g := by simpa using h
        subst this
        exact ⟨hv, rfl⟩
      · rintro ⟨_, h⟩
        cases h
        simp
    · have hv2 : IS_FN vm v = false := by simpa using hv
      obtain ⟨h1, h2⟩ := fn_eqeq_not_fn hw vm (Value.obj f) v hv2
      refine ⟨false, h1, h2, ?_⟩
      constructor
      · intro h; exact Bool.noConfusion h
      · rintro ⟨h, _⟩; exact absurd h hv
  · rw [(fn_eqeq_fns hw vm f f c c hf hf).1]
    simp
  · intro g d hg hne
    rw [(fn_eqeq_fns hw vm f g c d hf hg).1]
    have : (f == g) = false := by simpa using (fun h : f = g => hne h.symm)
    rw [this]

/-- Instance of C15: the function at address 4 equals itself and differs from
the function at address 5, which has the same code. -/
theorem fn_equality_is_identity_witness :
    primitive_fn_eqeq sampleHost contentVM [Value.obj 4, Value.obj 4]
      = some (Value.bool true, contentVM) ∧
    primitive_fn_eqeq sampleHost contentVM [Value.obj 4, Value.obj 5]
      = some (Value.bool false, contentVM) :=
  ⟨(fn_equality_is_identity sampleHost contentVM 4 0 Value.null rfl).2.1,
   (fn_equality_is_identity sampleHost contentVM 4 0 Value.null rfl).2.2 5 0 rfl (by decide)⟩

/-! ## `!=` against `==` -/

/-- C18: for Bool, Num, String and Function receivers and any argument, the
`!=` primitive returns the negation of what the `==` primitive returns. -/
theorem bangeq_negates_eqeq (hw : Host) (vm : VM) (v : Value) :
    (∀ x : Bool, ∃ e, primitive_bool_eqeq hw vm [Value.bool x, v] = some (Value.bool e, vm) ∧
      primitive_bool_bangeq hw vm [Value.bool x, v] = some (Value.bool (!e), vm)) ∧
    (∀ x : Double, ∃ e, primitive_num_eqeq hw vm [Value.num x, v] = some (Value.bool e, vm) ∧
      primitive_num_bangeq hw vm [Value.num x, v] = some (Value.bool (!e), vm)) ∧
    (∀ (r : Ref) (a : List Nat), vm.heap[r]? = some (Obj.string a) →
      ∃ e, primitive_string_eqeq hw vm [Value.obj r, v] = some (Value.bool e, vm) ∧
        primitive_string_bangeq hw vm [Value.obj r, v] = some (Value.bool (!e), vm)) ∧
    (∀ (f : Ref) (c : Nat), vm.heap[f]? = some (Obj.fn c) →
      ∃ e, primitive_fn_eqeq hw vm [Value.obj f, v] = some (Value.bool e, vm) ∧
        primitive_fn_bangeq hw vm [Value.obj f, v] = some (Value.bool (!e), vm)) := by
  refine ⟨?_, ?_, ?_, ?_⟩
  · intro x
    cases v with
    | bool y =>
      exact ⟨x == y, by simp [primitive_bool_eqeq, IS_BOOL, AS_BOOL, BOOL_VAL],
        by simp [primitive_bool_bangeq, IS_BOOL, AS_BOOL, BOOL_VAL, bne]⟩
    | null => exact ⟨false, by simp [primitive_bool_eqeq, IS_BOOL, FALSE_VAL],
        by simp [primitive_bool_bangeq, IS_BOOL, TRUE_VAL]⟩
    | num d => exact ⟨false, by simp [primitive_bool_eqeq, IS_BOOL, FALSE_VAL],
        by simp [primitive_bool_bangeq, IS_BOOL, TRUE_VAL]⟩
    | obj q => exact ⟨false, by simp [primitive_bool_eqeq, IS_BOOL, FALSE_VAL],
        by simp [primitive_bool_bangeq, IS_BOOL, TRUE_VAL]⟩
  · intro x
    cases v with
    | num y =>
      exact ⟨Double.eq x y, by simp [primitive_num_eqeq, IS_NUM, AS_NUM, BOOL_VAL],
        by simp [primitive_num_bangeq, IS_NUM, AS_NUM, BOOL_VAL, Double.ne]⟩
    | null => exact ⟨false, by simp [primitive_num_eqeq, IS_NUM, FALSE_VAL],
        by simp [primitive_num_bangeq, IS_NUM, TRUE_VAL]⟩
    | bool d => exact ⟨false, by simp [primitive_num_eqeq, IS_NUM, FALSE_VAL],
        by simp [primitive_num_bangeq, IS_NUM, TRUE_VAL]⟩
    | obj q => exact ⟨false, by simp [primitive_num_eqeq, IS_NUM, FALSE_VAL],
        by simp [primitive_num_bangeq, IS_NUM, TRUE_VAL]⟩
  · intro r a hs
    by_cases hv : IS_STRING vm v = true
    · obtain ⟨b, hb⟩ := (IS_STRING_iff vm v).mp hv
      obtain ⟨q, rfl, hq⟩ := AS_CSTRING_some vm v b hb
      exact ⟨_, string_eqeq_strings hw vm r q a b hs hq, string_bangeq_strings hw vm r q a b hs hq⟩
    · have hv2 : IS_STRING vm v = false := by simpa using hv
      exact ⟨false, (string_eqeq_not_string hw vm _ v hv2).1,
        (string_eqeq_not_string hw vm _ v hv2).2⟩
  · intro f c hf
    by_cases hv : IS_FN vm v = true
    · obtain ⟨g, d, rfl, hg⟩ := (IS_FN_iff vm v).mp hv
      obtain ⟨h1, h2⟩ := fn_eqeq_fns hw vm f g c d hf hg
      exact ⟨f == g, h1, by rw [h2]; rfl⟩
    · have hv2 : IS_FN vm v = false := by simpa using hv
      exact ⟨false, (fn_eqeq_not_fn hw vm _ v hv2).1, (fn_eqeq_not_fn hw vm _ v hv2).2⟩

/-- Instance of C18: on the strings "abc" and "de", `==` is false and `!=` is
true; on "abc" and the number 2 likewise. -/
theorem bangeq_negates_eqeq_witness :
    ∃ e, primitive_string_eqeq sampleHost sampleVM [Value.obj 1, Value.obj 2]
        = some (Value.bool e, sampleVM) ∧
      primitive_string_bangeq sampleHost sampleVM [Value.obj 1, Value.obj 2]
        = some (Value.bool (!e), sampleVM) :=
  (bangeq_negates_eqeq sampleHost sampleVM (Value.obj 2)).2.2.1 1 [97, 98, 99, 0] rfl

/-! ## Substring search -/

theorem isPrefixOf_iff_append (needle l : List Nat) :
    needle.isPrefixOf l = true ↔ ∃ post, l = needle ++ post := by
  induction needle generalizing l with
  | nil => simp [List.isPrefixOf]
  | cons a as ih =>
    cases l with
    | nil => simp [List.isPrefixOf]
    | cons b bs =>
      simp only [List.isPrefixOf, Bool.and_eq_true, beq_iff_eq, ih, List.cons_append,
        List.cons.injEq]
      constructor
      · rintro ⟨rfl, post, rfl⟩
        exact ⟨post, rfl, rfl⟩
      · rintro ⟨post, rfl, rfl⟩
        exact ⟨rfl, post, rfl⟩

/-- The search finds an occurrence exactly when the needle occurs in the
haystack as a run of consecutive bytes. -/
theorem strstrFrom_isSome (needle hay : List Nat) (off : Nat) :
    (strstrFrom needle hay off).isSome = true ↔ ∃ pre post, hay = pre ++ needle ++ post := by
  induction hay generalizing off with
  | nil =>
    unfold strstrFrom
    by_cases hn : needle = []
    · subst hn
      simp
    · simp only [hn, if_false, Option.isSome_none, Bool.false_eq_true, false_iff]
      rintro ⟨pre, post, h⟩
      have h2 := congrArg List.length h
      simp only [List.length_nil, List.length_append] at h2
      exact hn (List.length_eq_zero.mp (by omega))
  | cons h t ih =>
    unfold strstrFrom
    by_cases hp : needle.isPrefixOf (h :: t) = true
    · simp only [hp, if_true, Option.isSome_some, true_iff]
      obtain ⟨post, hpost⟩ := (isPrefixOf_iff_append needle (h :: t)).mp hp
      exact ⟨[], post, by rw [hpost]; rfl⟩
    · simp only [hp, if_false, Bool.false_eq_true]
      rw [ih (off + 1)]
      constructor
      · rintro ⟨pre, post, hh⟩
        exact ⟨h :: pre, post, by rw [hh]; rfl⟩
      · rintro ⟨pre, post, hh⟩
        cases pre with
        | nil =>
          exfalso
          apply hp
          exact (isPrefixOf_iff_append needle (h :: t)).mpr ⟨post, by rw [hh]; rfl⟩
        | cons p pre =>
          simp only [List.cons_append, List.cons.injEq] at hh
          exact ⟨pre, post, hh.2⟩

/-- C14: on two strings `string_contains` returns true exactly when the text of
the argument occurs in the text of the receiver as a run of consecutive bytes;
in particular every string contains the empty string. -/
theorem string_contains_substring (hw : Host) (vm : VM) (r q : Ref) (s t : List Nat)
    (hs : vm.heap[r]? = some (Obj.string s)) (ht : vm.heap[q]? = some (Obj.string t)) :
    (∃ e, primitive_string_contains hw vm [Value.obj r, Value.obj q] = some (Value.bool e, vm) ∧
      (e = true ↔ ∃ pre post, cstr s = pre ++ cstr t ++ post)) ∧
    (cstr t = [] →
      primitive_string_contains hw vm [Value.obj r, Value.obj q] = some (Value.bool true, vm)) := by
  have hmain : ∃ e, primitive_string_contains hw vm [Value.obj r, Value.obj q]
        = some (Value.bool e, vm) ∧
      (e = true ↔ ∃ pre post, cstr s = pre ++ cstr t ++ post) := by
    unfold primitive_string_contains
    simp only [List.getElem?_cons_succ, List.getElem?_cons_zero, AS_CSTRING, objOf_obj, hs, ht]
    by_cases h0 : strlen s = 0 ∧ strlen t = 0
    · rw [if_pos h0]
      refine ⟨true, rfl, ?_⟩
      have h1 : cstr s = [] := List.length_eq_zero.mp h0.1
      have h2 : cstr t = [] := List.length_eq_zero.mp h0.2
      simp only [true_iff]
      exact ⟨[], [], by rw [h1, h2]; rfl⟩
    · rw [if_neg h0]
      exact ⟨(strstr s t).isSome, rfl, strstrFrom_isSome (cstr t) (cstr s) 0⟩
  refine ⟨hmain, ?_⟩
  intro hempty
  obtain ⟨e, he, hiff⟩ := hmain
  have : e = true := hiff.mpr ⟨[], cstr s, by rw [hempty]; rfl⟩
  rw [this] at he
  exact he

/-- Instance of C14: "abcde" contains "de", and "de" does not contain
"abcde". -/
theorem string_contains_substring_witness :
    primitive_string_contains sampleHost contentVM [Value.obj 3, Value.obj 2]
      = some (Value.bool true, contentVM) ∧
    primitive_string_contains sampleHost contentVM [Value.obj 2, Value.obj 3]
      = some (Value.bool false, contentVM) := by
  constructor
  · obtain ⟨e, he, hiff⟩ :=
      (string_contains_substring sampleHost contentVM 3 2 [97, 98, 99, 100, 101, 0] [100, 101, 0]
        rfl rfl).1
    have : e = true := hiff.mpr ⟨[97, 98, 99], [], by decide⟩
    rw [this] at he
    exact he
  · obtain ⟨e, he, hiff⟩ :=
      (string_contains_substring sampleHost contentVM 2 3 [100, 101, 0] [97, 98, 99, 100, 101, 0]
        rfl rfl).1
    have : e = false := by
      cases e with
      | false => rfl
      | true =>
        obtain ⟨pre, post, h⟩ := hiff.mp rfl
        have h2 := congrArg List.length h
        have e1 : (cstr [100, 101, 0]).length = 2 := by decide
        have e2 : (cstr [97, 98, 99, 100, 101, 0]).length = 5 := by decide
        simp only [List.length_append, e1, e2] at h2
        omega
    rw [this] at he
    exact he


/-! ## `IO.write` -/

/-- C12: `io_write` returns its argument unchanged and appends to the standard
output what `printValue` prints for it followed by one newline (byte 10); the
symbol table, the heap and every other field of the VM stay as they are. -/
theorem io_write_effect (hw : Host) (vm : VM) (recv v : Value) :
    ∃ vm1, primitive_io_write hw vm [recv, v] = some (v, vm1) ∧
      vm1.stdout = vm.stdout ++ hw.printValue vm v ++ [10] ∧
      vm1.heap = vm.heap ∧ vm1.methods = vm.methods ∧ vm1.globals = vm.globals ∧
      vm1.unsupported = vm.unsupported :=
  ⟨{ vm with stdout := vm.stdout ++ hw.printValue vm v ++ [10] }, rfl, rfl, rfl, rfl, rfl, rfl⟩

/-- Instance of C12: with a `printValue` that prints a string as its text,
writing "abc" returns the string and appends the bytes of `abc` and a newline. -/
theorem io_write_effect_witness :
    ∃ vm1, primitive_io_write textHost sampleVM [Value.obj 6, Value.obj 1]
        = some (Value.obj 1, vm1) ∧
      vm1.stdout = [97, 98, 99, 10] ∧ vm1.heap = sampleVM.heap := by
  obtain ⟨vm1, h1, h2, h3, _⟩ := io_write_effect textHost sampleVM (Value.obj 6) (Value.obj 1)
  exact ⟨vm1, h1, h2, h3⟩

/-! ## The subscripts read inside the receiver -/

/-- An `int` length that is not negative is at most the length it was
converted from. -/
theorem wrapInt_le_of_nonneg (z : Int) (hz : 0 ≤ z) (hw : 0 ≤ wrapInt z) : wrapInt z ≤ z := by
  unfold wrapInt at *
  omega

/-- The sum `n + i` of a length `n` that is an `int` and a negative `int` is an
`int`. -/
theorem normalise_no_overflow (n i : Int) (hn0 : 0 ≤ n) (hn : n ≤ INT_MAX) (hi : INT_MIN ≤ i)
    (hneg : i < 0) : wrapInt (n + i) = n + i := by
  apply wrapInt_of_range
  · unfold INT_MIN at *; omega
  · unfold INT_MAX at *; omega

/-- Where `list_subscript` reads an element the index is inside the list, and
where it reads none it returns null. -/
theorem list_subscript_read_spec (hw : Host) (vm : VM) (r : Ref) (elements : List Value)
    (v : Value) (hobj : vm.heap[r]? = some (Obj.list elements)) :
    match list_subscript_read hw vm [Value.obj r, v] with
    | some j => 0 ≤ j ∧ j < (elements.length : Int) ∧
        ∃ e, elements[j.toNat]? = some e ∧
          primitive_list_subscript hw vm [Value.obj r, v] = some (e, vm)
    | none => primitive_list_subscript hw vm [Value.obj r, v] = some (NULL_VAL, vm) := by
  unfold list_subscript_read primitive_list_subscript
  simp only [List.getElem?_cons_succ, List.getElem?_cons_zero, AS_LIST, objOf_obj, hobj]
  cases v with
  | num d =>
    simp only [IS_NUM, AS_NUM, Bool.not_true, Bool.false_eq_true, if_false]
    by_cases hne : Double.ne d (intToDouble (doubleToInt hw d)) = true
    · simp only [hne, if_true]
    · simp only [hne, if_false, Bool.false_eq_true]
      by_cases hb : (if doubleToInt hw d < 0 then wrapInt ((elements.length : Int) + doubleToInt hw d)
            else doubleToInt hw d) < 0
          ∨ (if doubleToInt hw d < 0 then wrapInt ((elements.length : Int) + doubleToInt hw d)
            else doubleToInt hw d) ≥ (elements.length : Int)
      · simp only [hb, if_true]
      · simp only [hb, if_false]
        have hlt : (if doubleToInt hw d < 0
            then wrapInt ((elements.length : Int) + doubleToInt hw d)
            else doubleToInt hw d).toNat < elements.length := by omega
        refine ⟨by omega, by omega, elements[_], List.getElem?_eq_getElem hlt, ?_⟩
        rw [List.getElem?_eq_getElem hlt]
  | bool b => simp [IS_NUM]
  | null => simp [IS_NUM]
  | obj q => simp [IS_NUM]

/-- Where `string_subscript` reads a byte the index is inside the string, the
result is a fresh string that holds that byte, and where it reads none it
returns null. -/
theorem string_subscript_read_spec (hw : Host) (vm : VM) (r : Ref) (buf : List Nat)
    (v : Value) (hobj : vm.heap[r]? = some (Obj.string buf)) :
    match string_subscript_read hw vm [Value.obj r, v] with
    | some j => 0 ≤ j ∧ j < (strlen buf : Int) ∧
        ∃ c, buf[j.toNat]? = some c ∧
          primitive_string_subscript hw vm [Value.obj r, v]
            = some (Value.obj vm.heap.length, vm.alloc (Obj.string [c, 0, hw.fresh 2]))
    | none => primitive_string_subscript hw vm [Value.obj r, v] = some (NULL_VAL, vm) := by
  have hraw : (List.range (2 + 1)).map hw.fresh = [hw.fresh 0, hw.fresh 1, hw.fresh 2] := rfl
  have hstore : ∀ c : Nat,
      (match storeByte (vm.alloc (Obj.string [hw.fresh 0, hw.fresh 1, hw.fresh 2])) vm.heap.length 0 c with
        | some vm2 =>
          match storeByte vm2 vm.heap.length 1 0 with
          | some vm3 => some (Value.obj vm.heap.length, vm3)
          | none => none
        | none => none)
      = some (Value.obj vm.heap.length, vm.alloc (Obj.string [c, 0, hw.fresh 2])) := by
    intro c
    rw [storeByte_alloc vm _ 0 c (by simp)]
    simp only [List.set_cons_zero]
    rw [storeByte_alloc vm _ 1 0 (by simp)]
    rfl
  have hcs : AS_CSTRING vm (Value.obj r) = some buf := by
    unfold AS_CSTRING; rw [objOf_obj, hobj]
  unfold string_subscript_read primitive_string_subscript
  simp only [List.getElem?_cons_succ, List.getElem?_cons_zero, hcs]
  cases v with
  | num d =>
    simp only [IS_NUM, AS_NUM, Bool.not_true, Bool.false_eq_true, if_false, newString_none, hraw,
      AS_STRING_alloc, AS_CSTRING_alloc_old vm _ r buf hobj]
    by_cases hne : Double.ne d (intToDouble (doubleToInt hw d)) = true
    · simp only [hne, if_true]
    · simp only [hne, if_false, Bool.false_eq_true]
      by_cases hb : (if doubleToInt hw d < 0
            then wrapInt (wrapInt (strlen buf : Int) + doubleToInt hw d)
            else doubleToInt hw d) < 0
          ∨ (if doubleToInt hw d < 0
            then wrapInt (wrapInt (strlen buf : Int) + doubleToInt hw d)
            else doubleToInt hw d) ≥ wrapInt (strlen buf : Int)
      · simp only [hb, if_true]
      · simp only [hb, if_false]
        have h1 := wrapInt_le_of_nonneg (strlen buf : Int) (by omega) (by omega)
        have h2 := strlen_le_length buf
        have hlt : (if doubleToInt hw d < 0
            then wrapInt (wrapInt (strlen buf : Int) + doubleToInt hw d)
            else doubleToInt hw d).toNat < buf.length := by omega
        refine ⟨by omega, by omega, buf[_], List.getElem?_eq_getElem hlt, ?_⟩
        rw [List.getElem?_eq_getElem hlt]
        exact hstore _
  | bool b => simp [IS_NUM]
  | null => simp [IS_NUM]
  | obj q => simp [IS_NUM]

/-- C19 (as amended): `list_subscript` and `string_subscript` never read
outside the receiver.  For every index argument, an element of a list of `n`
elements, or a byte of a string of `n` bytes, is read only at an index `j` with
`0 ≤ j < n`, and the read yields the result; where nothing is read the result
is null.  For a list, and for a string of at most `INT_MAX` bytes, the sum
`n + i` of the normalisation of a negative index is an `int` for every `int`
`i`. -/
theorem subscript_reads_in_bounds (hw : Host) (vm : VM) (r q : Ref) (elements : List Value)
    (buf : List Nat) (v : Value)
    (hlist : vm.heap[r]? = some (Obj.list elements))
    (hcount : (elements.length : Int) ≤ INT_MAX)
    (hstr : vm.heap[q]? = some (Obj.string buf)) :
    (match list_subscript_read hw vm [Value.obj r, v] with
      | some j => 0 ≤ j ∧ j < (elements.length : Int) ∧
          ∃ e, elements[j.toNat]? = some e ∧
            primitive_list_subscript hw vm [Value.obj r, v] = some (e, vm)
      | none => primitive_list_subscript hw vm [Value.obj r, v] = some (NULL_VAL, vm)) ∧
    (match string_subscript_read hw vm [Value.obj q, v] with
      | some j => 0 ≤ j ∧ j < (strlen buf : Int) ∧
          ∃ c, buf[j.toNat]? = some c ∧
            primitive_string_subscript hw vm [Value.obj q, v]
              = some (Value.obj vm.heap.length, vm.alloc (Obj.string [c, 0, hw.fresh 2]))
      | none => primitive_string_subscript hw vm [Value.obj q, v] = some (NULL_VAL, vm)) ∧
    (∀ i : Int, INT_MIN ≤ i → i < 0 →
      wrapInt ((elements.length : Int) + i) = (elements.length : Int) + i) ∧
    ((strlen buf : Int) ≤ INT_MAX → ∀ i : Int, INT_MIN ≤ i → i < 0 →
      wrapInt (wrapInt (strlen buf : Int) + i) = (strlen buf : Int) + i) := by
  refine ⟨list_subscript_read_spec hw vm r elements v hlist,
    string_subscript_read_spec hw vm q buf v hstr, ?_, ?_⟩
  · intro i h1 h2
    exact normalise_no_overflow _ i (by omega) hcount h1 h2
  · intro hlen i h1 h2
    rw [wrapInt_of_range (strlen buf : Int) (by unfold INT_MIN; omega) hlen]
    exact normalise_no_overflow _ i (by omega) hlen h1 h2

/-- Instance of C19 (as amended): with index -1 the list [10, 20, 30] is read
at 2 and the string "abc" is read at 2; the sums 3 + i are `int`s. -/
theorem subscript_reads_in_bounds_witness :
    list_subscript_read sampleHost sampleVM [Value.obj 0, Value.num (dbl true 1)] = some 2 ∧
    string_subscript_read sampleHost sampleVM [Value.obj 1, Value.num (dbl true 1)] = some 2 ∧
    primitive_list_subscript sampleHost sampleVM [Value.obj 0, Value.num (dbl true 1)]
      = some (Value.num (dbl false 30), sampleVM) ∧
    (∀ i : Int, INT_MIN ≤ i → i < 0 → wrapInt (3 + i) = 3 + i) ∧
    (∀ i : Int, INT_MIN ≤ i → i < 0 → wrapInt (wrapInt 3 + i) = 3 + i) := by
  have h := subscript_reads_in_bounds sampleHost sampleVM 0 1
    [Value.num (dbl false 10), Value.num (dbl false 20), Value.num (dbl false 30)]
    [97, 98, 99, 0] (Value.num (dbl true 1)) rfl (by decide) rfl
  have hl : list_subscript_read sampleHost sampleVM [Value.obj 0, Value.num (dbl true 1)]
      = some 2 := by decide
  have hs : string_subscript_read sampleHost sampleVM [Value.obj 1, Value.num (dbl true 1)]
      = some 2 := by decide
  obtain ⟨h1, _, h3, h4⟩ := h
  rw [hl] at h1
  obtain ⟨_, _, e, he, hp⟩ := h1
  have he2 : e = Value.num (dbl false 30) := by
    have : (some (Value.num (dbl false 30)) : Option Value) = some e := he
    exact (Option.some.inj this).symm
  rw [he2] at hp
  exact ⟨hl, hs, hp, h3, h4 (by decide)⟩

/-- C19 as stated fails on a string of 2^31 bytes: `(int)strlen` is then
`INT_MIN`, and with the index -1 the sum `length + index` that
`string_subscript` computes lies below `INT_MIN`, so it is not an `int`. -/
theorem subscript_reads_in_bounds_counterexample :
    bigVM.heap[0]? = some (Obj.string bigString) ∧
    strlen bigString = 2147483648 ∧
    (dbl true 1).intValue? = some (-1) ∧
    wrapInt (strlen bigString : Int) + (-1) < INT_MIN ∧
    wrapInt (wrapInt (strlen bigString : Int) + (-1)) ≠ wrapInt (strlen bigString : Int) + (-1) ∧
    primitive_string_subscript sampleHost bigVM [Value.obj 0, Value.num (dbl true 1)]
      = some (NULL_VAL, bigVM) := by
  have hwrap : wrapInt ((2147483648 : Nat) : Int) = -2147483648 := by decide
  refine ⟨rfl, strlen_bigString, by decide, ?_, ?_, ?_⟩
  · rw [strlen_bigString, hwrap]
    decide
  · rw [strlen_bigString, hwrap]
    decide
  · rw [string_subscript_raw sampleHost bigVM 0 bigString (dbl true 1) (-1)
      rfl (by decide) (by decide) (by decide), strlen_bigString, hwrap]
    rw [if_pos (show ((-1 : Int) < 0) by decide)]
    exact if_pos (by decide)

/-! ## Num arithmetic -/

theorem bitLengthAux_le_iff (fuel : Nat) : ∀ (m n : Nat), m ≤ fuel →
    (bitLengthAux fuel m ≤ n ↔ m < 2 ^ n) := by
  induction fuel with
  | zero =>
    intro m n hm
    have : m = 0 := by omega
    subst this
    simp [bitLengthAux]
  | succ fuel ih =>
    intro m n hm
    unfold bitLengthAux
    by_cases h0 : m = 0
    · subst h0
      simp
    · rw [if_neg h0]
      cases n with
      | zero =>
        simp only [pow_zero, Nat.lt_one_iff]
        constructor
        · intro h; omega
        · intro h; exact absurd h h0
      | succ n =>
        rw [Nat.add_le_add_iff_right, ih (m / 2) n (by omega), pow_succ]
        exact Nat.div_lt_iff_lt_mul (by decide)

/-- A number has at most `n` binary digits exactly when it is below `2^n`. -/
theorem bitLength_le_iff (m n : Nat) : bitLength m ≤ n ↔ m < 2 ^ n :=
  bitLengthAux_le_iff m m n (Nat.le_refl m)

theorem pow_le_of_bitLength (m : Nat) (hm : m ≠ 0) : 2 ^ (bitLength m - 1) ≤ m := by
  by_contra h
  have h1 : m < 2 ^ (bitLength m - 1) := by omega
  have h2 := (bitLength_le_iff m (bitLength m - 1)).mpr h1
  have h3 : bitLength m ≠ 0 := by
    intro h0
    have := (bitLength_le_iff m 0).mp (by omega)
    simp at this
    exact hm this
  omega

theorem finiteDiff_self (n : Bool) (m : Nat) (e : Int) : finiteDiff n m e n m e = 0 := by
  unfold finiteDiff
  omega

/-- When a magnitude is a double, its excess bits lie below the exponent of
the double's significand. -/
theorem excess_le_of_isBinary64 (m : Nat) (e : Int) (s : Nat) (x : Int) (hm : m ≠ 0)
    (hs : s < 2 ^ 53) (hx : -1074 ≤ x)
    (heq : m * 2 ^ (e - min e x).toNat = s * 2 ^ (x - min e x).toNat)
    (hk : 0 < excessBits m e) : e + excessBits m e ≤ x := by
  by_contra hcon
  have hcon2 : x < e + excessBits m e := by omega
  unfold excessBits at hk hcon2
  have hL : (bitLength m : Int) - 53 > -1074 - e ∨ (bitLength m : Int) - 53 ≤ -1074 - e := by
    omega
  rcases hL with hL | hL
  · rw [max_eq_left (by omega)] at hk hcon2
    have hpow := pow_le_of_bitLength m hm
    by_cases hxe : x ≤ e
    · rw [min_eq_right hxe] at heq
      simp only [sub_self, Int.toNat_zero, pow_zero, mul_one] at heq
      have h1 : 2 ^ 53 ≤ 2 ^ (bitLength m - 1) := Nat.pow_le_pow_right (by decide) (by omega)
      have h2 : m ≤ m * 2 ^ (e - x).toNat := Nat.le_mul_of_pos_right _ (by positivity)
      omega
    · rw [min_eq_left (by omega)] at heq
      simp only [sub_self, Int.toNat_zero, pow_zero, mul_one] at heq
      have h1 : s * 2 ^ (x - e).toNat < 2 ^ 53 * 2 ^ (x - e).toNat :=
        Nat.mul_lt_mul_of_pos_right hs (by positivity)
      rw [← pow_add] at h1
      have h2 : 2 ^ (53 + (x - e).toNat) ≤ 2 ^ (bitLength m - 1) :=
        Nat.pow_le_pow_right (by decide) (by omega)
      omega
  · rw [max_eq_right hL] at hk hcon2
    omega

/-- Rounding leaves a value that is a double as it is. -/
theorem roundBinary64_exact (neg : Bool) (m : Nat) (e : Int)
    (h : (Double.finite neg m e).isBinary64) :
    Double.eq (roundBinary64 (Double.finite neg m e)) (Double.finite neg m e) = true := by
  obtain ⟨s, x, hs, hx1, hx2, heq⟩ := h
  unfold roundBinary64
  by_cases hm : m = 0
  · subst hm
    simp [Double.eq, finiteDiff, signed]
  · simp only [if_neg hm]
    by_cases hk : excessBits m e ≤ 0
    · have hr : roundMag m e = (m, e) := by unfold roundMag; rw [if_pos hk]
      rw [hr]
      have hno : ¬ (1024 < (bitLength m : Int) + e) := by
        by_cases hxe : x ≤ e
        · rw [min_eq_right hxe] at heq
          simp only [sub_self, Int.toNat_zero, pow_zero, mul_one] at heq
          have hc : (e - x).toNat ≤ 53 := by
            by_contra hc
            have h1 : 2 ^ 53 ≤ 2 ^ (e - x).toNat := Nat.pow_le_pow_right (by decide) (by omega)
            have h2 : 2 ^ (e - x).toNat ≤ m * 2 ^ (e - x).toNat :=
              Nat.le_mul_of_pos_left _ (by omega)
            omega
          have h3 : m < 2 ^ (53 - (e - x).toNat) := by
            by_contra h3
            have h4 : 2 ^ (53 - (e - x).toNat) * 2 ^ (e - x).toNat ≤ m * 2 ^ (e - x).toNat :=
              Nat.mul_le_mul_right _ (by omega)
            rw [← pow_add, Nat.sub_add_cancel hc] at h4
            omega
          have h5 := (bitLength_le_iff m _).mpr h3
          omega
        · rw [min_eq_left (by omega)] at heq
          simp only [sub_self, Int.toNat_zero, pow_zero, mul_one] at heq
          have h1 : s * 2 ^ (x - e).toNat < 2 ^ 53 * 2 ^ (x - e).toNat :=
            Nat.mul_lt_mul_of_pos_right hs (by positivity)
          rw [← pow_add, ← heq] at h1
          have h5 := (bitLength_le_iff m _).mpr h1
          omega
      rw [if_neg hno]
      simp [Double.eq, finiteDiff_self]
    · have hk2 : 0 < excessBits m e := by omega
      have hle := excess_le_of_isBinary64 m e s x hm hs hx1 heq hk2
      obtain ⟨k, hkk⟩ : ∃ k : Nat, excessBits m e = (k : Int) := ⟨(excessBits m e).toNat, by omega⟩
      obtain ⟨d, hd⟩ : ∃ d : Nat, x = e + (k : Int) + (d : Int) :=
        ⟨(x - e - k).toNat, by omega⟩
      rw [min_eq_left (by omega)] at heq
      simp only [sub_self, Int.toNat_zero, pow_zero, mul_one] at heq
      have hxe : (x - e).toNat = d + k := by omega
      rw [hxe, pow_add, ← Nat.mul_assoc] at heq
      have hkpos : 0 < 2 ^ k := by positivity
      have hq : m / 2 ^ k = s * 2 ^ d := by
        rw [heq]; exact Nat.mul_div_cancel _ hkpos
      have hrem : m % 2 ^ k = 0 := by
        rw [heq]; exact Nat.mul_mod_left _ _
      have hr : roundMag m e = (s * 2 ^ d, e + (k : Int)) := by
        unfold roundMag
        rw [if_neg hk]
        simp only [hkk, Int.toNat_ofNat, hq, hrem]
        have h1 : ¬ (2 ^ (k - 1) < 0 ∨ (0 = 2 ^ (k - 1) ∧ s * 2 ^ d % 2 = 1)) := by
          intro h
          rcases h with h | ⟨h, _⟩
          · exact absurd h (Nat.not_lt_zero _)
          · exact absurd h.symm (Nat.pos_iff_ne_zero.mp (by positivity))
        rw [if_neg h1]
      rw [hr]
      have hno : ¬ (1024 < (bitLength (s * 2 ^ d) : Int) + (e + (k : Int))) := by
        have h1 : s * 2 ^ d < 2 ^ 53 * 2 ^ d := Nat.mul_lt_mul_of_pos_right hs (by positivity)
        rw [← pow_add] at h1
        have h5 := (bitLength_le_iff _ _).mpr h1
        omega
      simp only [hno, if_false]
      have hz : finiteDiff neg (s * 2 ^ d) (e + (k : Int)) neg m e = 0 := by
        unfold finiteDiff
        rw [min_eq_right (by omega)]
        have e1 : (e + (k : Int) - e).toNat = k := by omega
        simp only [e1, sub_self, Int.toNat_zero, pow_zero, mul_one, ← heq]
      simp [Double.eq, hz]

/-- Rounding returns the same number whenever the exact value is a double. -/
theorem roundBinary64_sameValue (d : Double) (h : d.isBinary64) :
    (roundBinary64 d).sameValue d := by
  cases d with
  | finite neg m e => exact Or.inr (roundBinary64_exact neg m e h)
  | inf n => exact Or.inl rfl
  | nan => exact Or.inl rfl

theorem num_plus_nums (hw : Host) (vm : VM) (a b : Double) :
    primitive_num_plus hw vm [Value.num a, Value.num b] = some (Value.num (hw.fadd a b), vm) := by
  simp [primitive_num_plus, IS_NUM, AS_NUM, NUM_VAL]

theorem num_minus_nums (hw : Host) (vm : VM) (a b : Double) :
    primitive_num_minus hw vm [Value.num a, Value.num b] = some (Value.num (hw.fsub a b), vm) := by
  simp [primitive_num_minus, IS_NUM, AS_NUM, NUM_VAL]

theorem num_multiply_nums (hw : Host) (vm : VM) (a b : Double) :
    primitive_num_multiply hw vm [Value.num a, Value.num b]
      = some (Value.num (hw.fmul a b), vm) := by
  simp [primitive_num_multiply, IS_NUM, AS_NUM, NUM_VAL]

/-- The odd number 2^53 + 1 is not a double. -/
theorem not_isBinary64_odd : ¬ (dbl false 9007199254740993).isBinary64 := by
  rintro ⟨s, x, hs, _, _, heq⟩
  by_cases hx : x ≤ 0
  · rw [min_eq_right hx] at heq
    simp only [sub_self, Int.toNat_zero, pow_zero, mul_one] at heq
    have h1 : 9007199254740993 ≤ 9007199254740993 * 2 ^ (0 - x).toNat :=
      Nat.le_mul_of_pos_right _ (by positivity)
    have h2 : (2 : Nat) ^ 53 = 9007199254740992 := by norm_num
    omega
  · rw [min_eq_left (by omega)] at heq
    simp only [sub_self, Int.toNat_zero, pow_zero, mul_one] at heq
    obtain ⟨t, ht⟩ : ∃ t : Nat, (x - 0).toNat = t + 1 := ⟨(x - 0).toNat - 1, by omega⟩
    rw [ht, pow_succ, ← Nat.mul_assoc] at heq
    omega

/-- C17 (as amended): on a host whose double arithmetic is IEEE 754 binary64,
for all Num operands `a` and `b`, `num_plus` returns the Num that is the
arithmetic sum `a + b` rounded to the nearest double (ties to even), and it is
the same number as the arithmetic sum whenever that sum is a double;
`num_minus` and `num_multiply` likewise return the rounded difference and
product. -/
theorem num_arithmetic (hw : Host) (vm : VM) (a b : Double)
    (hadd : hw.fadd = ieeeAdd) (hsub : hw.fsub = ieeeSub) (hmul : hw.fmul = ieeeMul) :
    (primitive_num_plus hw vm [Value.num a, Value.num b]
        = some (Value.num (roundBinary64 (exactAdd a b)), vm) ∧
      ((exactAdd a b).isBinary64 → (roundBinary64 (exactAdd a b)).sameValue (exactAdd a b))) ∧
    (primitive_num_minus hw vm [Value.num a, Value.num b]
        = some (Value.num (roundBinary64 (exactSub a b)), vm) ∧
      ((exactSub a b).isBinary64 → (roundBinary64 (exactSub a b)).sameValue (exactSub a b))) ∧
    (primitive_num_multiply hw vm [Value.num a, Value.num b]
        = some (Value.num (roundBinary64 (exactMul a b)), vm) ∧
      ((exactMul a b).isBinary64 → (roundBinary64 (exactMul a b)).sameValue (exactMul a b))) := by
  refine ⟨⟨?_, roundBinary64_sameValue _⟩, ⟨?_, roundBinary64_sameValue _⟩,
    ⟨?_, roundBinary64_sameValue _⟩⟩
  · rw [num_plus_nums, hadd]; rfl
  · rw [num_minus_nums, hsub]; rfl
  · rw [num_multiply_nums, hmul]; rfl

/-- Instance of C17 (as amended): with double-precision arithmetic `2 + 3`
yields the Num 5, `2 - 3` the Num -1 and `2 * 3` the Num 6. -/
theorem num_arithmetic_witness :
    primitive_num_plus ieeeHost sampleVM [Value.num (dbl false 2), Value.num (dbl false 3)]
      = some (Value.num (dbl false 5), sampleVM) ∧
    primitive_num_minus ieeeHost sampleVM [Value.num (dbl false 2), Value.num (dbl false 3)]
      = some (Value.num (dbl true 1), sampleVM) ∧
    primitive_num_multiply ieeeHost sampleVM [Value.num (dbl false 2), Value.num (dbl false 3)]
      = some (Value.num (dbl false 6), sampleVM) ∧
    exactAdd (dbl false 2) (dbl false 3) = dbl false 5 := by
  obtain ⟨⟨h1, _⟩, ⟨h2, _⟩, ⟨h3, _⟩⟩ :=
    num_arithmetic ieeeHost sampleVM (dbl false 2) (dbl false 3) rfl rfl rfl
  have e1 : roundBinary64 (exactAdd (dbl false 2) (dbl false 3)) = dbl false 5 := by decide
  have e2 : roundBinary64 (exactSub (dbl false 2) (dbl false 3)) = dbl true 1 := by decide
  have e3 : roundBinary64 (exactMul (dbl false 2) (dbl false 3)) = dbl false 6 := by decide
  rw [e1] at h1
  rw [e2] at h2
  rw [e3] at h3
  exact ⟨h1, h2, h3, by decide⟩

/-- C17 as stated fails for 2^53 + 1: the arithmetic sum 9007199254740993 is
not a double, and `num_plus` returns the Num 9007199254740992. -/
theorem num_arithmetic_counterexample :
    exactAdd (dbl false 9007199254740992) (dbl false 1) = dbl false 9007199254740993 ∧
    ¬ (dbl false 9007199254740993).isBinary64 ∧
    primitive_num_plus ieeeHost sampleVM
        [Value.num (dbl false 9007199254740992), Value.num (dbl false 1)]
      = some (Value.num (Double.finite false 4503599627370496 1), sampleVM) ∧
    (Double.finite false 4503599627370496 1).intValue? = some 9007199254740992 ∧
    Double.eq (Double.finite false 4503599627370496 1) (dbl false 9007199254740993) = false := by
  refine ⟨by decide, not_isBinary64_odd, ?_, by decide, by decide⟩
  rw [num_plus_nums]
  have e1 : ieeeHost.fadd (dbl false 9007199254740992) (dbl false 1)
      = Double.finite false 4503599627370496 1 := by decide
  rw [e1]

/-! ## `loadCore` makes no check of the globals -/

/-- Every registration of `loadCore` stores a native function. -/
theorem coreRegs_native (k : CoreClasses) : ∀ r ∈ coreRegsOf k, r.method.isNative = true := by
  simp [coreRegsOf, coreRegs, boolRegs, fnRegs, listRegs, numRegs, stringRegs, Method.isNative]

/-- Every registration of `loadCore` is on one of seven classes. -/
theorem coreRegs_cls (k : CoreClasses) : ∀ r ∈ coreRegsOf k,
    r.cls ∈ [k.boolC, k.fnC, k.listC, k.numC, k.stringC, k.ioC, k.osMeta] := by
  simp [coreRegsOf, coreRegs, boolRegs, fnRegs, listRegs, numRegs, stringRegs]

theorem coreRegs_isClass (vm : VM) (k : CoreClasses) (h : PreludeWeak vm k) :
    ∀ r ∈ coreRegsOf k, isClassAt vm.heap r.cls = true := by
  intro r hr
  obtain ⟨hb, _, hf, hl, _, hn, hs, hio, _, _, hmc, _⟩ := h
  have := coreRegs_cls k r hr
  simp only [List.mem_cons, List.mem_singleton, List.not_mem_nil, or_false] at this
  rcases this with e | e | e | e | e | e | e <;> rw [e]
  · exact globalClass_isClass vm _ _ hb
  · exact globalClass_isClass vm _ _ hf
  · exact globalClass_isClass vm _ _ hl
  · exact globalClass_isClass vm _ _ hn
  · exact globalClass_isClass vm _ _ hs
  · exact globalClass_isClass vm _ _ hio
  · exact hmc

/-- The method of a registered class and selector once `loadCore` has returned,
in a state where Class and Null may be bound to any objects. -/
theorem findMethod_loadCore_weak (vm : VM) (k : CoreClasses) (h : PreludeWeak vm k) (vm1 : VM)
    (hload : loadCore vm = some vm1) (c : Ref) (name : String)
    (hc : isClassAt vm.heap c = true) (r : Reg) (hr : r ∈ coreRegsOf k) (hname : r.name = name) :
    findMethod vm1 c name
      = (lastReg (coreRegsOf k) c name).getD (entryAt vm.heap c (vm1.methods.indexOf name)) := by
  obtain ⟨vm0, k2, hl, hm, hh, _⟩ := loadCore_weak vm k h
  rw [hload] at hl
  have hv : vm1 = vm0 := Option.some.inj hl
  subst hv
  have hmem : name ∈ vm1.methods := by
    rw [hm, ← hname]
    exact applyRegs_mem _ _ r hr
  unfold findMethod
  rw [if_pos hmem]
  show entryAt vm1.heap c _ = _
  have hlt : c < (applyRegs (vm.methods, vm.heap) (coreRegsOf k)).2.length := by
    rw [length_applyRegs]
    exact isClassAt_lt _ _ hc
  rw [hh, entryAt_append_left _ _ _ _ hlt, hm]
  rw [hm] at hmem
  exact entryAt_applyRegs (coreRegsOf k) (vm.methods, vm.heap) c name hc hmem

theorem callSelector_length (i : Nat) : (callSelector i).length = 4 + i := by
  unfold callSelector
  rw [String.length_append]
  simp [String.length]

/-- Call selectors of different arities are different texts. -/
theorem callSelector_injective (i j : Nat) (h : callSelector i = callSelector j) : i = j := by
  have h1 := congrArg String.length h
  rw [callSelector_length, callSelector_length] at h1
  omega

/-- The registration of the call selector of each arity up to 8. -/
theorem callSelector_reg (k : CoreClasses) (i : Nat) (hi : i < 9) :
    ∃ p, callPrims[i]? = some p ∧
      (⟨k.fnC, callSelector i, Method.fiber p⟩ : Reg) ∈ coreRegsOf k ∧
      lastReg (coreRegsOf k) k.fnC (callSelector i) = some (Method.fiber p) := by
  obtain ⟨s0, s1, s2, s3, s4, s5, s6, s7, s8⟩ := callSelector_values
  interval_cases i
  · rw [s0]
    exact ⟨FiberPrim.fn_call0, rfl, fnRegs_sub k _ (by simp [fnRegs]),
      by simp [lastReg, coreRegsOf, coreRegs, boolRegs, fnRegs, listRegs, numRegs, stringRegs]⟩
  · rw [s1]
    exact ⟨FiberPrim.fn_call1, rfl, fnRegs_sub k _ (by simp [fnRegs]),
      by simp [lastReg, coreRegsOf, coreRegs, boolRegs, fnRegs, listRegs, numRegs, stringRegs]⟩
  · rw [s2]
    exact ⟨FiberPrim.fn_call2, rfl, fnRegs_sub k _ (by simp [fnRegs]),
      by simp [lastReg, coreRegsOf, coreRegs, boolRegs, fnRegs, listRegs, numRegs, stringRegs]⟩
  · rw [s3]
    exact ⟨FiberPrim.fn_call3, rfl, fnRegs_sub k _ (by simp [fnRegs]),
      by simp [lastReg, coreRegsOf, coreRegs, boolRegs, fnRegs, listRegs, numRegs, stringRegs]⟩
  · rw [s4]
    exact ⟨FiberPrim.fn_call4, rfl, fnRegs_sub k _ (by simp [fnRegs]),
      by simp [lastReg, coreRegsOf, coreRegs, boolRegs, fnRegs, listRegs, numRegs, stringRegs]⟩
  · rw [s5]
    exact ⟨FiberPrim.fn_call5, rfl, fnRegs_sub k _ (by simp [fnRegs]),
      by simp [lastReg, coreRegsOf, coreRegs, boolRegs, fnRegs, listRegs, numRegs, stringRegs]⟩
  · rw [s6]
    exact ⟨FiberPrim.fn_call6, rfl, fnRegs_sub k _ (by simp [fnRegs]),
      by simp [lastReg, coreRegsOf, coreRegs, boolRegs, fnRegs, listRegs, numRegs, stringRegs]⟩
  · rw [s7]
    exact ⟨FiberPrim.fn_call7, rfl, fnRegs_sub k _ (by simp [fnRegs]),
      by simp [lastReg, coreRegsOf, coreRegs, boolRegs, fnRegs, listRegs, numRegs, stringRegs]⟩
  · rw [s8]
    exact ⟨FiberPrim.fn_call8, rfl, fnRegs_sub k _ (by simp [fnRegs]),
      by simp [lastReg, coreRegsOf, coreRegs, boolRegs, fnRegs, listRegs, numRegs, stringRegs]⟩

/-- C11: the call selectors ("call" followed by 0 to 8 spaces) are pairwise
different texts; once `loadCore` has returned each of the nine is in the symbol
table, their symbol ids are pairwise different, and the Function class holds
under each of them, at the same time, the call function of that arity. -/
theorem call_selectors_distinct (vm : VM) (k : CoreClasses) (h : PreludeWeak vm k) :
    (∀ i j : Nat, i ≠ j → callSelector i ≠ callSelector j) ∧
    ∃ vm1, loadCore vm = some vm1 ∧
      (∀ i, i < 9 → callSelector i ∈ vm1.methods) ∧
      (∀ i j, i < 9 → j < 9 → i ≠ j →
        vm1.methods.indexOf (callSelector i) ≠ vm1.methods.indexOf (callSelector j)) ∧
      (∀ i, i < 9 → ∃ p, callPrims[i]? = some p ∧
        findMethod vm1 vm1.fnClass (callSelector i) = Method.fiber p ∧
        methodAt vm1 vm1.fnClass (vm1.methods.indexOf (callSelector i)) = Method.fiber p) := by
  obtain ⟨vm1, k2, hl, hm, _, _, _, hfn, _⟩ := loadCore_weak vm k h
  have hc : isClassAt vm.heap k.fnC = true := globalClass_isClass vm _ _ h.2.2.1
  have hmem : ∀ i, i < 9 → callSelector i ∈ vm1.methods := by
    intro i hi
    obtain ⟨p, _, hr, _⟩ := callSelector_reg k i hi
    rw [hm]
    exact applyRegs_mem _ _ _ hr
  refine ⟨fun i j hij heq => hij (callSelector_injective i j heq), vm1, hl, hmem, ?_, ?_⟩
  · intro i j hi hj hij heq
    exact hij (callSelector_injective i j ((List.indexOf_inj (hmem i hi) (hmem j hj)).mp heq))
  · intro i hi
    obtain ⟨p, hp, hr, hlast⟩ := callSelector_reg k i hi
    have hf : findMethod vm1 k.fnC (callSelector i) = Method.fiber p := by
      rw [findMethod_loadCore_weak vm k h vm1 hl k.fnC _ hc _ hr rfl, hlast]
      rfl
    refine ⟨p, hp, by rw [hfn]; exact hf, ?_⟩
    rw [hfn]
    unfold findMethod at hf
    rw [if_pos (hmem i hi)] at hf
    exact hf

/-- Instance of C11: after `loadCore` on `preludeVM` the selectors "call" and
"call " have different symbol ids, and the Function class holds `fn_call0`
under the first and `fn_call1` under the second. -/
theorem call_selectors_distinct_witness :
    ∃ vm1, loadCore preludeVM = some vm1 ∧
      vm1.methods.indexOf "call" ≠ vm1.methods.indexOf "call " ∧
      findMethod vm1 vm1.fnClass "call" = Method.fiber FiberPrim.fn_call0 ∧
      findMethod vm1 vm1.fnClass "call " = Method.fiber FiberPrim.fn_call1 := by
  obtain ⟨_, vm1, hl, _, hne, hall⟩ :=
    call_selectors_distinct preludeVM preludeClasses
      (preludeWeak_of_preludeOk _ _ preludeVM_ok)
  obtain ⟨p0, hp0, hf0, _⟩ := hall 0 (by decide)
  obtain ⟨p1, hp1, hf1, _⟩ := hall 1 (by decide)
  have e0 : p0 = FiberPrim.fn_call0 := (Option.some.inj hp0).symm
  have e1 : p1 = FiberPrim.fn_call1 := (Option.some.inj hp1).symm
  rw [e0] at hf0
  rw [e1] at hf1
  exact ⟨vm1, hl, hne 0 1 (by decide) (by decide) (by decide), hf0, hf1⟩

/-! ## The method-table writes of `loadCore` -/

theorem setMethodEntry_some (H H1 : List Obj) (c : Ref) (sym : Nat) (m : Method)
    (h : setMethodEntry H c sym m = some H1) :
    isClassAt H c = true ∧ (∀ r, r ≠ c → H1[r]? = H[r]?) ∧ H1.length = H.length := by
  unfold setMethodEntry at h
  unfold isClassAt
  cases ho : H[c]? with
  | none => rw [ho] at h; exact Option.noConfusion h
  | some o =>
    rw [ho] at h
    cases o with
    | cls k =>
      have e : H.set c _ = H1 := Option.some.inj h
      refine ⟨rfl, ?_, ?_⟩
      · intro r hr
        rw [← e, List.getElem?_set_ne (Ne.symm hr)]
      · rw [← e, List.length_set]
    | string v => exact Option.noConfusion h
    | list v => exact Option.noConfusion h
    | fn v => exact Option.noConfusion h
    | inst a b => exact Option.noConfusion h

/-- One write `cls->methods[symbol] = m`: the entry at that class and symbol
becomes `m`, every other entry and every other object stay as they are. -/
theorem setMethodEntry_frame (H H1 : List Obj) (c : Ref) (sym : Nat) (m : Method)
    (h : setMethodEntry H c sym m = some H1) :
    (∀ c2 sym2, entryAt H1 c2 sym2 = if c = c2 ∧ sym = sym2 then m else entryAt H c2 sym2) ∧
    (∀ r, r ≠ c → H1[r]? = H[r]?) := by
  obtain ⟨hc, hother, _⟩ := setMethodEntry_some H H1 c sym m h
  refine ⟨?_, hother⟩
  intro c2 sym2
  have := entryAt_setMethodEntry H c sym m c2 sym2 (fun _ => hc)
  rw [h] at this
  exact this

theorem PRIMITIVE_frame (S S1 : VM) (cls : Ref) (name : String) (prim : Prim)
    (h : PRIMITIVE S cls name prim = some S1) :
    (∀ c sym, methodAt S1 c sym
      = if cls = c ∧ (ensureSymbol S.methods name).1 = sym then Method.primitive prim
        else methodAt S c sym) ∧
    (∀ r, r ≠ cls → S1.heap[r]? = S.heap[r]?) := by
  unfold PRIMITIVE at h
  cases hs : setMethodEntry S.heap cls (ensureSymbol S.methods name).1 (Method.primitive prim) with
  | none => rw [hs] at h; exact Option.noConfusion h
  | some H1 =>
    rw [hs] at h
    have e : S1 = _ := (Option.some.inj h).symm
    subst e
    exact setMethodEntry_frame _ _ _ _ _ hs

theorem FIBER_PRIMITIVE_frame (S S1 : VM) (cls : Ref) (name : String) (prim : FiberPrim)
    (h : FIBER_PRIMITIVE S cls name prim = some S1) :
    (∀ c sym, methodAt S1 c sym
      = if cls = c ∧ (ensureSymbol S.methods name).1 = sym then Method.fiber prim
        else methodAt S c sym) ∧
    (∀ r, r ≠ cls → S1.heap[r]? = S.heap[r]?) := by
  unfold FIBER_PRIMITIVE at h
  cases hs : setMethodEntry S.heap cls (ensureSymbol S.methods name).1 (Method.fiber prim) with
  | none => rw [hs] at h; exact Option.noConfusion h
  | some H1 =>
    rw [hs] at h
    have e : S1 = _ := (Option.some.inj h).symm
    subst e
    exact setMethodEntry_frame _ _ _ _ _ hs

/-- The symbol id of a name that is in the table stays when the table grows. -/
theorem indexOf_applyRegs (regs : List Reg) (st : List String × List Obj) (name : String)
    (h : name ∈ st.1) : (applyRegs st regs).1.indexOf name = st.1.indexOf name := by
  obtain ⟨e, he⟩ := applyRegs_ext regs st
  rw [he, List.indexOf_append_of_mem h]

/-- After a list of registrations on classes, an entry is what it was, or it is
the method of one of the registrations for its class and symbol. -/
theorem entryAt_applyRegs_cases (regs : List Reg) (st : List String × List Obj) (c : Ref)
    (sym : Nat) (hcls : ∀ r ∈ regs, isClassAt st.2 r.cls = true) :
    entryAt (applyRegs st regs).2 c sym = entryAt st.2 c sym ∨
    ∃ r ∈ regs, r.cls = c ∧ (applyRegs st regs).1.indexOf r.name = sym ∧
      entryAt (applyRegs st regs).2 c sym = r.method := by
  induction regs generalizing st with
  | nil => exact Or.inl rfl
  | cons r rs ih =>
    rw [applyRegs_cons]
    have hcls2 : ∀ r2 ∈ rs, isClassAt (applyReg st r).2 r2.cls = true := by
      intro r2 h2
      rw [isClassAt_applyReg]
      exact hcls r2 (List.mem_cons_of_mem _ h2)
    rcases ih (applyReg st r) hcls2 with h | ⟨r2, h2, hc, hi, hm⟩
    · have hw := entryAt_setMethodEntry st.2 r.cls (ensureSymbol st.1 r.name).1 r.method c sym
        (fun _ => hcls r (List.mem_cons_self _ _))
      have hw2 : entryAt (applyReg st r).2 c sym
          = if r.cls = c ∧ (ensureSymbol st.1 r.name).1 = sym then r.method
            else entryAt st.2 c sym := hw
      by_cases hcond : r.cls = c ∧ (ensureSymbol st.1 r.name).1 = sym
      · rw [if_pos hcond] at hw2
        refine Or.inr ⟨r, List.mem_cons_self _ _, hcond.1, ?_, h.trans hw2⟩
        have hmem : r.name ∈ (applyReg st r).1 := ensureSymbol_mem st.1 r.name
        rw [indexOf_applyRegs rs (applyReg st r) r.name hmem, ← hcond.2]
        exact (ensureSymbol_fst st.1 r.name).symm
      · rw [if_neg hcond] at hw2
        exact Or.inl (h.trans hw2)
    · exact Or.inr ⟨r2, List.mem_cons_of_mem _ h2, hc, hi, hm⟩

/-- Registrations leave the objects that are not their classes as they are. -/
theorem getElem?_applyRegs (regs : List Reg) (st : List String × List Obj) (r : Ref)
    (h : ∀ x ∈ regs, x.cls ≠ r) : (applyRegs st regs).2[r]? = st.2[r]? := by
  induction regs generalizing st with
  | nil => rfl
  | cons x xs ih =>
    rw [applyRegs_cons, ih (applyReg st x) (fun y hy => h y (List.mem_cons_of_mem _ hy))]
    show ((setMethodEntry st.2 x.cls (ensureSymbol st.1 x.name).1 x.method).getD st.2)[r]? = _
    cases hs : setMethodEntry st.2 x.cls (ensureSymbol st.1 x.name).1 x.method with
    | none => rfl
    | some H1 =>
      exact (setMethodEntry_some _ _ _ _ _ hs).2.1 r (Ne.symm (h x (List.mem_cons_self _ _)))

theorem methodAt_eq_entryAt (vm : VM) (c : Ref) (sym : Nat) :
    methodAt vm c sym = entryAt vm.heap c sym := rfl

theorem entryAt_of_getElem? (H1 H2 : List Obj) (c : Ref) (sym : Nat) (h : H1[c]? = H2[c]?) :
    entryAt H1 c sym = entryAt H2 c sym := by
  unfold entryAt
  rw [h]

theorem methodVM_weak : PreludeWeak methodVM preludeClasses := by
  refine ⟨?_, ?_, ?_, ?_, ?_, ?_, ?_, ?_, ?_, ?_, ?_, ?_⟩ <;> rfl

/-- C16: every method-table write of `loadCore`, by `PRIMITIVE` or by
`FIBER_PRIMITIVE`, stores a primitive or a fiber primitive and changes the
entry of its class at its symbol id and nothing else.  Hence, once `loadCore`
has returned, an entry of an object that was there before is what it was or is
the native method of a registration for its class and symbol id; no entry that
was not None is None; the objects other than the seven classes written to are
as they were, and so are the entries at symbol ids other than those of the
registered selectors. -/
theorem loadCore_writes_native (vm : VM) (k : CoreClasses) (h : PreludeWeak vm k) :
    (∀ (S S1 : VM) (cls : Ref) (name : String) (prim : Prim),
      PRIMITIVE S cls name prim = some S1 →
      (∀ c sym, methodAt S1 c sym
        = if cls = c ∧ (ensureSymbol S.methods name).1 = sym then Method.primitive prim
          else methodAt S c sym) ∧
      (∀ r, r ≠ cls → S1.heap[r]? = S.heap[r]?)) ∧
    (∀ (S S1 : VM) (cls : Ref) (name : String) (prim : FiberPrim),
      FIBER_PRIMITIVE S cls name prim = some S1 →
      (∀ c sym, methodAt S1 c sym
        = if cls = c ∧ (ensureSymbol S.methods name).1 = sym then Method.fiber prim
          else methodAt S c sym) ∧
      (∀ r, r ≠ cls → S1.heap[r]? = S.heap[r]?)) ∧
    ∃ vm1, loadCore vm = some vm1 ∧
      (∀ c sym, c < vm.heap.length →
        methodAt vm1 c sym = methodAt vm c sym ∨
        ∃ r ∈ coreRegsOf k, r.cls = c ∧ vm1.methods.indexOf r.name = sym ∧
          methodAt vm1 c sym = r.method ∧ r.method.isNative = true) ∧
      (∀ c sym, methodAt vm c sym ≠ Method.none → methodAt vm1 c sym ≠ Method.none) ∧
      (∀ r, r < vm.heap.length →
        r ∉ [k.boolC, k.fnC, k.listC, k.numC, k.stringC, k.ioC, k.osMeta] →
        vm1.heap[r]? = vm.heap[r]?) ∧
      (∀ c sym, c < vm.heap.length →
        (∀ r ∈ coreRegsOf k, vm1.methods.indexOf r.name ≠ sym) →
        methodAt vm1 c sym = methodAt vm c sym) := by
  refine ⟨fun S S1 cls name prim hp => PRIMITIVE_frame S S1 cls name prim hp,
    fun S S1 cls name prim hp => FIBER_PRIMITIVE_frame S S1 cls name prim hp, ?_⟩
  obtain ⟨vm1, k2, hl, hm, hh, _⟩ := loadCore_weak vm k h
  have hold : ∀ c, c < vm.heap.length →
      vm1.heap[c]? = (applyRegs (vm.methods, vm.heap) (coreRegsOf k)).2[c]? := by
    intro c hc
    rw [hh, List.getElem?_append_left (by rw [length_applyRegs]; exact hc)]
  have hcases : ∀ c sym, c < vm.heap.length →
      methodAt vm1 c sym = methodAt vm c sym ∨
      ∃ r ∈ coreRegsOf k, r.cls = c ∧ vm1.methods.indexOf r.name = sym ∧
        methodAt vm1 c sym = r.method ∧ r.method.isNative = true := by
    intro c sym hc
    have e1 : methodAt vm1 c sym
        = entryAt (applyRegs (vm.methods, vm.heap) (coreRegsOf k)).2 c sym :=
      entryAt_of_getElem? _ _ c sym (hold c hc)
    rcases entryAt_applyRegs_cases (coreRegsOf k) (vm.methods, vm.heap) c sym
      (coreRegs_isClass vm k h) with h1 | ⟨r, hr, hrc, hri, hrm⟩
    · exact Or.inl (e1.trans h1)
    · exact Or.inr ⟨r, hr, hrc, by rw [hm]; exact hri, e1.trans hrm, coreRegs_native k r hr⟩
  refine ⟨vm1, hl, hcases, ?_, ?_, ?_⟩
  · intro c sym hne
    have hc : c < vm.heap.length := by
      by_contra hge
      apply hne
      unfold methodAt
      rw [List.getElem?_eq_none (not_lt.mp hge)]
    rcases hcases c sym hc with h1 | ⟨r, _, _, _, hrm, hnat⟩
    · rw [h1]; exact hne
    · rw [hrm]
      intro h0
      rw [h0] at hnat
      exact Bool.noConfusion hnat
  · intro r hr hnot
    rw [hold r hr]
    apply getElem?_applyRegs
    intro x hx hxr
    apply hnot
    rw [← hxr]
    exact coreRegs_cls k x hx
  · intro c sym hc hsym
    rcases hcases c sym hc with h1 | ⟨r, hr, _, hri, _⟩
    · exact h1
    · exact absurd hri (hsym r hr)

/-- Instance of C16: in a state where the class Num has a block under the
symbol 0, `loadCore` returns and that entry is not None afterwards; the
instance `io` is as it was. -/
theorem loadCore_writes_native_witness :
    methodAt methodVM 11 0 = Method.block 0 ∧
    ∃ vm1, loadCore methodVM = some vm1 ∧
      methodAt vm1 11 0 ≠ Method.none ∧
      vm1.heap[18]? = some (Obj.inst 17 []) := by
  obtain ⟨_, _, vm1, hl, _, hkeep, hobj, _⟩ :=
    loadCore_writes_native methodVM preludeClasses methodVM_weak
  refine ⟨rfl, vm1, hl, hkeep 11 0 (by decide), ?_⟩
  rw [hobj 18 (by decide) (by decide)]
  rfl

end Wren
